import Mathlib

/-!
# ConsoleGraphicsRenderer: a shallow embedding of `ConsoleGraphics.h`

The engine's drawing state and input tracker are embedded as pure functions.

Conventions of the embedding

* C++ `int` is `Int`; signed overflow is undefined behaviour in the source and
  the embedding describes the executions that are free of it.
* A colour attribute (`short` argument, `WORD` field, `COLOR` enumerator) and a
  glyph (`PIXEL_TYPE`, `WCHAR`) are represented by their 16-bit pattern, a `Nat`;
  the conversions between those C++ types keep the pattern.
* `m_bufScreenData` is the memory reachable from the buffer's base pointer, a
  map from element offsets to cells.  A write at any offset is visible in the
  map, so a theorem that says "no other cell changes" also covers offsets
  outside `0 .. width*height - 1`.
* `float` and `double` values are represented by the rational number they
  denote and arithmetic on them is exact.
* A counted loop runs on a fuel argument that is set to the number of
  iterations the loop condition allows; the loop condition itself is still
  tested in every iteration.
-/

namespace ConsoleGraphicsRenderer

/-! ## Data model -/

/-- Enumerator `FG_BLACK` of `COLOR`. -/
def FG_BLACK : Nat := 0x0000
/-- Enumerator `FG_RED` of `COLOR`. -/
def FG_RED : Nat := 0x000C
/-- Enumerator `FG_WHITE` of `COLOR`. -/
def FG_WHITE : Nat := 0x000F
/-- Enumerator `PIXEL_SOLID` of `PIXEL_TYPE`. -/
def PIXEL_SOLID : Nat := 0x2588

/-- The template `cf::vec_2d<T>`: a pair of components. -/
structure vec_2d (T : Type) where
  x : T
  y : T
deriving DecidableEq, Repr

/-- The alias `point_2d = cf::vec_2d<int>`. -/
abbrev point_2d := vec_2d Int

/-- One cell of the screen buffer (`CHAR_INFO`): a glyph and a colour attribute. -/
structure CHAR_INFO where
  UnicodeChar : Nat
  Attributes : Nat
deriving DecidableEq, Repr

/-- The drawing state of `class ConsoleGraphics`: the grid dimensions and the
memory behind `m_bufScreenData`, indexed by element offset. -/
structure ConsoleGraphics where
  m_screenWidth : Int
  m_screenHeight : Int
  m_bufScreenData : Int → CHAR_INFO

/-- The guard of `Pixelate`: the point is a cell of the grid. -/
def InGrid (g : ConsoleGraphics) (p : point_2d) : Prop :=
  p.x ≥ 0 ∧ p.x < g.m_screenWidth ∧ p.y ≥ 0 ∧ p.y < g.m_screenHeight

instance (g : ConsoleGraphics) (p : point_2d) : Decidable (InGrid g p) := by
  unfold InGrid; infer_instance

/-- The row-major offset `p.y * m_screenWidth + p.x` used at every buffer access. -/
def cellIndex (g : ConsoleGraphics) (p : point_2d) : Int :=
  p.y * g.m_screenWidth + p.x

/-! ## Rasterizer -/

/-- `ConsoleGraphics::Pixelate`: inside the guard the glyph and the attribute of
the cell at `p.y * m_screenWidth + p.x` are both written; outside it nothing is. -/
def Pixelate (g : ConsoleGraphics) (p : point_2d) (color : Nat) (pixelType : Nat) :
    ConsoleGraphics :=
  if p.x ≥ 0 ∧ p.x < g.m_screenWidth ∧ p.y ≥ 0 ∧ p.y < g.m_screenHeight then
    { g with
      m_bufScreenData :=
        Function.update g.m_bufScreenData (p.y * g.m_screenWidth + p.x)
          { UnicodeChar := pixelType, Attributes := color } }
  else g

/-- The first loop of `DrawLine` (taken when `mod_dy <= mod_dx`), started after
the first `Pixelate`.  The loop variables are `x`, `y` and `px`; the loop runs
while `x < large_x`. -/
def DrawLine_loopX (dx dy mod_dx mod_dy large_x : Int) (color pixelType : Nat) :
    Nat → Int → Int → Int → ConsoleGraphics → ConsoleGraphics
  | 0, _, _, _, g => g
  | fuel + 1, x, y, px, g =>
    if x < large_x then
      let x := x + 1
      if px < 0 then
        DrawLine_loopX dx dy mod_dx mod_dy large_x color pixelType fuel x y
          (px + 2 * mod_dy) (Pixelate g ⟨x, y⟩ color pixelType)
      else
        let y := if (dx < 0 ∧ dy < 0) ∨ (dx > 0 ∧ dy > 0) then y + 1 else y - 1
        DrawLine_loopX dx dy mod_dx mod_dy large_x color pixelType fuel x y
          (px + 2 * (mod_dy - mod_dx)) (Pixelate g ⟨x, y⟩ color pixelType)
    else g

/-- The second loop of `DrawLine` (taken when `mod_dy > mod_dx`), started after
the first `Pixelate`.  The loop variables are `x`, `y` and `py`; the loop runs
while `y < large_y`. -/
def DrawLine_loopY (dx dy mod_dx mod_dy large_y : Int) (color pixelType : Nat) :
    Nat → Int → Int → Int → ConsoleGraphics → ConsoleGraphics
  | 0, _, _, _, g => g
  | fuel + 1, x, y, py, g =>
    if y < large_y then
      let y := y + 1
      if py ≤ 0 then
        DrawLine_loopY dx dy mod_dx mod_dy large_y color pixelType fuel x y
          (py + 2 * mod_dx) (Pixelate g ⟨x, y⟩ color pixelType)
      else
        let x := if (dx < 0 ∧ dy < 0) ∨ (dx > 0 ∧ dy > 0) then x + 1 else x - 1
        DrawLine_loopY dx dy mod_dx mod_dy large_y color pixelType fuel x y
          (py + 2 * (mod_dx - mod_dy)) (Pixelate g ⟨x, y⟩ color pixelType)
    else g

/-- `ConsoleGraphics::DrawLine`. -/
def DrawLine (g : ConsoleGraphics) (p1 p2 : point_2d) (color : Nat) (pixelType : Nat) :
    ConsoleGraphics :=
  let dx := p2.x - p1.x
  let dy := p2.y - p1.y
  let mod_dx := |dx|
  let mod_dy := |dy|
  let px := 2 * mod_dy - mod_dx
  let py := 2 * mod_dx - mod_dy
  if mod_dy ≤ mod_dx then
    let x := if dx ≥ 0 then p1.x else p2.x
    let y := if dx ≥ 0 then p1.y else p2.y
    let large_x := if dx ≥ 0 then p2.x else p1.x
    DrawLine_loopX dx dy mod_dx mod_dy large_x color pixelType (large_x - x).toNat x y px
      (Pixelate g ⟨x, y⟩ color pixelType)
  else
    let x := if dy ≥ 0 then p1.x else p2.x
    let y := if dy ≥ 0 then p1.y else p2.y
    let large_y := if dy ≥ 0 then p2.y else p1.y
    DrawLine_loopY dx dy mod_dx mod_dy large_y color pixelType (large_y - y).toNat x y py
      (Pixelate g ⟨x, y⟩ color pixelType)

/-- The points that `DrawLine_loopX` passes to `Pixelate`, in call order. -/
def DrawLine_loopX_cells (dx dy mod_dx mod_dy large_x : Int) :
    Nat → Int → Int → Int → List point_2d
  | 0, _, _, _ => []
  | fuel + 1, x, y, px =>
    if x < large_x then
      let x := x + 1
      if px < 0 then
        ⟨x, y⟩ :: DrawLine_loopX_cells dx dy mod_dx mod_dy large_x fuel x y (px + 2 * mod_dy)
      else
        let y := if (dx < 0 ∧ dy < 0) ∨ (dx > 0 ∧ dy > 0) then y + 1 else y - 1
        ⟨x, y⟩ ::
          DrawLine_loopX_cells dx dy mod_dx mod_dy large_x fuel x y (px + 2 * (mod_dy - mod_dx))
    else []

/-- The points that `DrawLine_loopY` passes to `Pixelate`, in call order. -/
def DrawLine_loopY_cells (dx dy mod_dx mod_dy large_y : Int) :
    Nat → Int → Int → Int → List point_2d
  | 0, _, _, _ => []
  | fuel + 1, x, y, py =>
    if y < large_y then
      let y := y + 1
      if py ≤ 0 then
        ⟨x, y⟩ :: DrawLine_loopY_cells dx dy mod_dx mod_dy large_y fuel x y (py + 2 * mod_dx)
      else
        let x := if (dx < 0 ∧ dy < 0) ∨ (dx > 0 ∧ dy > 0) then x + 1 else x - 1
        ⟨x, y⟩ ::
          DrawLine_loopY_cells dx dy mod_dx mod_dy large_y fuel x y (py + 2 * (mod_dx - mod_dy))
    else []

/-- The points that `DrawLine p1 p2` passes to `Pixelate`, in call order. -/
def DrawLine_cells (p1 p2 : point_2d) : List point_2d :=
  let dx := p2.x - p1.x
  let dy := p2.y - p1.y
  let mod_dx := |dx|
  let mod_dy := |dy|
  let px := 2 * mod_dy - mod_dx
  let py := 2 * mod_dx - mod_dy
  if mod_dy ≤ mod_dx then
    let x := if dx ≥ 0 then p1.x else p2.x
    let y := if dx ≥ 0 then p1.y else p2.y
    let large_x := if dx ≥ 0 then p2.x else p1.x
    ⟨x, y⟩ :: DrawLine_loopX_cells dx dy mod_dx mod_dy large_x (large_x - x).toNat x y px
  else
    let x := if dy ≥ 0 then p1.x else p2.x
    let y := if dy ≥ 0 then p1.y else p2.y
    let large_y := if dy ≥ 0 then p2.y else p1.y
    ⟨x, y⟩ :: DrawLine_loopY_cells dx dy mod_dx mod_dy large_y (large_y - y).toNat x y py

/-- The `while (y >= x)` loop of `DrawCircle`: eight mirrored `Pixelate` calls,
then the update of the decision variable `p` with the post-increment of `x` and
the post-decrement of `y`. -/
def DrawCircle_loop (center : point_2d) (color pixelType : Nat) :
    Nat → Int → Int → Int → ConsoleGraphics → ConsoleGraphics
  | 0, _, _, _, g => g
  | fuel + 1, x, y, p, g =>
    if y ≥ x then
      let g := Pixelate g ⟨center.x - x, center.y - y⟩ color pixelType
      let g := Pixelate g ⟨center.x - y, center.y - x⟩ color pixelType
      let g := Pixelate g ⟨center.x + y, center.y - x⟩ color pixelType
      let g := Pixelate g ⟨center.x + x, center.y - y⟩ color pixelType
      let g := Pixelate g ⟨center.x - x, center.y + y⟩ color pixelType
      let g := Pixelate g ⟨center.x - y, center.y + x⟩ color pixelType
      let g := Pixelate g ⟨center.x + y, center.y + x⟩ color pixelType
      let g := Pixelate g ⟨center.x + x, center.y + y⟩ color pixelType
      if p < 0 then
        DrawCircle_loop center color pixelType fuel (x + 1) y (p + (4 * x + 6)) g
      else
        DrawCircle_loop center color pixelType fuel (x + 1) (y - 1) (p + (4 * (x - y) + 10)) g
    else g

/-- `ConsoleGraphics::DrawCircle`: nothing for radius zero; otherwise the
midpoint loop followed by the call
`DrawLine(center, (center.x + radius - 1, center.y), FG_RED)`. -/
def DrawCircle (g : ConsoleGraphics) (center : point_2d) (radius : Int) (color : Nat)
    (pixelType : Nat) : ConsoleGraphics :=
  let x := 0
  let y := radius
  let p := 3 - 2 * radius
  if radius = 0 then g
  else
    let g := DrawCircle_loop center color pixelType (y - x + 1).toNat x y p g
    DrawLine g ⟨center.x, center.y⟩ ⟨center.x + radius - 1, center.y⟩ FG_RED PIXEL_SOLID

/-- The points that `DrawCircle_loop` passes to `Pixelate`, in call order. -/
def DrawCircle_loop_cells (center : point_2d) : Nat → Int → Int → Int → List point_2d
  | 0, _, _, _ => []
  | fuel + 1, x, y, p =>
    if y ≥ x then
      [⟨center.x - x, center.y - y⟩, ⟨center.x - y, center.y - x⟩,
        ⟨center.x + y, center.y - x⟩, ⟨center.x + x, center.y - y⟩,
        ⟨center.x - x, center.y + y⟩, ⟨center.x - y, center.y + x⟩,
        ⟨center.x + y, center.y + x⟩, ⟨center.x + x, center.y + y⟩] ++
      (if p < 0 then
        DrawCircle_loop_cells center fuel (x + 1) y (p + (4 * x + 6))
      else
        DrawCircle_loop_cells center fuel (x + 1) (y - 1) (p + (4 * (x - y) + 10)))
    else []

/-- The points plotted by the midpoint loop of `DrawCircle center radius`
(the outline pass), in call order. -/
def DrawCircle_outline_cells (center : point_2d) (radius : Int) : List point_2d :=
  if radius = 0 then []
  else DrawCircle_loop_cells center (radius - 0 + 1).toNat 0 radius (3 - 2 * radius)

/-- The points that `DrawCircle center radius` passes to `Pixelate`, in call
order: the outline pass, then the points of the closing `DrawLine` call. -/
def DrawCircle_cells (center : point_2d) (radius : Int) : List point_2d :=
  if radius = 0 then []
  else
    DrawCircle_outline_cells center radius ++
      DrawLine_cells ⟨center.x, center.y⟩ ⟨center.x + radius - 1, center.y⟩

/-- The values `lo, lo + 1, ..., hi - 1` taken by the variable of a loop
`for (int v = lo; v < hi; v++)` whose body does not assign `v`. -/
def forRange (lo hi : Int) : List Int :=
  (List.range (hi - lo).toNat).map (fun (k : Nat) => lo + (k : Int))

/-- The conversion `(int)` of a floating-point value: truncation toward zero. -/
def castInt (q : ℚ) : Int :=
  Int.tdiv q.num (q.den : Int)

/-- The conversion `cf::vec_2d<float>` to `point_2d` (the templated conversion
operator of `vec_2d`, a `static_cast<int>` of each component). -/
def toPoint (v : vec_2d ℚ) : point_2d :=
  ⟨castInt v.x, castInt v.y⟩

/-- The conversion `point_2d` to `cf::vec_2d<float>`. -/
def toVecF (p : point_2d) : vec_2d ℚ :=
  ⟨(p.x : ℚ), (p.y : ℚ)⟩

/-- The class `ConsoleGraphics::triangle`: three `float` vertices `p[0]`,
`p[1]`, `p[2]`, an edge colour and a fill colour. -/
structure triangle where
  p0 : vec_2d ℚ
  p1 : vec_2d ℚ
  p2 : vec_2d ℚ
  edgeColor : Nat
  fillColor : Nat

/-- The constructor `triangle(point_2d p1, point_2d p2, point_2d p3, fillColor, edgeColor)`. -/
def triangle.ofPoints (p1 p2 p3 : point_2d) (fillColor edgeColor : Nat) : triangle :=
  { p0 := toVecF p1, p1 := toVecF p2, p2 := toVecF p3,
    edgeColor := edgeColor, fillColor := fillColor }

/-- `triangle::midpoint`: each coordinate sum divided by `3.0` and converted to `int`. -/
def triangle.midpoint (t : triangle) : point_2d :=
  ⟨castInt ((t.p0.x + t.p1.x + t.p2.x) / 3), castInt ((t.p0.y + t.p1.y + t.p2.y) / 3)⟩

/-- The lambda `area` of `IsPointInsideTriangle`: the `int` shoelace sum, divided
by `2.0`, in absolute value. -/
def IsPointInsideTriangle_area (_p1 _p2 _p3 : point_2d) : ℚ :=
  |((_p1.x * (_p2.y - _p3.y) + _p2.x * (_p3.y - _p1.y) + _p3.x * (_p1.y - _p2.y) : Int) : ℚ) / 2|

/-- `ConsoleGraphics::IsPointInsideTriangle`: the area of the triangle equals the
sum of the areas of the three triangles formed with `p`. -/
def IsPointInsideTriangle (p p1 p2 p3 : point_2d) : Bool :=
  let fAreaTriangle := IsPointInsideTriangle_area p1 p2 p3
  let fA1 := IsPointInsideTriangle_area p p2 p3
  let fA2 := IsPointInsideTriangle_area p1 p p3
  let fA3 := IsPointInsideTriangle_area p1 p2 p
  decide (fAreaTriangle = fA1 + fA2 + fA3)

/-- The body of the inner loop of `FillTriangle(const triangle&)` at the cell
`(x, y)`. -/
def FillTriangle_cell (t : triangle) (pixelType : Nat) (y : Int) (g : ConsoleGraphics)
    (x : Int) : ConsoleGraphics :=
  if x ≥ 0 ∧ x < g.m_screenWidth ∧ y ≥ 0 ∧ y < g.m_screenHeight then
    if IsPointInsideTriangle ⟨x, y⟩ (toPoint t.p0) (toPoint t.p1) (toPoint t.p2) = true ∧
        ¬ ((g.m_bufScreenData (y * g.m_screenWidth + x)).Attributes = t.edgeColor) then
      Pixelate g ⟨x, y⟩ t.fillColor pixelType
    else g
  else g

/-- `ConsoleGraphics::FillTriangle(const triangle& t, PIXEL_TYPE pixelType)`:
the rows `y_min .. y_max` and, in each row, the columns `x_min .. x_max` of the
bounding box of the truncated vertices. -/
def FillTriangle (g : ConsoleGraphics) (t : triangle) (pixelType : Nat) : ConsoleGraphics :=
  let x_min := min (min (castInt t.p0.x) (castInt t.p1.x)) (castInt t.p2.x)
  let y_min := min (min (castInt t.p0.y) (castInt t.p1.y)) (castInt t.p2.y)
  let x_max := max (max (castInt t.p0.x) (castInt t.p1.x)) (castInt t.p2.x)
  let y_max := max (max (castInt t.p0.y) (castInt t.p1.y)) (castInt t.p2.y)
  (forRange y_min (y_max + 1)).foldl
    (fun g y => (forRange x_min (x_max + 1)).foldl (FillTriangle_cell t pixelType y) g) g

/-! ## Input state tracker -/

/-- The record `sKeyState`. -/
structure sKeyState where
  bPressed : Bool
  bReleased : Bool
  bHeld : Bool
deriving DecidableEq, Repr

/-- The keyboard part of the engine state: the raw samples of the previous and
of the current frame (16-bit patterns of the `short` values) and the records
`m_keys`, one per key code. -/
structure KeyboardState where
  m_keyOldState : Fin 256 → Nat
  m_keyNewState : Fin 256 → Nat
  m_keys : Fin 256 → sKeyState

/-- The all-clear state: every raw sample zero, every flag false. -/
def KeyboardState.init : KeyboardState :=
  { m_keyOldState := fun _ => 0
    m_keyNewState := fun _ => 0
    m_keys := fun _ => { bPressed := false, bReleased := false, bHeld := false } }

/-- The body of the keyboard loop of `GameThread` for the key code `i`, where
`GetAsyncKeyState` gives the raw samples of the frame. -/
def updateKey (GetAsyncKeyState : Fin 256 → Nat) (s : KeyboardState) (i : Fin 256) :
    KeyboardState :=
  let s := { s with m_keyNewState := Function.update s.m_keyNewState i (GetAsyncKeyState i) }
  let s := { s with m_keys := Function.update s.m_keys i { s.m_keys i with bPressed := false } }
  let s := { s with m_keys := Function.update s.m_keys i { s.m_keys i with bReleased := false } }
  let s :=
    if s.m_keyNewState i ≠ s.m_keyOldState i then
      if s.m_keyNewState i &&& 0x8000 ≠ 0 then
        let s := { s with
          m_keys := Function.update s.m_keys i { s.m_keys i with bPressed := !(s.m_keys i).bHeld } }
        { s with m_keys := Function.update s.m_keys i { s.m_keys i with bHeld := true } }
      else
        let s := { s with
          m_keys := Function.update s.m_keys i { s.m_keys i with bReleased := true } }
        { s with m_keys := Function.update s.m_keys i { s.m_keys i with bHeld := false } }
    else s
  { s with m_keyOldState := Function.update s.m_keyOldState i (s.m_keyNewState i) }

/-- The keyboard loop of `GameThread`: one frame, all key codes `0 .. 255`. -/
def updateKeys (GetAsyncKeyState : Fin 256 → Nat) (s : KeyboardState) : KeyboardState :=
  (List.finRange 256).foldl (updateKey GetAsyncKeyState) s

/-- The keyboard state after the frames whose raw samples are listed, oldest
first. -/
def runKeys (s : KeyboardState) (frames : List (Fin 256 → Nat)) : KeyboardState :=
  frames.foldl (fun s smp => updateKeys smp s) s

/-- The screen right after `ConstructConsole`: a `w` by `h` grid whose buffer
was cleared by `memset`. -/
def zeroedScreen (w h : Int) : ConsoleGraphics :=
  { m_screenWidth := w, m_screenHeight := h,
    m_bufScreenData := fun _ => { UnicodeChar := 0, Attributes := 0 } }

/-- What one frame does to the stored raw sample and the record of a single
key: the pair after the frame, from the raw sample `raw` of the frame and the
pair before it.  It is the projection of `updateKey` on one key code and is
used only in proofs (see `updateKeys_key`). -/
def keyStep (raw : Nat) (st : Nat × sKeyState) : Nat × sKeyState :=
  (raw,
    if raw ≠ st.1 then
      if raw &&& 0x8000 ≠ 0 then
        { bPressed := !st.2.bHeld, bReleased := false, bHeld := true }
      else
        { bPressed := false, bReleased := true, bHeld := false }
    else { bPressed := false, bReleased := false, bHeld := st.2.bHeld })

/-- The stored raw sample and the record of key `i` in a keyboard state. -/
def keyOf (s : KeyboardState) (i : Fin 256) : Nat × sKeyState :=
  (s.m_keyOldState i, s.m_keys i)

/-- The flag `bHeld` mirrors the down bit of the stored raw sample. -/
def heldInv (st : Nat × sKeyState) : Prop :=
  st.2.bHeld = true ↔ st.1 &&& 0x8000 ≠ 0

instance (st : Nat × sKeyState) : Decidable (heldInv st) := by
  unfold heldInv; infer_instance

/-- The direction in which the loops of `DrawLine` step the minor axis: `+1`
when the test `(dx < 0 && dy < 0) || (dx > 0 && dy > 0)` holds and `-1` when
it does not. -/
def stepDir (dx dy : Int) : Int :=
  if (dx < 0 ∧ dy < 0) ∨ (dx > 0 ∧ dy > 0) then 1 else -1

/-- Two cells are neighbours in the 8-connected sense (or equal): they differ by
at most 1 in `x` and by at most 1 in `y`. -/
def Adjacent8 (p q : point_2d) : Prop :=
  |q.x - p.x| ≤ 1 ∧ |q.y - p.y| ≤ 1

instance (p q : point_2d) : Decidable (Adjacent8 p q) := by
  unfold Adjacent8; infer_instance

/-- A sequence of `Pixelate` calls with one colour and one glyph. -/
def plotAll (g : ConsoleGraphics) (cells : List point_2d) (color pixelType : Nat) :
    ConsoleGraphics :=
  cells.foldl (fun g p => Pixelate g p color pixelType) g

/-- `triangle::getArea`: the shoelace sum of the vertices, divided by `2.0`, in
absolute value. -/
def triangle.getArea (t : triangle) : ℚ :=
  |(t.p0.x * (t.p1.y - t.p2.y) + t.p1.x * (t.p2.y - t.p0.y) + t.p2.x * (t.p0.y - t.p1.y)) / 2|

/-- The `int` expression inside the lambda `area`: twice the signed area of the
triangle `a b c`. -/
def shoelace (a b c : point_2d) : Int :=
  a.x * (b.y - c.y) + b.x * (c.y - a.y) + c.x * (a.y - b.y)

/-- The cell `p` lies in the rectangle `x_min .. x_max` by `y_min .. y_max` that
`FillTriangle(const triangle&)` scans: the bounding box of the truncated
vertices. -/
def triangle.inBoundingBox (t : triangle) (p : point_2d) : Prop :=
  min (min (castInt t.p0.x) (castInt t.p1.x)) (castInt t.p2.x) ≤ p.x ∧
    p.x ≤ max (max (castInt t.p0.x) (castInt t.p1.x)) (castInt t.p2.x) ∧
    min (min (castInt t.p0.y) (castInt t.p1.y)) (castInt t.p2.y) ≤ p.y ∧
    p.y ≤ max (max (castInt t.p0.y) (castInt t.p1.y)) (castInt t.p2.y)

instance (t : triangle) (p : point_2d) : Decidable (t.inBoundingBox p) := by
  unfold triangle.inBoundingBox; infer_instance

/-- The three tests under which the inner loop body of
`FillTriangle(const triangle&)` calls `Pixelate` at `p`: the grid guard, the
point-in-triangle test on the truncated vertices, and an attribute different
from the edge colour. -/
def triangle.paintable (t : triangle) (g : ConsoleGraphics) (p : point_2d) : Prop :=
  InGrid g p ∧
    IsPointInsideTriangle p (toPoint t.p0) (toPoint t.p1) (toPoint t.p2) = true ∧
    (g.m_bufScreenData (cellIndex g p)).Attributes ≠ t.edgeColor

instance (t : triangle) (g : ConsoleGraphics) (p : point_2d) : Decidable (t.paintable g p) := by
  unfold triangle.paintable; infer_instance

/-! ## Further rasterizer routines -/

/-- The `while (y >= x)` loop of `FillCircle`: four `DrawLine` calls with the
default colour `FG_WHITE` and the default glyph `PIXEL_SOLID`, then the update
of the decision variable `p` with the post-increment of `x` and the
post-decrement of `y`. -/
def FillCircle_loop (center : point_2d) :
    Nat → Int → Int → Int → ConsoleGraphics → ConsoleGraphics
  | 0, _, _, _, g => g
  | fuel + 1, x, y, p, g =>
    if y ≥ x then
      let g := DrawLine g ⟨center.x - x, center.y - y⟩ ⟨center.x + x, center.y - y⟩
        FG_WHITE PIXEL_SOLID
      let g := DrawLine g ⟨center.x - y, center.y - x⟩ ⟨center.x + y, center.y - x⟩
        FG_WHITE PIXEL_SOLID
      let g := DrawLine g ⟨center.x - x, center.y + y⟩ ⟨center.x + x, center.y + y⟩
        FG_WHITE PIXEL_SOLID
      let g := DrawLine g ⟨center.x - y, center.y + x⟩ ⟨center.x + y, center.y + x⟩
        FG_WHITE PIXEL_SOLID
      if p < 0 then
        FillCircle_loop center fuel (x + 1) y (p + (4 * x + 6)) g
      else
        FillCircle_loop center fuel (x + 1) (y - 1) (p + (4 * (x - y) + 10)) g
    else g

/-- `ConsoleGraphics::FillCircle`: nothing for radius zero; otherwise the
midpoint loop of scan lines.  The arguments `color` and `pixelType` are not
passed on to `DrawLine`. -/
def FillCircle (g : ConsoleGraphics) (center : point_2d) (radius : Int) (color : Nat)
    (pixelType : Nat) : ConsoleGraphics :=
  let x := 0
  let y := radius
  let p := 3 - 2 * radius
  if radius = 0 then g
  else FillCircle_loop center (y - x + 1).toNat x y p g

/-- The points that `FillCircle_loop` hands to `Pixelate` through its `DrawLine`
calls, in call order. -/
def FillCircle_loop_cells (center : point_2d) : Nat → Int → Int → Int → List point_2d
  | 0, _, _, _ => []
  | fuel + 1, x, y, p =>
    if y ≥ x then
      (DrawLine_cells ⟨center.x - x, center.y - y⟩ ⟨center.x + x, center.y - y⟩ ++
        (DrawLine_cells ⟨center.x - y, center.y - x⟩ ⟨center.x + y, center.y - x⟩ ++
        (DrawLine_cells ⟨center.x - x, center.y + y⟩ ⟨center.x + x, center.y + y⟩ ++
        DrawLine_cells ⟨center.x - y, center.y + x⟩ ⟨center.x + y, center.y + x⟩))) ++
      (if p < 0 then
        FillCircle_loop_cells center fuel (x + 1) y (p + (4 * x + 6))
      else
        FillCircle_loop_cells center fuel (x + 1) (y - 1) (p + (4 * (x - y) + 10)))
    else []

/-- The points that `FillCircle center radius` hands to `Pixelate`, in call
order. -/
def FillCircle_cells (center : point_2d) (radius : Int) : List point_2d :=
  if radius = 0 then []
  else FillCircle_loop_cells center (radius - 0 + 1).toNat 0 radius (3 - 2 * radius)

/-- `ConsoleGraphics::Fill`: the columns `p1.x .. p2.x - 1` and, in each column,
the rows `p1.y .. p2.y - 1`. -/
def Fill (g : ConsoleGraphics) (p1 p2 : point_2d) (color : Nat) (pixelType : Nat) :
    ConsoleGraphics :=
  (forRange p1.x p2.x).foldl
    (fun g x => (forRange p1.y p2.y).foldl (fun g y => Pixelate g ⟨x, y⟩ color pixelType) g) g

/-- The cells of the half-open rectangle that `Fill p1 p2` hands to `Pixelate`,
in call order. -/
def Fill_cells (p1 p2 : point_2d) : List point_2d :=
  (forRange p1.x p2.x).flatMap (fun x => (forRange p1.y p2.y).map (fun y => (⟨x, y⟩ : point_2d)))

/-- `ConsoleGraphics::DrawString`: for `i = 0 .. str.size() - 1` the glyph and
the attribute of the element at offset `y * m_screenWidth + x + i` are written,
without any test of the offset.  The string is the list of its character
codes. -/
def DrawString (g : ConsoleGraphics) (x y : Int) (str : List Nat) (color : Nat) :
    ConsoleGraphics :=
  (List.range str.length).foldl
    (fun (g : ConsoleGraphics) (i : Nat) =>
      { g with
        m_bufScreenData :=
          Function.update g.m_bufScreenData (y * g.m_screenWidth + x + (i : Int))
            { UnicodeChar := str.getD i 0, Attributes := color } })
    g

/-- The class `Sprite`: the memory behind `spriteData` indexed by element
offset (16-bit patterns of the `short` cells), the dimensions and the position
`vPos`. -/
structure Sprite where
  spriteData : Int → Nat
  nSpriteDimX : Int
  nSpriteDimY : Int
  vPos : vec_2d ℚ

/-- `ConsoleGraphics::DrawSprite`: rows `0 .. nDimY - 1`, columns
`0 .. nDimX - 1`, each cell handed to `Pixelate` with the colour
`sprite[y * nDimX + x]` and the default glyph. -/
def DrawSprite (g : ConsoleGraphics) (sprite : Sprite) : ConsoleGraphics :=
  let nDimX := sprite.nSpriteDimX
  let nDimY := sprite.nSpriteDimY
  (forRange 0 nDimY).foldl
    (fun g y => (forRange 0 nDimX).foldl
      (fun g x =>
        Pixelate g ⟨x + castInt sprite.vPos.x, y + castInt sprite.vPos.y⟩
          (sprite.spriteData (y * nDimX + x)) PIXEL_SOLID) g) g

/-! ## Affine transform pipeline -/

/-- The struct `mat3x3`: the nine entries `m[r][c]` as fields `mrc`. -/
structure mat3x3 where
  m00 : ℚ
  m01 : ℚ
  m02 : ℚ
  m10 : ℚ
  m11 : ℚ
  m12 : ℚ
  m20 : ℚ
  m21 : ℚ
  m22 : ℚ

/-- The default member initialiser `float m[3][3] = { 0 }`. -/
def mat3x3.zero : mat3x3 :=
  { m00 := 0, m01 := 0, m02 := 0, m10 := 0, m11 := 0, m12 := 0, m20 := 0, m21 := 0, m22 := 0 }

/-- `ConsoleGraphics::MultiplyMatrix3x3`: the value written to the output
vector `o` for the input vector `i`; the third component `w` is computed and
dropped by the source. -/
def MultiplyMatrix3x3 (i : vec_2d ℚ) (m : mat3x3) : vec_2d ℚ :=
  { x := m.m00 * i.x + m.m01 * i.y + m.m02 * 1
    y := m.m10 * i.x + m.m11 * i.y + m.m12 * 1 }

/-- `ConsoleGraphics::RotateTriangle`: the triangle left in the output argument
`rotatedTriangle` (a different object from `tri`), whose colours are not
assigned.  `cosAngle` and `sinAngle` are the values of the library calls
`cos(fAngle)` and `sin(fAngle)`. -/
def RotateTriangle (p : point_2d) (cosAngle sinAngle : ℚ) (rotatedTriangle tri : triangle) :
    triangle :=
  let mat_transrotate := mat3x3.zero
  let mat_transrotate := { mat_transrotate with m00 := cosAngle }
  let mat_transrotate := { mat_transrotate with m01 := -sinAngle }
  let mat_transrotate :=
    { mat_transrotate with m02 := (p.x : ℚ) * (1 - cosAngle) + (p.y : ℚ) * sinAngle }
  let mat_transrotate := { mat_transrotate with m10 := sinAngle }
  let mat_transrotate := { mat_transrotate with m11 := cosAngle }
  let mat_transrotate :=
    { mat_transrotate with m12 := (p.y : ℚ) * (1 - cosAngle) - (p.x : ℚ) * sinAngle }
  let mat_transrotate := { mat_transrotate with m22 := 1 }
  { rotatedTriangle with
    p0 := MultiplyMatrix3x3 tri.p0 mat_transrotate
    p1 := MultiplyMatrix3x3 tri.p1 mat_transrotate
    p2 := MultiplyMatrix3x3 tri.p2 mat_transrotate }

/-- `ConsoleGraphics::TranslateTriangle`: the triangle left in the output
argument `translatedTriangle` (a different object from `tri`), whose colours
are not assigned. -/
def TranslateTriangle (t : point_2d) (translatedTriangle tri : triangle) : triangle :=
  let mat_translate := mat3x3.zero
  let mat_translate := { mat_translate with m00 := 1 }
  let mat_translate := { mat_translate with m11 := 1 }
  let mat_translate := { mat_translate with m22 := 1 }
  let mat_translate := { mat_translate with m02 := (t.x : ℚ) }
  let mat_translate := { mat_translate with m12 := (t.y : ℚ) }
  { translatedTriangle with
    p0 := MultiplyMatrix3x3 tri.p0 mat_translate
    p1 := MultiplyMatrix3x3 tri.p1 mat_translate
    p2 := MultiplyMatrix3x3 tri.p2 mat_translate }

/-! ## Frame clock and loop controller

`GameThread` is embedded as a step function on the control state of the loop
thread.  The consumer callbacks are oracles: the result of `Setup` and the
results of the successive calls of `Update` and `Destroy`.  `GameThread_step` and `GameThread_run` describe the loop thread on its own (no
external signal).  The flag `m_bIsRunning` is shared with
`ControlCloseHandler`, which clears it from another thread;
`ControlCloseHandler_store` is that store and `GameThread_interleave` runs a
schedule of loop steps and stop requests.  Every step of the loop thread
reads the flag once or writes it once, so a store that arrives in the middle
of a step has the effect of a store just before or just after it. -/

/-- What the loop thread does that is visible outside it. -/
inductive LoopEvent where
  | callSetup
  | pollInput
  | callUpdate
  | flushScreen
  | callDestroy
  | releaseBuffer
  | restoreSurface
  | notifyOne
deriving DecidableEq, Repr

/-- The control points of `GameThread`: its entry, the test of the outer
`while (m_bIsRunning)`, the test of the inner `while (m_bIsRunning)`, the body
of the inner loop (one frame), the code after the inner loop (the call of
`Destroy`), and the end of the function. -/
inductive LoopPC where
  | start
  | outerTest
  | innerTest
  | frame
  | teardown
  | stopped
deriving DecidableEq, Repr

/-- The consumer game: the result of `Setup`, and the results of the calls of
`Update` and of `Destroy`, numbered from 0 in call order. -/
structure Consumer where
  Setup : Bool
  Update : Nat → Bool
  Destroy : Nat → Bool

/-- The state of the loop thread: the control point, the flag `m_bIsRunning`,
the number of calls of `Update` and of `Destroy` made so far, and the events so
far, oldest first. -/
structure LoopState where
  pc : LoopPC
  m_bIsRunning : Bool
  nUpdate : Nat
  nDestroy : Nat
  log : List LoopEvent
deriving DecidableEq, Repr

/-- The state in which `Start` creates the loop thread: `m_bIsRunning = true`. -/
def GameThread_init : LoopState :=
  { pc := LoopPC.start, m_bIsRunning := true, nUpdate := 0, nDestroy := 0, log := [] }

/-- One step of `GameThread`.
* `start`: `if (!Setup()) m_bIsRunning = false;`
* `outerTest`, `innerTest`: the two tests of `m_bIsRunning`.
* `frame`: input polling, `if (!Update(..)) m_bIsRunning = false;`, then the
  title and `WriteConsoleOutput`.
* `teardown`: `if (Destroy())` release the buffer, restore the original
  console and `notify_one`, `else m_bIsRunning = true`.
* `stopped`: the function has returned. -/
def GameThread_step (c : Consumer) (s : LoopState) : LoopState :=
  match s.pc with
  | LoopPC.start =>
    { s with
      pc := LoopPC.outerTest
      m_bIsRunning := if !c.Setup then false else s.m_bIsRunning
      log := s.log ++ [LoopEvent.callSetup] }
  | LoopPC.outerTest =>
    if s.m_bIsRunning then { s with pc := LoopPC.innerTest } else { s with pc := LoopPC.stopped }
  | LoopPC.innerTest =>
    if s.m_bIsRunning then { s with pc := LoopPC.frame } else { s with pc := LoopPC.teardown }
  | LoopPC.frame =>
    { s with
      pc := LoopPC.innerTest
      m_bIsRunning := if !c.Update s.nUpdate then false else s.m_bIsRunning
      nUpdate := s.nUpdate + 1
      log := s.log ++ [LoopEvent.pollInput, LoopEvent.callUpdate, LoopEvent.flushScreen] }
  | LoopPC.teardown =>
    if c.Destroy s.nDestroy then
      { s with
        pc := LoopPC.outerTest
        nDestroy := s.nDestroy + 1
        log := s.log ++ [LoopEvent.callDestroy, LoopEvent.releaseBuffer,
          LoopEvent.restoreSurface, LoopEvent.notifyOne] }
    else
      { s with
        pc := LoopPC.outerTest
        m_bIsRunning := true
        nDestroy := s.nDestroy + 1
        log := s.log ++ [LoopEvent.callDestroy] }
  | LoopPC.stopped => s

/-- The state of the loop thread `n` steps after the state `s`. -/
def GameThread_run (c : Consumer) : Nat → LoopState → LoopState
  | 0, s => s
  | n + 1, s => GameThread_run c n (GameThread_step c s)

/-- What holds in every state the loop thread reaches: the call of `Destroy`
is entered with the flag cleared, and once `notify_one` has been issued the
thread is at its end or at the outer test with the flag cleared. -/
def LoopInv (s : LoopState) : Prop :=
  (s.pc = LoopPC.teardown → s.m_bIsRunning = false) ∧
    (LoopEvent.notifyOne ∈ s.log →
      s.pc = LoopPC.stopped ∨ (s.pc = LoopPC.outerTest ∧ s.m_bIsRunning = false))

instance (s : LoopState) : Decidable (LoopInv s) := by
  unfold LoopInv; infer_instance

/-- What `ControlCloseHandler` does to the state shared with the loop thread
on a `CTRL_C_EVENT` or `CTRL_CLOSE_EVENT`: the store `m_bIsRunning = false`.
The handler then blocks in `m_cvConditionVariable.wait` until a `notify_one`
of the loop thread. -/
def ControlCloseHandler_store (s : LoopState) : LoopState :=
  { s with m_bIsRunning := false }

/-- One action of an interleaving of the two threads: a step of the loop
thread, or a stop request of the handler. -/
inductive ThreadAction where
  | loopStep
  | stopRequest
deriving DecidableEq, Repr

/-- The state after the actions of a schedule, oldest first. -/
def GameThread_interleave (c : Consumer) : List ThreadAction → LoopState → LoopState
  | [], s => s
  | ThreadAction.loopStep :: rest, s => GameThread_interleave c rest (GameThread_step c s)
  | ThreadAction.stopRequest :: rest, s =>
    GameThread_interleave c rest (ControlCloseHandler_store s)

/-- The shape of the plotted cells `T` in the row `c.y + dy`: either no cell of
that row is plotted, or the plotted cells of that row are exactly the columns
`c.x - k .. c.x + k` for some `0 <= k <= r`. -/
def SymRow (T : List point_2d) (c : point_2d) (r dy : Int) : Prop :=
  (∀ ex : Int, (⟨c.x + ex, c.y + dy⟩ : point_2d) ∉ T) ∨
    ∃ k : Int, 0 ≤ k ∧ k ≤ r ∧ ∀ ex : Int, (⟨c.x + ex, c.y + dy⟩ : point_2d) ∈ T ↔ |ex| ≤ k

/-! ## Vector helpers of `vec_2d.h` -/

/-- `vec_2d::max`: the element-wise maximum of this vector and `v`. -/
def vec_2d.max {T : Type} [Max T] (a v : vec_2d T) : vec_2d T :=
  ⟨Max.max a.x v.x, Max.max a.y v.y⟩

/-- `vec_2d::min`: the element-wise minimum of this vector and `v`. -/
def vec_2d.min {T : Type} [Min T] (a v : vec_2d T) : vec_2d T :=
  ⟨Min.min a.x v.x, Min.min a.y v.y⟩

/-- `vec_2d::clamp`: `this->max(v1).min(v2)`. -/
def vec_2d.clamp {T : Type} [Max T] [Min T] (a v1 v2 : vec_2d T) : vec_2d T :=
  (a.max v1).min v2

/-! ## Triangle outline and the three-point fill -/

/-- `ConsoleGraphics::DrawTriangle(p1, p2, p3, color, pixelType)`: three calls
of `DrawLine` along the vertex cycle.  The calls name no colour and no glyph,
so each line is drawn with the defaults `FG_WHITE` and `PIXEL_SOLID` of
`DrawLine`. -/
def DrawTriangle_points (g : ConsoleGraphics) (p1 p2 p3 : point_2d) (color : Nat)
    (pixelType : Nat) : ConsoleGraphics :=
  let g := DrawLine g p1 p2 FG_WHITE PIXEL_SOLID
  let g := DrawLine g p2 p3 FG_WHITE PIXEL_SOLID
  DrawLine g p3 p1 FG_WHITE PIXEL_SOLID

/-- `ConsoleGraphics::DrawTriangle(const triangle& t, PIXEL_TYPE pixelType)`:
the three-point routine on the truncated vertices, with its default colour
`FG_WHITE` and default glyph `PIXEL_SOLID`. -/
def DrawTriangle (g : ConsoleGraphics) (t : triangle) (pixelType : Nat) : ConsoleGraphics :=
  DrawTriangle_points g (toPoint t.p0) (toPoint t.p1) (toPoint t.p2) FG_WHITE PIXEL_SOLID

/-- The cells handed to `Pixelate` by `DrawTriangle_points`, in order. -/
def DrawTriangle_cells (p1 p2 p3 : point_2d) : List point_2d :=
  DrawLine_cells p1 p2 ++ DrawLine_cells p2 p3 ++ DrawLine_cells p3 p1

/-- The body of the inner loop of `FillTriangle(p1, p2, p3, fillColor,
pixelType)` at the cell `(x, y)`.  The attribute is read at the element offset
`y * m_screenWidth + x` without a bounds test, the colour compared is the
constant `FG_WHITE` and the glyph written is the constant `PIXEL_SOLID`. -/
def FillTriangle_points_cell (p1 p2 p3 : point_2d) (fillColor : Nat) (y : Int)
    (g : ConsoleGraphics) (x : Int) : ConsoleGraphics :=
  if IsPointInsideTriangle ⟨x, y⟩ p1 p2 p3 = true ∧
      ¬ ((g.m_bufScreenData (y * g.m_screenWidth + x)).Attributes = FG_WHITE) then
    Pixelate g ⟨x, y⟩ fillColor PIXEL_SOLID
  else g

/-- `ConsoleGraphics::FillTriangle(p1, p2, p3, fillColor, pixelType)`, the
three-point overload.  The bounds are those of the source: `x_max` is
`max(max(p1.x, p3.x), p3.x)`. -/
def FillTriangle_points (g : ConsoleGraphics) (p1 p2 p3 : point_2d) (fillColor : Nat)
    (pixelType : Nat) : ConsoleGraphics :=
  let x_min := min (min p1.x p2.x) p3.x
  let y_min := min (min p1.y p2.y) p3.y
  let x_max := max (max p1.x p3.x) p3.x
  let y_max := max (max p1.y p2.y) p3.y
  (forRange y_min (y_max + 1)).foldl
    (fun g y => (forRange x_min (x_max + 1)).foldl
      (FillTriangle_points_cell p1 p2 p3 fillColor y) g) g

/-- The cells of the grid of `g` at which `FillTriangle(const triangle&)`
calls `Pixelate`, in scan order: the cells of the bounding box that pass the
guard, the area test and the edge-colour test. -/
def FillTriangle_cells (g : ConsoleGraphics) (t : triangle) : List point_2d :=
  let x_min := min (min (castInt t.p0.x) (castInt t.p1.x)) (castInt t.p2.x)
  let y_min := min (min (castInt t.p0.y) (castInt t.p1.y)) (castInt t.p2.y)
  let x_max := max (max (castInt t.p0.x) (castInt t.p1.x)) (castInt t.p2.x)
  let y_max := max (max (castInt t.p0.y) (castInt t.p1.y)) (castInt t.p2.y)
  ((forRange y_min (y_max + 1)).flatMap
    (fun y => (forRange x_min (x_max + 1)).map (fun x => (⟨x, y⟩ : point_2d)))).filter
    (fun p => decide (t.paintable g p))

/-! ## Mouse buttons -/

/-- The mouse part of the engine state: the boolean samples of the previous and
of the current frame and the records `m_mouse`, one per button. -/
structure MouseState where
  m_mouseOldState : Fin 5 → Bool
  m_mouseNewState : Fin 5 → Bool
  m_mouse : Fin 5 → sKeyState

/-- The all-clear state: every sample false, every flag false. -/
def MouseState.init : MouseState :=
  { m_mouseOldState := fun _ => false
    m_mouseNewState := fun _ => false
    m_mouse := fun _ => { bPressed := false, bReleased := false, bHeld := false } }

/-- The body of the mouse loop of `GameThread` for the button `m`. -/
def updateMouseButton (s : MouseState) (m : Fin 5) : MouseState :=
  let s := { s with m_mouse := Function.update s.m_mouse m { s.m_mouse m with bPressed := false } }
  let s := { s with m_mouse := Function.update s.m_mouse m { s.m_mouse m with bReleased := false } }
  let s :=
    if s.m_mouseNewState m ≠ s.m_mouseOldState m then
      if s.m_mouseNewState m = true then
        let s := { s with
          m_mouse := Function.update s.m_mouse m { s.m_mouse m with bPressed := true } }
        { s with m_mouse := Function.update s.m_mouse m { s.m_mouse m with bHeld := true } }
      else
        let s := { s with
          m_mouse := Function.update s.m_mouse m { s.m_mouse m with bReleased := true } }
        { s with m_mouse := Function.update s.m_mouse m { s.m_mouse m with bHeld := false } }
    else s
  { s with m_mouseOldState := Function.update s.m_mouseOldState m (s.m_mouseNewState m) }

/-- The mouse loop of `GameThread`: the buttons `0 .. 4` in order. -/
def updateMouseButtons (s : MouseState) : MouseState :=
  (List.finRange 5).foldl updateMouseButton s

/-- One frame of the mouse part: the input events of the frame leave the
samples `sample` in `m_mouseNewState`, then the mouse loop runs. -/
def mouseFrame (sample : Fin 5 → Bool) (s : MouseState) : MouseState :=
  updateMouseButtons { s with m_mouseNewState := sample }

/-- The mouse state after the frames whose samples are listed in `frames`. -/
def runMouse (s : MouseState) (frames : List (Fin 5 → Bool)) : MouseState :=
  frames.foldl (fun s sample => mouseFrame sample s) s

/-- The raw keyboard pattern that stands for a boolean sample: `0x8000` for
down, `0x0000` for up. -/
def rawOfBool (b : Bool) : Nat :=
  if b then 0x8000 else 0x0000

/-- The projection of the mouse loop on one button: the stored old sample and
the record, after a frame whose sample for the button is `b`. -/
def mouseStep (b : Bool) (st : Bool × sKeyState) : Bool × sKeyState :=
  let r := { st.2 with bPressed := false, bReleased := false }
  let r :=
    if b ≠ st.1 then
      if b = true then { r with bPressed := true, bHeld := true }
      else { r with bReleased := true, bHeld := false }
    else r
  (b, r)

/-- The stored old sample and the record of the button `m`. -/
def mouseOf (s : MouseState) (m : Fin 5) : Bool × sKeyState :=
  (s.m_mouseOldState m, s.m_mouse m)

/-! ## Console construction -/

/-- The outcomes of the platform calls made by `ConstructConsole`: whether each
checked call succeeds, and the maximum window size that
`GetConsoleScreenBufferInfo` reports in `csbi.dwMaximumWindowSize`. -/
structure PlatformOutcomes where
  SetConsoleScreenBufferSize : Bool
  SetConsoleActiveScreenBuffer : Bool
  SetCurrentConsoleFontEx : Bool
  GetConsoleScreenBufferInfo : Bool
  dwMaximumWindowSizeX : Int
  dwMaximumWindowSizeY : Int
  SetConsoleWindowInfo : Bool
  SetConsoleMode : Bool
  SetConsoleCtrlHandler : Bool

/-- What `ConstructConsole` leaves behind: the returned value, the stored
dimensions, and whether the statement `m_bufScreenData = new CHAR_INFO[...]`
was executed. -/
structure ConstructResult where
  ret : Int
  m_screenWidth : Int
  m_screenHeight : Int
  allocated : Bool
deriving DecidableEq, Repr

/-- `ConsoleGraphics::GraphicError`: reports the message and returns 0. -/
def GraphicError : Int := 0

/-- `ConsoleGraphics::ConstructConsole(width, height, fontWidth, fontHeight)`.
The two handle tests at the top report an error without returning, and the
first `SetConsoleWindowInfo` is unchecked, so none of them appears; the font
metrics only go into `SetCurrentConsoleFontEx`. -/
def ConstructConsole (o : PlatformOutcomes) (width height fontWidth fontHeight : Int) :
    ConstructResult :=
  let m_screenWidth := width
  let m_screenHeight := height
  if !o.SetConsoleScreenBufferSize then ⟨GraphicError, m_screenWidth, m_screenHeight, false⟩
  else if !o.SetConsoleActiveScreenBuffer then
    ⟨GraphicError, m_screenWidth, m_screenHeight, false⟩
  else if !o.SetCurrentConsoleFontEx then ⟨GraphicError, m_screenWidth, m_screenHeight, false⟩
  else if !o.GetConsoleScreenBufferInfo then
    ⟨GraphicError, m_screenWidth, m_screenHeight, false⟩
  else if m_screenHeight > o.dwMaximumWindowSizeY then
    ⟨GraphicError, m_screenWidth, m_screenHeight, false⟩
  else if m_screenWidth > o.dwMaximumWindowSizeX then
    ⟨GraphicError, m_screenWidth, m_screenHeight, false⟩
  else if !o.SetConsoleWindowInfo then ⟨GraphicError, m_screenWidth, m_screenHeight, false⟩
  else if !o.SetConsoleMode then ⟨GraphicError, m_screenWidth, m_screenHeight, false⟩
  else if !o.SetConsoleCtrlHandler then ⟨GraphicError, m_screenWidth, m_screenHeight, true⟩
  else ⟨1, m_screenWidth, m_screenHeight, true⟩

/-! ## Theorems -/

section Pixelate

theorem Pixelate_width (g : ConsoleGraphics) (p : point_2d) (c t : Nat) :
    (Pixelate g p c t).m_screenWidth = g.m_screenWidth := by
  unfold Pixelate; split <;> rfl

theorem Pixelate_height (g : ConsoleGraphics) (p : point_2d) (c t : Nat) :
    (Pixelate g p c t).m_screenHeight = g.m_screenHeight := by
  unfold Pixelate; split <;> rfl

theorem Pixelate_buf (g : ConsoleGraphics) (p : point_2d) (c t : Nat) (i : Int) :
    (Pixelate g p c t).m_bufScreenData i =
      if InGrid g p ∧ i = cellIndex g p then { UnicodeChar := t, Attributes := c }
      else g.m_bufScreenData i := by
  unfold Pixelate InGrid cellIndex
  by_cases h : p.x ≥ 0 ∧ p.x < g.m_screenWidth ∧ p.y ≥ 0 ∧ p.y < g.m_screenHeight
  · by_cases hi : i = p.y * g.m_screenWidth + p.x
    · simp [h, hi]
    · simp [h, hi, Function.update_noteq hi]
  · simp [h]

theorem Pixelate_of_not_inGrid (g : ConsoleGraphics) (p : point_2d) (c t : Nat)
    (h : ¬ InGrid g p) : Pixelate g p c t = g := by
  unfold Pixelate; unfold InGrid at h; simp [h]

theorem InGrid_congr {g g' : ConsoleGraphics} (hw : g'.m_screenWidth = g.m_screenWidth)
    (hh : g'.m_screenHeight = g.m_screenHeight) (p : point_2d) : InGrid g' p ↔ InGrid g p := by
  unfold InGrid; rw [hw, hh]

theorem cellIndex_congr {g g' : ConsoleGraphics} (hw : g'.m_screenWidth = g.m_screenWidth)
    (p : point_2d) : cellIndex g' p = cellIndex g p := by
  unfold cellIndex; rw [hw]

theorem cellIndex_range (g : ConsoleGraphics) (p : point_2d) (h : InGrid g p) :
    0 ≤ cellIndex g p ∧ cellIndex g p < g.m_screenWidth * g.m_screenHeight := by
  obtain ⟨h1, h2, h3, h4⟩ := h
  unfold cellIndex
  constructor
  · have : 0 ≤ p.y * g.m_screenWidth := mul_nonneg h3 (by omega)
    omega
  · have h5 : (p.y + 1) * g.m_screenWidth ≤ g.m_screenHeight * g.m_screenWidth :=
      mul_le_mul_of_nonneg_right (by omega) (by omega)
    nlinarith

theorem cellIndex_inj (g : ConsoleGraphics) (p q : point_2d) (hp : InGrid g p)
    (hq : InGrid g q) (h : cellIndex g p = cellIndex g q) : p = q := by
  obtain ⟨p1, p2, p3, p4⟩ := hp
  obtain ⟨q1, q2, q3, q4⟩ := hq
  unfold cellIndex at h
  have hy : p.y = q.y := by
    by_contra hne
    rcases lt_or_gt_of_ne hne with hlt | hgt
    · have : (p.y + 1) * g.m_screenWidth ≤ q.y * g.m_screenWidth :=
        mul_le_mul_of_nonneg_right (by omega) (by omega)
      nlinarith
    · have : (q.y + 1) * g.m_screenWidth ≤ p.y * g.m_screenWidth :=
        mul_le_mul_of_nonneg_right (by omega) (by omega)
      nlinarith
  have hx : p.x = q.x := by rw [hy] at h; omega
  cases p; cases q; simp_all

end Pixelate

/-- C1. `Pixelate` clips silently.  The call keeps the grid dimensions.  When
the point is a cell of the grid, the offset `y*w + x` lies inside the buffer, the
cell at that offset holds exactly the glyph and the colour afterwards, and the
cell at every other offset is unchanged.  When the point is not a cell of the
grid, the whole state is unchanged, so no offset at all is written. -/
theorem Pixelate_clips (g : ConsoleGraphics) (x y : Int) (color glyph : Nat) :
    (Pixelate g ⟨x, y⟩ color glyph).m_screenWidth = g.m_screenWidth ∧
    (Pixelate g ⟨x, y⟩ color glyph).m_screenHeight = g.m_screenHeight ∧
    ((0 ≤ x ∧ x < g.m_screenWidth ∧ 0 ≤ y ∧ y < g.m_screenHeight) →
      (0 ≤ y * g.m_screenWidth + x ∧
        y * g.m_screenWidth + x < g.m_screenWidth * g.m_screenHeight) ∧
      (Pixelate g ⟨x, y⟩ color glyph).m_bufScreenData (y * g.m_screenWidth + x) =
        { UnicodeChar := glyph, Attributes := color } ∧
      ∀ i : Int, i ≠ y * g.m_screenWidth + x →
        (Pixelate g ⟨x, y⟩ color glyph).m_bufScreenData i = g.m_bufScreenData i) ∧
    (¬ (0 ≤ x ∧ x < g.m_screenWidth ∧ 0 ≤ y ∧ y < g.m_screenHeight) →
      Pixelate g ⟨x, y⟩ color glyph = g) := by
  refine ⟨Pixelate_width _ _ _ _, Pixelate_height _ _ _ _, ?_, ?_⟩
  · intro h
    have hg : InGrid g ⟨x, y⟩ := h
    refine ⟨cellIndex_range g ⟨x, y⟩ hg, ?_, ?_⟩
    · rw [Pixelate_buf]; simp [hg, cellIndex]
    · intro i hi
      rw [Pixelate_buf]; simp [cellIndex, hi]
  · intro h
    exact Pixelate_of_not_inGrid g ⟨x, y⟩ color glyph h

/-- Witness of C1 on the cleared 10 by 10 grid: the in-range write at `(3, 4)`
lands at offset 43, and the out-of-range write at `(10, 4)` changes nothing. -/
theorem Pixelate_clips_witness :
    (Pixelate (zeroedScreen 10 10) ⟨3, 4⟩ FG_WHITE PIXEL_SOLID).m_bufScreenData 43 =
        { UnicodeChar := PIXEL_SOLID, Attributes := FG_WHITE } ∧
      Pixelate (zeroedScreen 10 10) ⟨10, 4⟩ FG_WHITE PIXEL_SOLID = zeroedScreen 10 10 :=
  ⟨((Pixelate_clips (zeroedScreen 10 10) 3 4 FG_WHITE PIXEL_SOLID).2.2.1 (by decide)).2.1,
    (Pixelate_clips (zeroedScreen 10 10) 10 4 FG_WHITE PIXEL_SOLID).2.2.2 (by decide)⟩

section Keyboard

theorem updateKey_same (smp : Fin 256 → Nat) (s : KeyboardState) (i : Fin 256) :
    keyOf (updateKey smp s i) i = keyStep (smp i) (keyOf s i) := by
  unfold updateKey keyOf keyStep
  by_cases h1 : smp i = s.m_keyOldState i
  · simp [h1]
  · by_cases h2 : smp i &&& 0x8000 = 0
    · simp [h1, h2]
    · simp [h1, h2]

theorem updateKey_other (smp : Fin 256 → Nat) (s : KeyboardState) (i j : Fin 256)
    (h : j ≠ i) : keyOf (updateKey smp s i) j = keyOf s j := by
  unfold updateKey keyOf
  by_cases h1 : smp i = s.m_keyOldState i
  · simp [h1, Function.update_noteq h]
  · by_cases h2 : smp i &&& 0x8000 = 0
    · simp [h1, h2, Function.update_noteq h]
    · simp [h1, h2, Function.update_noteq h]

theorem foldl_updateKey (smp : Fin 256 → Nat) (l : List (Fin 256)) (hl : l.Nodup)
    (s : KeyboardState) (j : Fin 256) :
    keyOf (l.foldl (updateKey smp) s) j =
      if j ∈ l then keyStep (smp j) (keyOf s j) else keyOf s j := by
  induction l generalizing s with
  | nil => simp
  | cons a l ih =>
    rw [List.nodup_cons] at hl
    rw [List.foldl_cons, ih hl.2]
    by_cases hja : j = a
    · subst hja
      simp [hl.1, updateKey_same]
    · have hne : ¬ (a = j) := fun h => hja h.symm
      by_cases hjl : j ∈ l
      · simp [hjl, updateKey_other smp s a j hja]
      · simp [hjl, hja, updateKey_other smp s a j hja]

/-- One frame of the keyboard loop acts on every key as `keyStep`. -/
theorem updateKeys_key (smp : Fin 256 → Nat) (s : KeyboardState) (i : Fin 256) :
    keyOf (updateKeys smp s) i = keyStep (smp i) (keyOf s i) := by
  unfold updateKeys
  rw [foldl_updateKey smp _ (List.nodup_finRange 256)]
  simp

/-- A run of frames acts on every key as the iteration of `keyStep`. -/
theorem runKeys_key (frames : List (Fin 256 → Nat)) (s : KeyboardState) (i : Fin 256) :
    keyOf (runKeys s frames) i = frames.foldl (fun st f => keyStep (f i) st) (keyOf s i) := by
  induction frames generalizing s with
  | nil => rfl
  | cons f fs ih =>
    unfold runKeys at ih ⊢
    rw [List.foldl_cons, ih, updateKeys_key, List.foldl_cons]

theorem runKeys_append (s : KeyboardState) (l1 l2 : List (Fin 256 → Nat)) :
    runKeys s (l1 ++ l2) = runKeys (runKeys s l1) l2 := by
  unfold runKeys; rw [List.foldl_append]

theorem keyStep_heldInv (raw : Nat) (st : Nat × sKeyState) (h : heldInv st) :
    heldInv (keyStep raw st) := by
  unfold heldInv keyStep at *
  by_cases h1 : raw = st.1
  · simp only [h1, ne_eq, not_true_eq_false, if_false]; exact h
  · by_cases h2 : raw &&& 0x8000 = 0
    · simp [h1, h2]
    · simp [h1, h2]

theorem foldl_keyStep_heldInv (raws : List Nat) (st : Nat × sKeyState) (h : heldInv st) :
    heldInv (raws.foldl (fun st r => keyStep r st) st) := by
  induction raws generalizing st with
  | nil => exact h
  | cons r rs ih => exact ih _ (keyStep_heldInv r st h)

theorem runKeys_heldInv (frames : List (Fin 256 → Nat)) (i : Fin 256) :
    heldInv (keyOf (runKeys KeyboardState.init frames) i) := by
  rw [runKeys_key]
  have := foldl_keyStep_heldInv (frames.map (fun f => f i)) (keyOf KeyboardState.init i)
    (by simp [heldInv, keyOf, KeyboardState.init])
  rwa [List.foldl_map] at this

end Keyboard

section KeyboardEdges

theorem keyStep_fst (raw : Nat) (st : Nat × sKeyState) : (keyStep raw st).1 = raw := rfl

theorem keyStep_down (raw : Nat) (st : Nat × sKeyState) (hinv : heldInv st)
    (hraw : raw &&& 0x8000 ≠ 0) :
    (keyStep raw st).2.bHeld = true ∧ (keyStep raw st).2.bPressed = !st.2.bHeld ∧
      (keyStep raw st).2.bReleased = false := by
  unfold heldInv at hinv
  unfold keyStep
  by_cases h1 : raw = st.1
  · have hh : st.2.bHeld = true := hinv.mpr (h1 ▸ hraw)
    simp [h1, hh]
  · simp [h1, hraw]

theorem keyStep_up (raw : Nat) (st : Nat × sKeyState) (hheld : st.2.bHeld = true)
    (hinv : heldInv st) (hraw : raw &&& 0x8000 = 0) :
    (keyStep raw st).2.bReleased = true ∧ (keyStep raw st).2.bHeld = false := by
  unfold heldInv at hinv
  have h1 : raw ≠ st.1 := by
    intro h
    exact (hinv.mp hheld) (h ▸ hraw)
  unfold keyStep
  simp [h1, hraw]

theorem keyStep_down_run (ds : List Nat) (hd : ∀ d ∈ ds, d &&& 0x8000 ≠ 0)
    (st : Nat × sKeyState) (hinv : heldInv st) (j : Nat) (hj : j < ds.length) :
    ((ds.take (j + 1)).foldl (fun st r => keyStep r st) st).2.bHeld = true ∧
      ((ds.take (j + 1)).foldl (fun st r => keyStep r st) st).2.bPressed =
        (decide (j = 0) && !st.2.bHeld) ∧
      ((ds.take (j + 1)).foldl (fun st r => keyStep r st) st).2.bReleased = false := by
  induction ds generalizing st j with
  | nil => simp at hj
  | cons d ds ih =>
    have hdd : d &&& 0x8000 ≠ 0 := hd d (List.mem_cons_self _ _)
    have hstep := keyStep_down d st hinv hdd
    rw [List.take_succ_cons, List.foldl_cons]
    cases j with
    | zero => simpa using hstep
    | succ j =>
      have hj2 : j < ds.length := by simpa using hj
      have := ih (fun e he => hd e (List.mem_cons_of_mem _ he)) (keyStep d st)
        (keyStep_heldInv d st hinv) j hj2
      rw [hstep.1] at this
      simpa using this

end KeyboardEdges

/-- C2. Edge-triggered keys.  Start from the all-clear state and run any frames
`pre`, then a frame `up0` in which key `i` is up (frame `k-1`), then the `N >= 1`
frames `downs` in each of which the raw sample of key `i` has the bit `0x8000`
set and the other bits are arbitrary (frames `k .. k+N-1`), then a frame `up1`
in which the key is up (frame `k+N`).  After the `j`-th of the down frames the
key is held, and it is pressed exactly when `j = 0`; no down frame reports a
release; after the frame `up1` the key is released and no longer held. -/
theorem keys_edge_triggered (i : Fin 256) (pre : List (Fin 256 → Nat))
    (up0 : Fin 256 → Nat) (downs : List (Fin 256 → Nat)) (up1 : Fin 256 → Nat)
    (hup0 : up0 i &&& 0x8000 = 0) (hdown : ∀ d ∈ downs, d i &&& 0x8000 ≠ 0)
    (hN : 1 ≤ downs.length) (hup1 : up1 i &&& 0x8000 = 0) :
    (∀ j : Nat, j < downs.length →
      ((runKeys KeyboardState.init (pre ++ up0 :: downs.take (j + 1))).m_keys i).bHeld = true ∧
      ((runKeys KeyboardState.init (pre ++ up0 :: downs.take (j + 1))).m_keys i).bPressed
        = decide (j = 0) ∧
      ((runKeys KeyboardState.init (pre ++ up0 :: downs.take (j + 1))).m_keys i).bReleased
        = false) ∧
    ((runKeys KeyboardState.init (pre ++ up0 :: (downs ++ [up1]))).m_keys i).bReleased = true ∧
    ((runKeys KeyboardState.init (pre ++ up0 :: (downs ++ [up1]))).m_keys i).bHeld = false := by
  -- the state of key `i` after frame `k-1`
  have hsplit : ∀ l : List (Fin 256 → Nat),
      keyOf (runKeys KeyboardState.init (pre ++ up0 :: l)) i =
        (l.map (fun f => f i)).foldl (fun st r => keyStep r st)
          (keyOf (runKeys KeyboardState.init (pre ++ [up0])) i) := by
    intro l
    have : pre ++ up0 :: l = (pre ++ [up0]) ++ l := by simp
    rw [this, runKeys_append, runKeys_key, List.foldl_map]
  have hinv0 := runKeys_heldInv (pre ++ [up0]) i
  have hold0 : (keyOf (runKeys KeyboardState.init (pre ++ [up0])) i).1 = up0 i := by
    rw [runKeys_append, runKeys_key]
    simp [keyStep_fst]
  have hheld0 : (keyOf (runKeys KeyboardState.init (pre ++ [up0])) i).2.bHeld = false := by
    have h := hinv0
    unfold heldInv at h
    rw [hold0] at h
    cases hb : (keyOf (runKeys KeyboardState.init (pre ++ [up0])) i).2.bHeld
    · rfl
    · exact absurd hup0 (h.mp hb)
  have hdown2 : ∀ d ∈ downs.map (fun f => f i), d &&& 0x8000 ≠ 0 := by
    intro d hd
    obtain ⟨f, hf, rfl⟩ := List.mem_map.mp hd
    exact hdown f hf
  constructor
  · intro j hj
    have hk := hsplit (downs.take (j + 1))
    have hrun := keyStep_down_run (downs.map (fun f => f i)) hdown2 _ hinv0 j (by simpa using hj)
    rw [← List.map_take, ← hk, hheld0] at hrun
    simpa [keyOf] using hrun
  · have hk := hsplit (downs ++ [up1])
    rw [List.map_append, List.foldl_append] at hk
    have hlast := keyStep_down_run (downs.map (fun f => f i)) hdown2 _ hinv0
      (downs.length - 1) (by simp; omega)
    have htake : (downs.map (fun f => f i)).take (downs.length - 1 + 1)
        = downs.map (fun f => f i) := by
      apply List.take_of_length_le; simp; omega
    rw [htake] at hlast
    have hinv1 := foldl_keyStep_heldInv (downs.map (fun f => f i)) _ hinv0
    have hup := keyStep_up (up1 i) _ hlast.1 hinv1 hup1
    have e1 : (runKeys KeyboardState.init (pre ++ up0 :: (downs ++ [up1]))).m_keys i
        = (keyOf (runKeys KeyboardState.init (pre ++ up0 :: (downs ++ [up1]))) i).2 := rfl
    rw [e1, hk]
    simpa using hup

/-- Witness of C2: key 65, one idle frame, then the raw samples `0x8001`,
`0x8000`, `0x8001` (held for three frames), then `0x0001`. -/
theorem keys_edge_triggered_witness :
    ((runKeys KeyboardState.init
        ([] ++ (fun _ => 0) ::
          ([fun _ => 0x8001, fun _ => 0x8000, fun _ => 0x8001] ++ [fun _ => 1]))).m_keys
        65).bReleased = true :=
  (keys_edge_triggered 65 [] (fun _ => 0) [fun _ => 0x8001, fun _ => 0x8000, fun _ => 0x8001]
    (fun _ => 1) (by decide) (by simp) (by decide) (by decide)).2.1

section PlotAll

theorem plotAll_nil (g : ConsoleGraphics) (c t : Nat) : plotAll g [] c t = g := rfl

theorem plotAll_cons (g : ConsoleGraphics) (p : point_2d) (l : List point_2d) (c t : Nat) :
    plotAll g (p :: l) c t = plotAll (Pixelate g p c t) l c t := rfl

theorem plotAll_append (g : ConsoleGraphics) (l1 l2 : List point_2d) (c t : Nat) :
    plotAll g (l1 ++ l2) c t = plotAll (plotAll g l1 c t) l2 c t := by
  unfold plotAll; rw [List.foldl_append]

theorem plotAll_width (g : ConsoleGraphics) (l : List point_2d) (c t : Nat) :
    (plotAll g l c t).m_screenWidth = g.m_screenWidth := by
  induction l generalizing g with
  | nil => rfl
  | cons p l ih => rw [plotAll_cons, ih, Pixelate_width]

theorem plotAll_height (g : ConsoleGraphics) (l : List point_2d) (c t : Nat) :
    (plotAll g l c t).m_screenHeight = g.m_screenHeight := by
  induction l generalizing g with
  | nil => rfl
  | cons p l ih => rw [plotAll_cons, ih, Pixelate_height]

/-- The buffer after a sequence of `Pixelate` calls: a cell holds the glyph and
the colour when one of the points is a cell of the grid at that offset, and is
unchanged otherwise. -/
theorem plotAll_buf (g : ConsoleGraphics) (l : List point_2d) (c t : Nat) (i : Int) :
    (plotAll g l c t).m_bufScreenData i =
      if ∃ p ∈ l, InGrid g p ∧ i = cellIndex g p then { UnicodeChar := t, Attributes := c }
      else g.m_bufScreenData i := by
  induction l generalizing g with
  | nil => simp [plotAll_nil]
  | cons p l ih =>
    rw [plotAll_cons, ih]
    have hw := Pixelate_width g p c t
    have hh := Pixelate_height g p c t
    simp only [InGrid_congr hw hh, cellIndex_congr hw, Pixelate_buf]
    by_cases h1 : ∃ q ∈ l, InGrid g q ∧ i = cellIndex g q
    · obtain ⟨q, hq, hq2⟩ := h1
      rw [if_pos ⟨q, hq, hq2⟩, if_pos ⟨q, List.mem_cons_of_mem _ hq, hq2⟩]
    · rw [if_neg h1]
      by_cases h2 : InGrid g p ∧ i = cellIndex g p
      · rw [if_pos h2, if_pos ⟨p, List.mem_cons_self _ _, h2⟩]
      · rw [if_neg h2, if_neg]
        rintro ⟨q, hq, hq2⟩
        rcases List.mem_cons.mp hq with rfl | hq
        · exact h2 hq2
        · exact h1 ⟨q, hq, hq2⟩

theorem DrawLine_loopX_eq_plotAll (dx dy mdx mdy lx : Int) (c t : Nat) (fuel : Nat)
    (x y px : Int) (g : ConsoleGraphics) :
    DrawLine_loopX dx dy mdx mdy lx c t fuel x y px g =
      plotAll g (DrawLine_loopX_cells dx dy mdx mdy lx fuel x y px) c t := by
  induction fuel generalizing x y px g with
  | zero => rfl
  | succ n ih =>
    unfold DrawLine_loopX DrawLine_loopX_cells
    by_cases h1 : x < lx
    · by_cases h2 : px < 0
      · simp only [h1, h2, if_true, plotAll_cons]; exact ih _ _ _ _
      · simp only [h1, h2, if_true, if_false, plotAll_cons]; exact ih _ _ _ _
    · simp only [h1, if_false, plotAll_nil]

theorem DrawLine_loopY_eq_plotAll (dx dy mdx mdy ly : Int) (c t : Nat) (fuel : Nat)
    (x y py : Int) (g : ConsoleGraphics) :
    DrawLine_loopY dx dy mdx mdy ly c t fuel x y py g =
      plotAll g (DrawLine_loopY_cells dx dy mdx mdy ly fuel x y py) c t := by
  induction fuel generalizing x y py g with
  | zero => rfl
  | succ n ih =>
    unfold DrawLine_loopY DrawLine_loopY_cells
    by_cases h1 : y < ly
    · by_cases h2 : py ≤ 0
      · simp only [h1, h2, if_true, plotAll_cons]; exact ih _ _ _ _
      · simp only [h1, h2, if_true, if_false, plotAll_cons]; exact ih _ _ _ _
    · simp only [h1, if_false, plotAll_nil]

/-- `DrawLine` is the sequence of `Pixelate` calls at the points `DrawLine_cells`. -/
theorem DrawLine_eq_plotAll (g : ConsoleGraphics) (p1 p2 : point_2d) (c t : Nat) :
    DrawLine g p1 p2 c t = plotAll g (DrawLine_cells p1 p2) c t := by
  unfold DrawLine DrawLine_cells
  by_cases h : |p2.y - p1.y| ≤ |p2.x - p1.x|
  · simp only [h, if_true, plotAll_cons, DrawLine_loopX_eq_plotAll]
  · simp only [h, if_false, plotAll_cons, DrawLine_loopY_eq_plotAll]

end PlotAll

section Line

theorem stepDir_sq (dx dy : Int) : stepDir dx dy = 1 ∨ stepDir dx dy = -1 := by
  unfold stepDir; split <;> simp

theorem stepDir_ite (dx dy v : Int) :
    (if (dx < 0 ∧ dy < 0) ∨ (dx > 0 ∧ dy > 0) then v + 1 else v - 1) = v + stepDir dx dy := by
  unfold stepDir; split <;> ring

theorem DrawLine_loopX_cells_spec (dx dy D E L : Int) (hE : 0 ≤ E) (hED : E ≤ D) :
    ∀ (n : Nat) (x y px : Int), x + n = L → 2 * E - 2 * D ≤ px → px < 2 * E →
    ∃ s : Int, 0 ≤ s ∧ 2 * E - 2 * D ≤ px + 2 * E * n - 2 * D * s ∧
      px + 2 * E * n - 2 * D * s < 2 * E ∧
      List.Chain Adjacent8 ⟨x, y⟩ (DrawLine_loopX_cells dx dy D E L n x y px) ∧
      (⟨x, y⟩ :: DrawLine_loopX_cells dx dy D E L n x y px).getLast? =
        some ⟨x + n, y + stepDir dx dy * s⟩ ∧
      ∀ p ∈ DrawLine_loopX_cells dx dy D E L n x y px,
        x < p.x ∧ p.x ≤ x + n ∧ ∃ k : Int, 0 ≤ k ∧ k ≤ s ∧ p.y = y + stepDir dx dy * k := by
  intro n
  induction n with
  | zero =>
    intro x y px _ h1 h2
    refine ⟨0, le_refl _, by simpa using h1, by simpa using h2, ?_, ?_, ?_⟩
    · simp [DrawLine_loopX_cells]
    · simp [DrawLine_loopX_cells]
    · simp [DrawLine_loopX_cells]
  | succ n ih =>
    intro x y px hL h1 h2
    have hx : x < L := by push_cast at hL; omega
    unfold DrawLine_loopX_cells
    simp only [hx, if_true, stepDir_ite]
    by_cases hp : px < 0
    · simp only [hp, if_true]
      obtain ⟨s, hs0, hs1, hs2, hch, hlast, hmem⟩ :=
        ih (x + 1) y (px + 2 * E) (by push_cast at hL; omega) (by omega) (by omega)
      refine ⟨s, hs0, ?_, ?_, ?_, ?_, ?_⟩
      · push_cast; linarith
      · push_cast; linarith
      · refine List.Chain.cons ?_ hch
        simp [Adjacent8]
      · rw [List.getLast?_cons_cons, hlast]
        congr 2; push_cast; ring
      · intro p hpm
        rcases List.mem_cons.mp hpm with rfl | hpm
        · exact ⟨by simp, by simp, 0, le_refl _, hs0, by simp⟩
        · obtain ⟨a, b, k, hk0, hk1, hk2⟩ := hmem p hpm
          exact ⟨by omega, by push_cast; omega, k, hk0, hk1, hk2⟩
    · simp only [hp, if_false]
      obtain ⟨s, hs0, hs1, hs2, hch, hlast, hmem⟩ :=
        ih (x + 1) (y + stepDir dx dy) (px + 2 * (E - D)) (by push_cast at hL; omega)
          (by omega) (by omega)
      refine ⟨s + 1, by omega, ?_, ?_, ?_, ?_, ?_⟩
      · push_cast; linarith
      · push_cast; linarith
      · refine List.Chain.cons ?_ hch
        rcases stepDir_sq dx dy with h | h <;> simp [Adjacent8, h]
      · rw [List.getLast?_cons_cons, hlast]
        congr 2 <;> (push_cast; ring)
      · intro p hpm
        rcases List.mem_cons.mp hpm with rfl | hpm
        · exact ⟨by simp, by simp, 1, by omega, by omega, by simp⟩
        · obtain ⟨a, b, k, hk0, hk1, hk2⟩ := hmem p hpm
          exact ⟨by omega, by push_cast; omega, k + 1, by omega, by omega, by rw [hk2]; ring⟩


theorem DrawLine_loopY_cells_spec (dx dy D E L : Int) (hD : 0 ≤ D) (hDE : D ≤ E) :
    ∀ (n : Nat) (x y py : Int), y + n = L → 2 * D - 2 * E < py → py ≤ 2 * D →
    ∃ s : Int, 0 ≤ s ∧ 2 * D - 2 * E < py + 2 * D * n - 2 * E * s ∧
      py + 2 * D * n - 2 * E * s ≤ 2 * D ∧
      List.Chain Adjacent8 ⟨x, y⟩ (DrawLine_loopY_cells dx dy D E L n x y py) ∧
      (⟨x, y⟩ :: DrawLine_loopY_cells dx dy D E L n x y py).getLast? =
        some ⟨x + stepDir dx dy * s, y + n⟩ ∧
      ∀ p ∈ DrawLine_loopY_cells dx dy D E L n x y py,
        y < p.y ∧ p.y ≤ y + n ∧ ∃ k : Int, 0 ≤ k ∧ k ≤ s ∧ p.x = x + stepDir dx dy * k := by
  intro n
  induction n with
  | zero =>
    intro x y py _ h1 h2
    refine ⟨0, le_refl _, by simpa using h1, by simpa using h2, ?_, ?_, ?_⟩
    · simp [DrawLine_loopY_cells]
    · simp [DrawLine_loopY_cells]
    · simp [DrawLine_loopY_cells]
  | succ n ih =>
    intro x y py hL h1 h2
    have hy : y < L := by push_cast at hL; omega
    unfold DrawLine_loopY_cells
    simp only [hy, if_true, stepDir_ite]
    by_cases hp : py ≤ 0
    · simp only [hp, if_true]
      obtain ⟨s, hs0, hs1, hs2, hch, hlast, hmem⟩ :=
        ih x (y + 1) (py + 2 * D) (by push_cast at hL; omega) (by omega) (by omega)
      refine ⟨s, hs0, ?_, ?_, ?_, ?_, ?_⟩
      · push_cast; linarith
      · push_cast; linarith
      · refine List.Chain.cons ?_ hch
        simp [Adjacent8]
      · rw [List.getLast?_cons_cons, hlast]
        congr 2; push_cast; ring
      · intro p hpm
        rcases List.mem_cons.mp hpm with rfl | hpm
        · exact ⟨by simp, by simp, 0, le_refl _, hs0, by simp⟩
        · obtain ⟨a, b, k, hk0, hk1, hk2⟩ := hmem p hpm
          exact ⟨by omega, by push_cast; omega, k, hk0, hk1, hk2⟩
    · simp only [hp, if_false]
      obtain ⟨s, hs0, hs1, hs2, hch, hlast, hmem⟩ :=
        ih (x + stepDir dx dy) (y + 1) (py + 2 * (D - E)) (by push_cast at hL; omega)
          (by omega) (by omega)
      refine ⟨s + 1, by omega, ?_, ?_, ?_, ?_, ?_⟩
      · push_cast; linarith
      · push_cast; linarith
      · refine List.Chain.cons ?_ hch
        rcases stepDir_sq dx dy with h | h <;> simp [Adjacent8, h]
      · rw [List.getLast?_cons_cons, hlast]
        congr 2 <;> (push_cast; ring)
      · intro p hpm
        rcases List.mem_cons.mp hpm with rfl | hpm
        · exact ⟨by simp, by simp, 1, by omega, by omega, by simp⟩
        · obtain ⟨a, b, k, hk0, hk1, hk2⟩ := hmem p hpm
          exact ⟨by omega, by push_cast; omega, k + 1, by omega, by omega, by rw [hk2]; ring⟩


theorem stepDir_neg (dx dy : Int) : stepDir (-dx) (-dy) = stepDir dx dy := by
  unfold stepDir
  split_ifs <;> first | rfl | omega

theorem DrawLine_loopX_cells_congr (dx dy dx' dy' D E L : Int)
    (h : stepDir dx' dy' = stepDir dx dy) (n : Nat) (x y px : Int) :
    DrawLine_loopX_cells dx' dy' D E L n x y px = DrawLine_loopX_cells dx dy D E L n x y px := by
  induction n generalizing x y px with
  | zero => rfl
  | succ n ih =>
    unfold DrawLine_loopX_cells
    simp only [stepDir_ite, h, ih]

theorem DrawLine_loopY_cells_congr (dx dy dx' dy' D E L : Int)
    (h : stepDir dx' dy' = stepDir dx dy) (n : Nat) (x y py : Int) :
    DrawLine_loopY_cells dx' dy' D E L n x y py = DrawLine_loopY_cells dx dy D E L n x y py := by
  induction n generalizing x y py with
  | zero => rfl
  | succ n ih =>
    unfold DrawLine_loopY_cells
    simp only [stepDir_ite, h, ih]

/-- The calls of `DrawLine` do not depend on the order of the endpoints. -/
theorem DrawLine_cells_comm (a b : point_2d) : DrawLine_cells a b = DrawLine_cells b a := by
  by_cases hab : a = b
  · subst hab; rfl
  unfold DrawLine_cells
  have e1 : a.x - b.x = -(b.x - a.x) := by ring
  have e2 : a.y - b.y = -(b.y - a.y) := by ring
  simp only [e1, e2, abs_neg]
  by_cases h : |b.y - a.y| ≤ |b.x - a.x|
  · simp only [h, if_true]
    rw [DrawLine_loopX_cells_congr _ _ _ _ _ _ _ (stepDir_neg (b.x - a.x) (b.y - a.y))]
    rcases lt_trichotomy (b.x - a.x) 0 with hx | hx | hx
    · have h1 : ¬ (b.x - a.x ≥ 0) := by omega
      have h2 : -(b.x - a.x) ≥ 0 := by omega
      simp only [h1, h2, if_true, if_false]
    · exfalso
      rw [hx, abs_zero] at h
      have hy : b.y - a.y = 0 := abs_eq_zero.mp (le_antisymm h (abs_nonneg _))
      apply hab
      cases a; cases b; simp at hx hy ⊢; omega
    · have h1 : b.x - a.x ≥ 0 := by omega
      have h2 : ¬ (-(b.x - a.x) ≥ 0) := by omega
      simp only [h1, h2, if_true, if_false]
  · simp only [h, if_false]
    rw [DrawLine_loopY_cells_congr _ _ _ _ _ _ _ (stepDir_neg (b.x - a.x) (b.y - a.y))]
    rcases lt_trichotomy (b.y - a.y) 0 with hy | hy | hy
    · have h1 : ¬ (b.y - a.y ≥ 0) := by omega
      have h2 : -(b.y - a.y) ≥ 0 := by omega
      simp only [h1, h2, if_true, if_false]
    · exfalso
      rw [hy, abs_zero] at h
      exact h (abs_nonneg _)
    · have h1 : b.y - a.y ≥ 0 := by omega
      have h2 : ¬ (-(b.y - a.y) ≥ 0) := by omega
      simp only [h1, h2, if_true, if_false]


/-- The first loop of `DrawLine`, run from the start cell `s` for `D` steps with
the initial decision value `2E - D`, ends in the cell `t`, moves by one
8-neighbour step at a time and stays between `s` and `t`. -/
theorem DrawLine_loopX_line (dx dy D E : Int) (s t : point_2d) (hD : D = t.x - s.x)
    (hpos : 0 < D) (hE0 : 0 ≤ E) (hED : E ≤ D) (hdy : stepDir dx dy * E = t.y - s.y) :
    (s :: DrawLine_loopX_cells dx dy D E t.x (t.x - s.x).toNat s.x s.y (2 * E - D)).getLast?
        = some t ∧
      List.Chain Adjacent8 s
        (DrawLine_loopX_cells dx dy D E t.x (t.x - s.x).toNat s.x s.y (2 * E - D)) ∧
      ∀ p ∈ DrawLine_loopX_cells dx dy D E t.x (t.x - s.x).toNat s.x s.y (2 * E - D),
        s.x ≤ p.x ∧ p.x ≤ t.x ∧ min s.y t.y ≤ p.y ∧ p.y ≤ max s.y t.y := by
  obtain ⟨sx, sy⟩ := s
  obtain ⟨tx, ty⟩ := t
  simp only at hD hdy ⊢
  have hn : ((tx - sx).toNat : Int) = D := by rw [hD]; exact Int.toNat_of_nonneg (by omega)
  obtain ⟨k, hk0, hk1, hk2, hch, hlast, hmem⟩ :=
    DrawLine_loopX_cells_spec dx dy D E tx hE0 hED (tx - sx).toNat sx sy (2 * E - D)
      (by omega) (by omega) (by omega)
  rw [hn] at hk1 hk2 hlast hmem
  have hkE : k = E := by
    have a1 : 2 * D * (k - E) ≤ D := by nlinarith
    have a2 : -D < 2 * D * (k - E) := by nlinarith
    have a3 : k - E < 1 := by nlinarith
    have a4 : -1 < k - E := by nlinarith
    omega
  subst hkE
  refine ⟨?_, hch, ?_⟩
  · rw [hlast]; congr 2 <;> omega
  · intro p hp
    obtain ⟨b1, b2, j, hj0, hj1, hj2⟩ := hmem p hp
    refine ⟨by omega, by omega, ?_, ?_⟩
    · rcases stepDir_sq dx dy with h | h <;> rw [h] at hj2 hdy <;>
        simp only [min_le_iff] <;> omega
    · rcases stepDir_sq dx dy with h | h <;> rw [h] at hj2 hdy <;>
        simp only [le_max_iff] <;> omega

/-- The second loop of `DrawLine`, run from the start cell `s` for `E` steps with
the initial decision value `2D - E`, ends in the cell `t`, moves by one
8-neighbour step at a time and stays between `s` and `t`. -/
theorem DrawLine_loopY_line (dx dy D E : Int) (s t : point_2d) (hE : E = t.y - s.y)
    (hD0 : 0 ≤ D) (hDE : D < E) (hdx : stepDir dx dy * D = t.x - s.x) :
    (s :: DrawLine_loopY_cells dx dy D E t.y (t.y - s.y).toNat s.x s.y (2 * D - E)).getLast?
        = some t ∧
      List.Chain Adjacent8 s
        (DrawLine_loopY_cells dx dy D E t.y (t.y - s.y).toNat s.x s.y (2 * D - E)) ∧
      ∀ p ∈ DrawLine_loopY_cells dx dy D E t.y (t.y - s.y).toNat s.x s.y (2 * D - E),
        s.y ≤ p.y ∧ p.y ≤ t.y ∧ min s.x t.x ≤ p.x ∧ p.x ≤ max s.x t.x := by
  obtain ⟨sx, sy⟩ := s
  obtain ⟨tx, ty⟩ := t
  simp only at hE hdx ⊢
  have hn : ((ty - sy).toNat : Int) = E := by rw [hE]; exact Int.toNat_of_nonneg (by omega)
  obtain ⟨k, hk0, hk1, hk2, hch, hlast, hmem⟩ :=
    DrawLine_loopY_cells_spec dx dy D E ty hD0 (le_of_lt hDE) (ty - sy).toNat sx sy (2 * D - E)
      (by omega) (by omega) (by omega)
  rw [hn] at hk1 hk2 hlast hmem
  have hkD : k = D := by
    have a1 : 2 * E * (k - D) < E := by nlinarith
    have a2 : -E ≤ 2 * E * (k - D) := by nlinarith
    have a3 : k - D < 1 := by nlinarith
    have a4 : -1 < k - D := by nlinarith
    omega
  subst hkD
  refine ⟨?_, hch, ?_⟩
  · rw [hlast]; congr 2 <;> omega
  · intro p hp
    obtain ⟨b1, b2, j, hj0, hj1, hj2⟩ := hmem p hp
    refine ⟨by omega, by omega, ?_, ?_⟩
    · rcases stepDir_sq dx dy with h | h <;> rw [h] at hj2 hdx <;>
        simp only [min_le_iff] <;> omega
    · rcases stepDir_sq dx dy with h | h <;> rw [h] at hj2 hdx <;>
        simp only [le_max_iff] <;> omega


theorem stepDir_mul_abs (dx dy : Int) (hdx : 0 < dx) : stepDir dx dy * |dy| = dy := by
  unfold stepDir
  rcases lt_trichotomy dy 0 with h | h | h
  · have : ¬ ((dx < 0 ∧ dy < 0) ∨ (dx > 0 ∧ dy > 0)) := by omega
    rw [if_neg this, abs_of_neg h]; ring
  · subst h; simp
  · have : (dx < 0 ∧ dy < 0) ∨ (dx > 0 ∧ dy > 0) := by omega
    rw [if_pos this, abs_of_pos h]; ring

theorem stepDir_mul_abs_major (dx dy : Int) (hdy : 0 < dy) : stepDir dx dy * |dx| = dx := by
  unfold stepDir
  rcases lt_trichotomy dx 0 with h | h | h
  · have : ¬ ((dx < 0 ∧ dy < 0) ∨ (dx > 0 ∧ dy > 0)) := by omega
    rw [if_neg this, abs_of_neg h]; ring
  · subst h; simp
  · have : (dx < 0 ∧ dy < 0) ∨ (dx > 0 ∧ dy > 0) := by omega
    rw [if_pos this, abs_of_pos h]; ring

/-- When the loop of `DrawLine a b` starts at `a`, the calls go from `a` to `b`
by 8-neighbour steps inside the bounding box of the two endpoints. -/
theorem DrawLine_cells_forward (a b : point_2d)
    (h : (|b.y - a.y| ≤ |b.x - a.x| ∧ 0 < b.x - a.x) ∨
      (¬ |b.y - a.y| ≤ |b.x - a.x| ∧ 0 < b.y - a.y)) :
    (DrawLine_cells a b).head? = some a ∧ (DrawLine_cells a b).getLast? = some b ∧
      List.Chain' Adjacent8 (DrawLine_cells a b) ∧
      ∀ p ∈ DrawLine_cells a b, min a.x b.x ≤ p.x ∧ p.x ≤ max a.x b.x ∧
        min a.y b.y ≤ p.y ∧ p.y ≤ max a.y b.y := by
  have hself : min a.x b.x ≤ a.x ∧ a.x ≤ max a.x b.x ∧ min a.y b.y ≤ a.y ∧ a.y ≤ max a.y b.y :=
    ⟨min_le_left _ _, le_max_left _ _, min_le_left _ _, le_max_left _ _⟩
  rcases h with ⟨hle, hpos⟩ | ⟨hle, hpos⟩
  · have hge : b.x - a.x ≥ 0 := by omega
    obtain ⟨h1, h2, h3⟩ := DrawLine_loopX_line (b.x - a.x) (b.y - a.y) |b.x - a.x| |b.y - a.y|
      a b (abs_of_pos hpos) (abs_pos.mpr (by omega)) (abs_nonneg _) hle
      (stepDir_mul_abs _ _ hpos)
    unfold DrawLine_cells
    simp only [hle, hge, if_true]
    refine ⟨rfl, h1, h2, ?_⟩
    intro p hp
    rcases List.mem_cons.mp hp with rfl | hp
    · exact hself
    · obtain ⟨c1, c2, c3, c4⟩ := h3 p hp
      exact ⟨le_trans (min_le_left _ _) c1, le_trans c2 (le_max_right _ _), c3, c4⟩
  · have hge : b.y - a.y ≥ 0 := by omega
    obtain ⟨h1, h2, h3⟩ := DrawLine_loopY_line (b.x - a.x) (b.y - a.y) |b.x - a.x| |b.y - a.y|
      a b (abs_of_pos hpos) (abs_nonneg _) (not_le.mp hle) (stepDir_mul_abs_major _ _ hpos)
    unfold DrawLine_cells
    simp only [hle, hge, if_true, if_false]
    refine ⟨rfl, h1, h2, ?_⟩
    intro p hp
    rcases List.mem_cons.mp hp with rfl | hp
    · exact hself
    · obtain ⟨c1, c2, c3, c4⟩ := h3 p hp
      exact ⟨c3, c4, le_trans (min_le_left _ _) c1, le_trans c2 (le_max_right _ _)⟩

theorem DrawLine_cells_self (a : point_2d) : DrawLine_cells a a = [a] := by
  unfold DrawLine_cells
  simp [DrawLine_loopX_cells]

/-- The calls of `DrawLine a b` go from one endpoint to the other by
8-neighbour steps inside the bounding box of the two endpoints. -/
theorem DrawLine_cells_spec (a b : point_2d) :
    (((DrawLine_cells a b).head? = some a ∧ (DrawLine_cells a b).getLast? = some b) ∨
      ((DrawLine_cells a b).head? = some b ∧ (DrawLine_cells a b).getLast? = some a)) ∧
      List.Chain' Adjacent8 (DrawLine_cells a b) ∧
      ∀ p ∈ DrawLine_cells a b, min a.x b.x ≤ p.x ∧ p.x ≤ max a.x b.x ∧
        min a.y b.y ≤ p.y ∧ p.y ≤ max a.y b.y := by
  by_cases hab : a = b
  · subst hab
    rw [DrawLine_cells_self]
    simp
  by_cases hle : |b.y - a.y| ≤ |b.x - a.x|
  · rcases lt_trichotomy (b.x - a.x) 0 with hx | hx | hx
    · have hle' : |a.y - b.y| ≤ |a.x - b.x| := by rwa [abs_sub_comm a.y, abs_sub_comm a.x]
      obtain ⟨h1, h2, h3, h4⟩ := DrawLine_cells_forward b a (Or.inl ⟨hle', by omega⟩)
      rw [DrawLine_cells_comm a b]
      refine ⟨Or.inr ⟨h1, h2⟩, h3, ?_⟩
      intro p hp
      rw [min_comm a.x, max_comm a.x, min_comm a.y, max_comm a.y]
      exact h4 p hp
    · exfalso
      rw [hx, abs_zero] at hle
      have hy : b.y - a.y = 0 := abs_eq_zero.mp (le_antisymm hle (abs_nonneg _))
      apply hab
      cases a; cases b; simp at hx hy ⊢; omega
    · obtain ⟨h1, h2, h3, h4⟩ := DrawLine_cells_forward a b (Or.inl ⟨hle, hx⟩)
      exact ⟨Or.inl ⟨h1, h2⟩, h3, h4⟩
  · rcases lt_trichotomy (b.y - a.y) 0 with hy | hy | hy
    · have hle' : ¬ |a.y - b.y| ≤ |a.x - b.x| := by rwa [abs_sub_comm a.y, abs_sub_comm a.x]
      obtain ⟨h1, h2, h3, h4⟩ := DrawLine_cells_forward b a (Or.inr ⟨hle', by omega⟩)
      rw [DrawLine_cells_comm a b]
      refine ⟨Or.inr ⟨h1, h2⟩, h3, ?_⟩
      intro p hp
      rw [min_comm a.x, max_comm a.x, min_comm a.y, max_comm a.y]
      exact h4 p hp
    · exfalso
      rw [hy, abs_zero] at hle
      exact hle (abs_nonneg _)
    · obtain ⟨h1, h2, h3, h4⟩ := DrawLine_cells_forward a b (Or.inr ⟨hle, hy⟩)
      exact ⟨Or.inl ⟨h1, h2⟩, h3, h4⟩


end Line

/-- C3. `DrawLine` paints a connected path.  On a grid that contains both
endpoints `a` and `b`, the cells `DrawLine_cells a b` handed to `Pixelate` run
from one endpoint to the other, consecutive cells differ by at most 1 in `x` and
at most 1 in `y`, every one of them is a cell of the grid and holds the glyph
and the colour afterwards (in particular `a` and `b` do), and no other cell of
the buffer changes. -/
theorem DrawLine_connected_path (g : ConsoleGraphics) (a b : point_2d) (color glyph : Nat)
    (ha : InGrid g a) (hb : InGrid g b) :
    (((DrawLine_cells a b).head? = some a ∧ (DrawLine_cells a b).getLast? = some b) ∨
      ((DrawLine_cells a b).head? = some b ∧ (DrawLine_cells a b).getLast? = some a)) ∧
    List.Chain' (fun p q : point_2d => |q.x - p.x| ≤ 1 ∧ |q.y - p.y| ≤ 1) (DrawLine_cells a b) ∧
    (∀ p ∈ DrawLine_cells a b, InGrid g p ∧
      (DrawLine g a b color glyph).m_bufScreenData (cellIndex g p) =
        { UnicodeChar := glyph, Attributes := color }) ∧
    (DrawLine g a b color glyph).m_bufScreenData (cellIndex g a) =
      { UnicodeChar := glyph, Attributes := color } ∧
    (DrawLine g a b color glyph).m_bufScreenData (cellIndex g b) =
      { UnicodeChar := glyph, Attributes := color } ∧
    (∀ i : Int, (∀ p ∈ DrawLine_cells a b, i ≠ cellIndex g p) →
      (DrawLine g a b color glyph).m_bufScreenData i = g.m_bufScreenData i) := by
  obtain ⟨hends, hchain, hbox⟩ := DrawLine_cells_spec a b
  have hin : ∀ p ∈ DrawLine_cells a b, InGrid g p := by
    intro p hp
    obtain ⟨c1, c2, c3, c4⟩ := hbox p hp
    obtain ⟨a1, a2, a3, a4⟩ := ha
    obtain ⟨b1, b2, b3, b4⟩ := hb
    simp only [min_le_iff, le_max_iff] at c1 c2 c3 c4
    refine ⟨?_, ?_, ?_, ?_⟩ <;> omega
  have hpaint : ∀ p ∈ DrawLine_cells a b,
      (DrawLine g a b color glyph).m_bufScreenData (cellIndex g p) =
        { UnicodeChar := glyph, Attributes := color } := by
    intro p hp
    rw [DrawLine_eq_plotAll, plotAll_buf, if_pos ⟨p, hp, hin p hp, rfl⟩]
  have hmem : a ∈ DrawLine_cells a b ∧ b ∈ DrawLine_cells a b := by
    rcases hends with ⟨h1, h2⟩ | ⟨h1, h2⟩
    · exact ⟨List.mem_of_mem_head? h1, List.mem_of_mem_getLast? h2⟩
    · exact ⟨List.mem_of_mem_getLast? h2, List.mem_of_mem_head? h1⟩
  refine ⟨hends, hchain, fun p hp => ⟨hin p hp, hpaint p hp⟩, hpaint a hmem.1,
    hpaint b hmem.2, ?_⟩
  intro i hi
  rw [DrawLine_eq_plotAll, plotAll_buf, if_neg]
  rintro ⟨p, hp, _, hpi⟩
  exact hi p hp hpi

/-- Witness of C3 on the cleared 10 by 10 grid: the line from `(0, 0)` to
`(5, 2)` paints both endpoints. -/
theorem DrawLine_connected_path_witness :
    (DrawLine (zeroedScreen 10 10) ⟨0, 0⟩ ⟨5, 2⟩ FG_WHITE PIXEL_SOLID).m_bufScreenData
        (cellIndex (zeroedScreen 10 10) ⟨0, 0⟩) =
        { UnicodeChar := PIXEL_SOLID, Attributes := FG_WHITE } ∧
      (DrawLine (zeroedScreen 10 10) ⟨0, 0⟩ ⟨5, 2⟩ FG_WHITE PIXEL_SOLID).m_bufScreenData
        (cellIndex (zeroedScreen 10 10) ⟨5, 2⟩) =
        { UnicodeChar := PIXEL_SOLID, Attributes := FG_WHITE } :=
  ⟨(DrawLine_connected_path (zeroedScreen 10 10) ⟨0, 0⟩ ⟨5, 2⟩ FG_WHITE PIXEL_SOLID
      (by decide) (by decide)).2.2.2.1,
    (DrawLine_connected_path (zeroedScreen 10 10) ⟨0, 0⟩ ⟨5, 2⟩ FG_WHITE PIXEL_SOLID
      (by decide) (by decide)).2.2.2.2.1⟩

/-- C4. Line symmetry.  `DrawLine(a, b)` and `DrawLine(b, a)` hand the same cells
to `Pixelate`, so with the same colour and glyph and the same starting buffer
they leave equal buffers. -/
theorem DrawLine_symmetric (g : ConsoleGraphics) (a b : point_2d) (color glyph : Nat) :
    DrawLine_cells a b = DrawLine_cells b a ∧
      DrawLine g a b color glyph = DrawLine g b a color glyph := by
  refine ⟨DrawLine_cells_comm a b, ?_⟩
  rw [DrawLine_eq_plotAll, DrawLine_eq_plotAll, DrawLine_cells_comm a b]

section Triangle

theorem castInt_intCast (n : Int) : castInt (n : ℚ) = n := by
  unfold castInt
  simp [Int.tdiv_one]

theorem castInt_eq (q : ℚ) : castInt q = if 0 ≤ q then ⌊q⌋ else -⌊-q⌋ := by
  unfold castInt
  split
  · rename_i h
    have hn : 0 ≤ q.num := Rat.num_nonneg.mpr h
    rw [Rat.floor_def, Int.tdiv_eq_ediv hn (by omega)]
  · rename_i h
    have hn : q.num < 0 := Rat.num_neg.mpr (not_le.mp h)
    rw [Rat.floor_def, Rat.neg_num, Rat.neg_den]
    have : q.num = -(-q.num) := by ring
    rw [this, Int.neg_tdiv, Int.tdiv_eq_ediv (by omega) (by omega)]
    simp

theorem castInt_div_natCast (n : Int) (d : Nat) :
    castInt ((n : ℚ) / (d : ℚ)) = Int.tdiv n d := by
  rw [castInt_eq]
  rcases Nat.eq_zero_or_pos d with hd | hd
  · subst hd; simp
  have hdq : (0 : ℚ) < d := by exact_mod_cast hd
  split
  · rename_i h
    have hn : 0 ≤ n := by
      have := (div_nonneg_iff.mp h)
      rcases this with ⟨h1, _⟩ | ⟨_, h2⟩
      · exact_mod_cast h1
      · linarith
    rw [Rat.floor_intCast_div_natCast, Int.tdiv_eq_ediv hn (by omega)]
  · rename_i h
    have hn : n < 0 := by
      by_contra hc
      exact h (div_nonneg (by exact_mod_cast (not_lt.mp hc)) hdq.le)
    have e : -((n : ℚ) / (d : ℚ)) = ((-n : Int) : ℚ) / (d : ℚ) := by push_cast; ring
    rw [e, Rat.floor_intCast_div_natCast]
    have : n = -(-n) := by ring
    conv_rhs => rw [this, Int.neg_tdiv, Int.tdiv_eq_ediv (show (0:Int) ≤ -n by omega) (by omega)]

theorem toPoint_toVecF (p : point_2d) : toPoint (toVecF p) = p := by
  cases p; simp [toPoint, toVecF, castInt_intCast]

theorem IsPointInsideTriangle_area_eq (a b c : point_2d) :
    IsPointInsideTriangle_area a b c = ((|shoelace a b c| : Int) : ℚ) / 2 := by
  unfold IsPointInsideTriangle_area shoelace
  rw [abs_div, Int.cast_abs]; norm_num

theorem IsPointInsideTriangle_iff (p p1 p2 p3 : point_2d) :
    IsPointInsideTriangle p p1 p2 p3 = true ↔
      |shoelace p1 p2 p3| = |shoelace p p2 p3| + |shoelace p1 p p3| + |shoelace p1 p2 p| := by
  unfold IsPointInsideTriangle
  simp only [decide_eq_true_eq, IsPointInsideTriangle_area_eq]
  constructor
  · intro h
    have : ((|shoelace p1 p2 p3| : Int) : ℚ) =
        ((|shoelace p p2 p3| + |shoelace p1 p p3| + |shoelace p1 p2 p| : Int) : ℚ) := by
      rw [Int.cast_add, Int.cast_add]; linarith
    exact_mod_cast this
  · intro h
    rw [h, Int.cast_add, Int.cast_add]; ring


theorem shoelace_split (p p1 p2 p3 : point_2d) :
    shoelace p1 p2 p3 = shoelace p p2 p3 + shoelace p1 p p3 + shoelace p1 p2 p := by
  unfold shoelace; ring

theorem shoelace_bary_x (p p1 p2 p3 : point_2d) :
    shoelace p p2 p3 * (p.x - p1.x) + shoelace p1 p p3 * (p.x - p2.x) +
      shoelace p1 p2 p * (p.x - p3.x) = 0 := by
  unfold shoelace; ring

theorem shoelace_bary_y (p p1 p2 p3 : point_2d) :
    shoelace p p2 p3 * (p.y - p1.y) + shoelace p1 p p3 * (p.y - p2.y) +
      shoelace p1 p2 p * (p.y - p3.y) = 0 := by
  unfold shoelace; ring

/-- When the area test succeeds, the three sub-areas have the sign of the area. -/
theorem shoelace_same_sign (p p1 p2 p3 : point_2d)
    (h : IsPointInsideTriangle p p1 p2 p3 = true) :
    (0 ≤ shoelace p p2 p3 ∧ 0 ≤ shoelace p1 p p3 ∧ 0 ≤ shoelace p1 p2 p) ∨
      (shoelace p p2 p3 ≤ 0 ∧ shoelace p1 p p3 ≤ 0 ∧ shoelace p1 p2 p ≤ 0) := by
  rw [IsPointInsideTriangle_iff] at h
  have hs := shoelace_split p p1 p2 p3
  rcases le_total 0 (shoelace p1 p2 p3) with hN | hN
  · left
    rw [abs_of_nonneg hN] at h
    have a1 := le_abs_self (shoelace p p2 p3)
    have a2 := le_abs_self (shoelace p1 p p3)
    have a3 := le_abs_self (shoelace p1 p2 p)
    have b1 := abs_nonneg (shoelace p p2 p3)
    have b2 := abs_nonneg (shoelace p1 p p3)
    have b3 := abs_nonneg (shoelace p1 p2 p)
    refine ⟨?_, ?_, ?_⟩ <;> omega
  · right
    rw [abs_of_nonpos hN] at h
    have a1 := neg_abs_le (shoelace p p2 p3)
    have a2 := neg_abs_le (shoelace p1 p p3)
    have a3 := neg_abs_le (shoelace p1 p2 p)
    have b1 := abs_nonneg (shoelace p p2 p3)
    have b2 := abs_nonneg (shoelace p1 p p3)
    have b3 := abs_nonneg (shoelace p1 p2 p)
    refine ⟨?_, ?_, ?_⟩ <;> omega

/-- Three products of one sign that sum to zero vanish, so with non-zero second
factors the first factors vanish. -/
theorem weights_zero (n1 n2 n3 d1 d2 d3 : Int)
    (hs : (0 ≤ n1 ∧ 0 ≤ n2 ∧ 0 ≤ n3) ∨ (n1 ≤ 0 ∧ n2 ≤ 0 ∧ n3 ≤ 0))
    (hd : (0 < d1 ∧ 0 < d2 ∧ 0 < d3) ∨ (d1 < 0 ∧ d2 < 0 ∧ d3 < 0))
    (h : n1 * d1 + n2 * d2 + n3 * d3 = 0) : n1 = 0 ∧ n2 = 0 ∧ n3 = 0 := by
  rcases hs with ⟨s1, s2, s3⟩ | ⟨s1, s2, s3⟩ <;> rcases hd with ⟨e1, e2, e3⟩ | ⟨e1, e2, e3⟩
  · have t1 := mul_nonneg s1 e1.le
    have t2 := mul_nonneg s2 e2.le
    have t3 := mul_nonneg s3 e3.le
    have u1 : n1 * d1 = 0 := by omega
    have u2 : n2 * d2 = 0 := by omega
    have u3 : n3 * d3 = 0 := by omega
    rcases mul_eq_zero.mp u1 with h1 | h1 <;> rcases mul_eq_zero.mp u2 with h2 | h2 <;>
      rcases mul_eq_zero.mp u3 with h3 | h3 <;> omega
  · have t1 := mul_nonpos_of_nonneg_of_nonpos s1 e1.le
    have t2 := mul_nonpos_of_nonneg_of_nonpos s2 e2.le
    have t3 := mul_nonpos_of_nonneg_of_nonpos s3 e3.le
    have u1 : n1 * d1 = 0 := by omega
    have u2 : n2 * d2 = 0 := by omega
    have u3 : n3 * d3 = 0 := by omega
    rcases mul_eq_zero.mp u1 with h1 | h1 <;> rcases mul_eq_zero.mp u2 with h2 | h2 <;>
      rcases mul_eq_zero.mp u3 with h3 | h3 <;> omega
  · have t1 := mul_nonpos_of_nonpos_of_nonneg s1 e1.le
    have t2 := mul_nonpos_of_nonpos_of_nonneg s2 e2.le
    have t3 := mul_nonpos_of_nonpos_of_nonneg s3 e3.le
    have u1 : n1 * d1 = 0 := by omega
    have u2 : n2 * d2 = 0 := by omega
    have u3 : n3 * d3 = 0 := by omega
    rcases mul_eq_zero.mp u1 with h1 | h1 <;> rcases mul_eq_zero.mp u2 with h2 | h2 <;>
      rcases mul_eq_zero.mp u3 with h3 | h3 <;> omega
  · have t1 := mul_nonneg_of_nonpos_of_nonpos s1 e1.le
    have t2 := mul_nonneg_of_nonpos_of_nonpos s2 e2.le
    have t3 := mul_nonneg_of_nonpos_of_nonpos s3 e3.le
    have u1 : n1 * d1 = 0 := by omega
    have u2 : n2 * d2 = 0 := by omega
    have u3 : n3 * d3 = 0 := by omega
    rcases mul_eq_zero.mp u1 with h1 | h1 <;> rcases mul_eq_zero.mp u2 with h2 | h2 <;>
      rcases mul_eq_zero.mp u3 with h3 | h3 <;> omega

/-- C6. For every triangle with integer vertices `p1`, `p2`, `p3`, each of the
three vertices tests as inside under `IsPointInsideTriangle`.  The area
arithmetic is exact in the embedding; the statement also covers degenerate
triangles. -/
theorem IsPointInsideTriangle_vertices (p1 p2 p3 : point_2d) :
    IsPointInsideTriangle p1 p1 p2 p3 = true ∧ IsPointInsideTriangle p2 p1 p2 p3 = true ∧
      IsPointInsideTriangle p3 p1 p2 p3 = true := by
  have z1 : shoelace p1 p1 p3 = 0 := by unfold shoelace; ring
  have z2 : shoelace p1 p2 p1 = 0 := by unfold shoelace; ring
  have z3 : shoelace p2 p2 p3 = 0 := by unfold shoelace; ring
  have z4 : shoelace p1 p2 p2 = 0 := by unfold shoelace; ring
  have z5 : shoelace p3 p2 p3 = 0 := by unfold shoelace; ring
  have z6 : shoelace p1 p3 p3 = 0 := by unfold shoelace; ring
  refine ⟨?_, ?_, ?_⟩ <;> rw [IsPointInsideTriangle_iff] <;> simp [z1, z2, z3, z4, z5, z6]

/-- C8. For a non-degenerate triangle with integer vertices (its area is not
zero) and an integer point `p` outside the axis-aligned bounding box of the
three vertices, `IsPointInsideTriangle` returns false.  The area arithmetic is
exact in the embedding. -/
theorem IsPointInsideTriangle_outside_box (p p1 p2 p3 : point_2d)
    (hnd : IsPointInsideTriangle_area p1 p2 p3 ≠ 0)
    (hout : p.x < min (min p1.x p2.x) p3.x ∨ max (max p1.x p2.x) p3.x < p.x ∨
      p.y < min (min p1.y p2.y) p3.y ∨ max (max p1.y p2.y) p3.y < p.y) :
    IsPointInsideTriangle p p1 p2 p3 = false := by
  by_contra hne
  have hin : IsPointInsideTriangle p p1 p2 p3 = true := by
    cases h : IsPointInsideTriangle p p1 p2 p3
    · exact absurd h hne
    · rfl
  have hsign := shoelace_same_sign p p1 p2 p3 hin
  have hN : shoelace p1 p2 p3 ≠ 0 := by
    intro h0
    apply hnd
    rw [IsPointInsideTriangle_area_eq, h0]; simp
  have hsplit := shoelace_split p p1 p2 p3
  have hzero : shoelace p p2 p3 = 0 ∧ shoelace p1 p p3 = 0 ∧ shoelace p1 p2 p = 0 := by
    simp only [lt_min_iff, max_lt_iff] at hout
    rcases hout with h | h | h | h
    · exact weights_zero _ _ _ _ _ _ hsign (Or.inr ⟨by omega, by omega, by omega⟩)
        (shoelace_bary_x p p1 p2 p3)
    · exact weights_zero _ _ _ _ _ _ hsign (Or.inl ⟨by omega, by omega, by omega⟩)
        (shoelace_bary_x p p1 p2 p3)
    · exact weights_zero _ _ _ _ _ _ hsign (Or.inr ⟨by omega, by omega, by omega⟩)
        (shoelace_bary_y p p1 p2 p3)
    · exact weights_zero _ _ _ _ _ _ hsign (Or.inl ⟨by omega, by omega, by omega⟩)
        (shoelace_bary_y p p1 p2 p3)
  apply hN
  rw [hsplit]; omega


theorem midpoint_ofPoints (p1 p2 p3 : point_2d) (f e : Nat) :
    (triangle.ofPoints p1 p2 p3 f e).midpoint =
      ⟨Int.tdiv (p1.x + p2.x + p3.x) 3, Int.tdiv (p1.y + p2.y + p3.y) 3⟩ := by
  unfold triangle.midpoint triangle.ofPoints toVecF
  have hx := castInt_div_natCast (p1.x + p2.x + p3.x) 3
  have hy := castInt_div_natCast (p1.y + p2.y + p3.y) 3
  push_cast at hx hy
  simp only [hx, hy]

/-- C7, counterexample.  The triangle `(0,0)`, `(1,2)`, `(2,3)` has area `1/2`,
its `midpoint()` is `((int)(3/3.0), (int)(5/3.0)) = (1, 1)`, and
`IsPointInsideTriangle` returns false there: the truncated centroid of a thin
triangle can fall outside it. -/
theorem midpoint_counterexample :
    (triangle.ofPoints ⟨0, 0⟩ ⟨1, 2⟩ ⟨2, 3⟩ FG_BLACK FG_WHITE).getArea ≠ 0 ∧
      IsPointInsideTriangle (triangle.ofPoints ⟨0, 0⟩ ⟨1, 2⟩ ⟨2, 3⟩ FG_BLACK FG_WHITE).midpoint
        (toPoint (triangle.ofPoints ⟨0, 0⟩ ⟨1, 2⟩ ⟨2, 3⟩ FG_BLACK FG_WHITE).p0)
        (toPoint (triangle.ofPoints ⟨0, 0⟩ ⟨1, 2⟩ ⟨2, 3⟩ FG_BLACK FG_WHITE).p1)
        (toPoint (triangle.ofPoints ⟨0, 0⟩ ⟨1, 2⟩ ⟨2, 3⟩ FG_BLACK FG_WHITE).p2) = false := by
  constructor
  · norm_num [triangle.getArea, triangle.ofPoints, toVecF]
  · rw [midpoint_ofPoints]
    simp only [triangle.ofPoints, toPoint_toVecF]
    rw [← Bool.not_eq_true, IsPointInsideTriangle_iff]
    decide

/-- C7, amended.  For a triangle with integer vertices whose coordinate sums
`x1 + x2 + x3` and `y1 + y2 + y3` are both divisible by 3, so that `midpoint()`
is the exact centroid, the midpoint tests as inside.  The statement also covers
degenerate triangles. -/
theorem midpoint_inside_of_divisible (p1 p2 p3 : point_2d) (fill edge : Nat)
    (hx : 3 ∣ p1.x + p2.x + p3.x) (hy : 3 ∣ p1.y + p2.y + p3.y) :
    IsPointInsideTriangle (triangle.ofPoints p1 p2 p3 fill edge).midpoint
      (toPoint (triangle.ofPoints p1 p2 p3 fill edge).p0)
      (toPoint (triangle.ofPoints p1 p2 p3 fill edge).p1)
      (toPoint (triangle.ofPoints p1 p2 p3 fill edge).p2) = true := by
  rw [midpoint_ofPoints]
  simp only [triangle.ofPoints, toPoint_toVecF]
  obtain ⟨k, hk⟩ := hx
  obtain ⟨l, hl⟩ := hy
  have ek : Int.tdiv (p1.x + p2.x + p3.x) 3 = k := by
    rw [hk, Int.tdiv_eq_ediv_of_dvd (Dvd.intro _ rfl)]; omega
  have el : Int.tdiv (p1.y + p2.y + p3.y) 3 = l := by
    rw [hl, Int.tdiv_eq_ediv_of_dvd (Dvd.intro _ rfl)]; omega
  rw [ek, el, IsPointInsideTriangle_iff]
  have h1 : shoelace p1 p2 p3 = 3 * shoelace ⟨k, l⟩ p2 p3 := by
    unfold shoelace; simp only
    linear_combination (p2.y - p3.y) * hk + (p3.x - p2.x) * hl
  have h2 : shoelace p1 p2 p3 = 3 * shoelace p1 ⟨k, l⟩ p3 := by
    unfold shoelace; simp only
    linear_combination (p3.y - p1.y) * hk + (p1.x - p3.x) * hl
  have h3 : shoelace p1 p2 p3 = 3 * shoelace p1 p2 ⟨k, l⟩ := by
    unfold shoelace; simp only
    linear_combination (p1.y - p2.y) * hk + (p2.x - p1.x) * hl
  have a0 := abs_mul 3 (shoelace ⟨k, l⟩ p2 p3)
  rw [← h1] at a0
  have e2 : shoelace p1 ⟨k, l⟩ p3 = shoelace ⟨k, l⟩ p2 p3 := by omega
  have e3 : shoelace p1 p2 ⟨k, l⟩ = shoelace ⟨k, l⟩ p2 p3 := by omega
  rw [e2, e3, a0]
  norm_num; ring


end Triangle

section Fill

theorem mem_forRange (lo hi v : Int) : v ∈ forRange lo hi ↔ lo ≤ v ∧ v < hi := by
  unfold forRange
  simp only [List.mem_map, List.mem_range]
  constructor
  · rintro ⟨k, hk, rfl⟩
    have := Int.lt_toNat.mp hk
    omega
  · rintro ⟨h1, h2⟩
    have h3 : ((v - lo).toNat : Int) = v - lo := Int.toNat_of_nonneg (by omega)
    refine ⟨(v - lo).toNat, ?_, by omega⟩
    apply Int.lt_toNat.mpr
    omega

theorem FillTriangle_cell_eq (t : triangle) (pt : Nat) (g : ConsoleGraphics) (p : point_2d) :
    FillTriangle_cell t pt p.y g p.x =
      if t.paintable g p then Pixelate g p t.fillColor pt else g := by
  unfold FillTriangle_cell triangle.paintable InGrid cellIndex
  by_cases h1 : p.x ≥ 0 ∧ p.x < g.m_screenWidth ∧ p.y ≥ 0 ∧ p.y < g.m_screenHeight
  · by_cases h2 : IsPointInsideTriangle p (toPoint t.p0) (toPoint t.p1) (toPoint t.p2) = true ∧
        ¬ ((g.m_bufScreenData (p.y * g.m_screenWidth + p.x)).Attributes = t.edgeColor)
    · rw [if_pos h1, if_pos h2, if_pos ⟨h1, h2.1, h2.2⟩]
    · rw [if_pos h1, if_neg h2, if_neg (fun h => h2 ⟨h.2.1, h.2.2⟩)]
  · rw [if_neg h1, if_neg (fun h => h1 h.1)]

theorem FillTriangle_cell_width (t : triangle) (pt : Nat) (g : ConsoleGraphics) (x y : Int) :
    (FillTriangle_cell t pt y g x).m_screenWidth = g.m_screenWidth := by
  unfold FillTriangle_cell
  split_ifs <;> first | rfl | exact Pixelate_width _ _ _ _

theorem FillTriangle_cell_height (t : triangle) (pt : Nat) (g : ConsoleGraphics) (x y : Int) :
    (FillTriangle_cell t pt y g x).m_screenHeight = g.m_screenHeight := by
  unfold FillTriangle_cell
  split_ifs <;> first | rfl | exact Pixelate_height _ _ _ _

theorem foldl_FillTriangle_cell (t : triangle) (pt : Nat) (l : List point_2d)
    (g : ConsoleGraphics) :
    (l.foldl (fun g p => FillTriangle_cell t pt p.y g p.x) g).m_screenWidth = g.m_screenWidth ∧
    (l.foldl (fun g p => FillTriangle_cell t pt p.y g p.x) g).m_screenHeight
      = g.m_screenHeight ∧
    ∀ i : Int, (l.foldl (fun g p => FillTriangle_cell t pt p.y g p.x) g).m_bufScreenData i =
      if ∃ p ∈ l, t.paintable g p ∧ i = cellIndex g p then
        { UnicodeChar := pt, Attributes := t.fillColor }
      else g.m_bufScreenData i := by
  induction l generalizing g with
  | nil => simp
  | cons p l ih =>
    obtain ⟨ihw, ihh, ihb⟩ := ih (FillTriangle_cell t pt p.y g p.x)
    have hw := FillTriangle_cell_width t pt g p.x p.y
    have hh := FillTriangle_cell_height t pt g p.x p.y
    rw [List.foldl_cons]
    refine ⟨ihw.trans hw, ihh.trans hh, ?_⟩
    intro i
    rw [ihb i]
    -- how the first step changes the cells that later steps read
    have hread : ∀ q : point_2d, InGrid g q → q ≠ p →
        (FillTriangle_cell t pt p.y g p.x).m_bufScreenData (cellIndex g q)
          = g.m_bufScreenData (cellIndex g q) := by
      intro q hq hne
      rw [FillTriangle_cell_eq]
      split
      · rename_i hp
        rw [Pixelate_buf, if_neg]
        rintro ⟨hpg, hidx⟩
        exact hne (cellIndex_inj g q p hq hpg hidx)
      · rfl
    have hpaint : ∀ q : point_2d, q ≠ p →
        (t.paintable (FillTriangle_cell t pt p.y g p.x) q ↔ t.paintable g q) := by
      intro q hne
      unfold triangle.paintable
      rw [InGrid_congr hw hh, cellIndex_congr hw]
      constructor
      · rintro ⟨a, b, c⟩
        exact ⟨a, b, by rwa [hread q a hne] at c⟩
      · rintro ⟨a, b, c⟩
        exact ⟨a, b, by rwa [hread q a hne]⟩
    simp only [cellIndex_congr hw]
    by_cases hp : t.paintable g p
    · have hstep : FillTriangle_cell t pt p.y g p.x = Pixelate g p t.fillColor pt := by
        rw [FillTriangle_cell_eq, if_pos hp]
      by_cases hex : ∃ q ∈ l, t.paintable (FillTriangle_cell t pt p.y g p.x) q ∧
          i = cellIndex g q
      · rw [if_pos hex, if_pos]
        obtain ⟨q, hq, hq1, hq2⟩ := hex
        by_cases hqp : q = p
        · exact ⟨p, List.mem_cons_self _ _, hp, hqp ▸ hq2⟩
        · exact ⟨q, List.mem_cons_of_mem _ hq, (hpaint q hqp).mp hq1, hq2⟩
      · rw [if_neg hex, hstep, Pixelate_buf]
        by_cases hi : i = cellIndex g p
        · rw [if_pos ⟨hp.1, hi⟩, if_pos ⟨p, List.mem_cons_self _ _, hp, hi⟩]
        · rw [if_neg (fun h => hi h.2), if_neg]
          rintro ⟨q, hq, hq1, hq2⟩
          rcases List.mem_cons.mp hq with rfl | hq
          · exact hi hq2
          · by_cases hqp : q = p
            · exact hi (hqp ▸ hq2)
            · exact hex ⟨q, hq, (hpaint q hqp).mpr hq1, hq2⟩
    · have hstep : FillTriangle_cell t pt p.y g p.x = g := by
        rw [FillTriangle_cell_eq, if_neg hp]
      rw [hstep]
      by_cases hex : ∃ q ∈ l, t.paintable g q ∧ i = cellIndex g q
      · obtain ⟨q, hq, hq1, hq2⟩ := hex
        rw [if_pos ⟨q, hq, hq1, hq2⟩, if_pos ⟨q, List.mem_cons_of_mem _ hq, hq1, hq2⟩]
      · rw [if_neg hex, if_neg]
        rintro ⟨q, hq, hq1, hq2⟩
        rcases List.mem_cons.mp hq with rfl | hq
        · exact hp hq1
        · exact hex ⟨q, hq, hq1, hq2⟩

theorem foldl_rows_cols {σ : Type} (f : Int → σ → Int → σ) (ys xs : List Int) (s : σ) :
    ys.foldl (fun s y => xs.foldl (f y) s) s =
      (ys.flatMap (fun y => xs.map (fun x => (⟨x, y⟩ : point_2d)))).foldl
        (fun s p => f p.y s p.x) s := by
  induction ys generalizing s with
  | nil => rfl
  | cons y ys ih =>
    rw [List.foldl_cons, ih, List.flatMap_cons, List.foldl_append, List.foldl_map]

theorem mem_rows_cols (ys xs : List Int) (p : point_2d) :
    p ∈ ys.flatMap (fun y => xs.map (fun x => (⟨x, y⟩ : point_2d))) ↔ p.x ∈ xs ∧ p.y ∈ ys := by
  simp only [List.mem_flatMap, List.mem_map]
  constructor
  · rintro ⟨y, hy, x, hx, rfl⟩
    exact ⟨hx, hy⟩
  · rintro ⟨hx, hy⟩
    exact ⟨p.y, hy, p.x, hx, rfl⟩


end Fill

/-- Witness of C7 (amended): the triangle `(0,0)`, `(3,0)`, `(0,3)`, whose
midpoint is `(1, 1)`. -/
theorem midpoint_inside_of_divisible_witness :
    IsPointInsideTriangle (triangle.ofPoints ⟨0, 0⟩ ⟨3, 0⟩ ⟨0, 3⟩ FG_BLACK FG_WHITE).midpoint
      (toPoint (triangle.ofPoints ⟨0, 0⟩ ⟨3, 0⟩ ⟨0, 3⟩ FG_BLACK FG_WHITE).p0)
      (toPoint (triangle.ofPoints ⟨0, 0⟩ ⟨3, 0⟩ ⟨0, 3⟩ FG_BLACK FG_WHITE).p1)
      (toPoint (triangle.ofPoints ⟨0, 0⟩ ⟨3, 0⟩ ⟨0, 3⟩ FG_BLACK FG_WHITE).p2) = true :=
  midpoint_inside_of_divisible ⟨0, 0⟩ ⟨3, 0⟩ ⟨0, 3⟩ FG_BLACK FG_WHITE (by decide) (by decide)

/-- Witness of C8: the triangle `(0,0)`, `(4,0)`, `(0,4)` and the point `(5, 1)`
to the right of its bounding box. -/
theorem IsPointInsideTriangle_outside_box_witness :
    IsPointInsideTriangle ⟨5, 1⟩ ⟨0, 0⟩ ⟨4, 0⟩ ⟨0, 4⟩ = false :=
  IsPointInsideTriangle_outside_box ⟨5, 1⟩ ⟨0, 0⟩ ⟨4, 0⟩ ⟨0, 4⟩
    (by rw [IsPointInsideTriangle_area_eq]; norm_num [shoelace])
    (Or.inr (Or.inl (by decide)))

/-- C5. `FillTriangle` on a triangle object.  The call keeps the grid
dimensions.  A cell of the grid that lies in the bounding box of the truncated
vertices, passes `IsPointInsideTriangle` against the truncated vertices and
whose attribute before the call differs from `t.edgeColor` becomes
`(pixelType, t.fillColor)`.  The cell at every other offset of the buffer, in
particular every cell outside the bounding box, is unchanged. -/
theorem FillTriangle_spec (g : ConsoleGraphics) (t : triangle) (pixelType : Nat) :
    (FillTriangle g t pixelType).m_screenWidth = g.m_screenWidth ∧
    (FillTriangle g t pixelType).m_screenHeight = g.m_screenHeight ∧
    (∀ p : point_2d, InGrid g p → t.inBoundingBox p →
      IsPointInsideTriangle p (toPoint t.p0) (toPoint t.p1) (toPoint t.p2) = true →
      (g.m_bufScreenData (cellIndex g p)).Attributes ≠ t.edgeColor →
      (FillTriangle g t pixelType).m_bufScreenData (cellIndex g p) =
        { UnicodeChar := pixelType, Attributes := t.fillColor }) ∧
    (∀ i : Int,
      (¬ ∃ p : point_2d, InGrid g p ∧ t.inBoundingBox p ∧
        IsPointInsideTriangle p (toPoint t.p0) (toPoint t.p1) (toPoint t.p2) = true ∧
        (g.m_bufScreenData (cellIndex g p)).Attributes ≠ t.edgeColor ∧ i = cellIndex g p) →
      (FillTriangle g t pixelType).m_bufScreenData i = g.m_bufScreenData i) := by
  unfold FillTriangle
  simp only
  rw [foldl_rows_cols]
  obtain ⟨hw, hh, hb⟩ := foldl_FillTriangle_cell t pixelType
    ((forRange (min (min (castInt t.p0.y) (castInt t.p1.y)) (castInt t.p2.y))
      (max (max (castInt t.p0.y) (castInt t.p1.y)) (castInt t.p2.y) + 1)).flatMap
      (fun y => (forRange (min (min (castInt t.p0.x) (castInt t.p1.x)) (castInt t.p2.x))
        (max (max (castInt t.p0.x) (castInt t.p1.x)) (castInt t.p2.x) + 1)).map
        (fun x => (⟨x, y⟩ : point_2d)))) g
  have hmem : ∀ p : point_2d,
      p ∈ (forRange (min (min (castInt t.p0.y) (castInt t.p1.y)) (castInt t.p2.y))
        (max (max (castInt t.p0.y) (castInt t.p1.y)) (castInt t.p2.y) + 1)).flatMap
        (fun y => (forRange (min (min (castInt t.p0.x) (castInt t.p1.x)) (castInt t.p2.x))
          (max (max (castInt t.p0.x) (castInt t.p1.x)) (castInt t.p2.x) + 1)).map
          (fun x => (⟨x, y⟩ : point_2d))) ↔ t.inBoundingBox p := by
    intro p
    rw [mem_rows_cols, mem_forRange, mem_forRange]
    unfold triangle.inBoundingBox
    constructor
    · rintro ⟨⟨a, b⟩, c, d⟩
      exact ⟨a, by omega, c, by omega⟩
    · rintro ⟨a, b, c, d⟩
      exact ⟨⟨a, by omega⟩, c, by omega⟩
  refine ⟨hw, hh, ?_, ?_⟩
  · intro p hg hbox hin hattr
    rw [hb, if_pos ⟨p, (hmem p).mpr hbox, ⟨hg, hin, hattr⟩, rfl⟩]
  · intro i hi
    rw [hb, if_neg]
    rintro ⟨p, hp, ⟨hg, hin, hattr⟩, hpi⟩
    exact hi ⟨p, hg, (hmem p).mp hp, hin, hattr, hpi⟩

/-- Witness of C5 on the cleared 10 by 10 grid: the triangle `(0,0)`, `(4,0)`,
`(0,4)` with fill colour `FG_RED` and edge colour `FG_WHITE` paints the cell
`(1, 1)`. -/
theorem FillTriangle_spec_witness :
    (FillTriangle (zeroedScreen 10 10)
        (triangle.ofPoints ⟨0, 0⟩ ⟨4, 0⟩ ⟨0, 4⟩ FG_RED FG_WHITE) PIXEL_SOLID).m_bufScreenData
        (cellIndex (zeroedScreen 10 10) ⟨1, 1⟩) =
      { UnicodeChar := PIXEL_SOLID, Attributes := FG_RED } :=
  (FillTriangle_spec (zeroedScreen 10 10)
    (triangle.ofPoints ⟨0, 0⟩ ⟨4, 0⟩ ⟨0, 4⟩ FG_RED FG_WHITE) PIXEL_SOLID).2.2.1 ⟨1, 1⟩
    (by decide)
    (by
      have e0 : castInt 0 = 0 := by simpa using castInt_intCast 0
      have e4 : castInt 4 = 4 := by simpa using castInt_intCast 4
      simp [triangle.inBoundingBox, triangle.ofPoints, toVecF, e0, e4])
    (by
      simp only [triangle.ofPoints, toPoint_toVecF]
      rw [IsPointInsideTriangle_iff]; decide)
    (by decide)

section Circle

theorem DrawLine_loopX_cells_fuel (dx dy D E L : Int) (n m : Nat) (x y px : Int)
    (hn : L - x ≤ n) (hm : L - x ≤ m) :
    DrawLine_loopX_cells dx dy D E L n x y px = DrawLine_loopX_cells dx dy D E L m x y px := by
  induction n generalizing m x y px with
  | zero =>
    cases m with
    | zero => rfl
    | succ m =>
      have hx : ¬ x < L := by push_cast at hn; omega
      simp [DrawLine_loopX_cells, hx]
  | succ n ih =>
    cases m with
    | zero =>
      have hx : ¬ x < L := by push_cast at hm; omega
      simp [DrawLine_loopX_cells, hx]
    | succ m =>
      unfold DrawLine_loopX_cells
      by_cases hx : x < L
      · have e1 := ih m (x + 1) y (px + 2 * E) (by push_cast at hn; omega)
          (by push_cast at hm; omega)
        have e2 := ih m (x + 1)
          (if (dx < 0 ∧ dy < 0) ∨ (dx > 0 ∧ dy > 0) then y + 1 else y - 1) (px + 2 * (E - D))
          (by push_cast at hn; omega) (by push_cast at hm; omega)
        simp only [hx, if_true, e1, e2]
      · simp only [hx, if_false]

theorem DrawLine_loopY_cells_fuel (dx dy D E L : Int) (n m : Nat) (x y py : Int)
    (hn : L - y ≤ n) (hm : L - y ≤ m) :
    DrawLine_loopY_cells dx dy D E L n x y py = DrawLine_loopY_cells dx dy D E L m x y py := by
  induction n generalizing m x y py with
  | zero =>
    cases m with
    | zero => rfl
    | succ m =>
      have hy : ¬ y < L := by push_cast at hn; omega
      simp [DrawLine_loopY_cells, hy]
  | succ n ih =>
    cases m with
    | zero =>
      have hy : ¬ y < L := by push_cast at hm; omega
      simp [DrawLine_loopY_cells, hy]
    | succ m =>
      unfold DrawLine_loopY_cells
      by_cases hy : y < L
      · have e1 := ih m x (y + 1) (py + 2 * D) (by push_cast at hn; omega)
          (by push_cast at hm; omega)
        have e2 := ih m (if (dx < 0 ∧ dy < 0) ∨ (dx > 0 ∧ dy > 0) then x + 1 else x - 1)
          (y + 1) (py + 2 * (D - E))
          (by push_cast at hn; omega) (by push_cast at hm; omega)
        simp only [hy, if_true, e1, e2]
      · simp only [hy, if_false]

theorem DrawCircle_loop_cells_fuel (c : point_2d) (n m : Nat) (x y p : Int)
    (hn : y - x + 1 ≤ n) (hm : y - x + 1 ≤ m) :
    DrawCircle_loop_cells c n x y p = DrawCircle_loop_cells c m x y p := by
  induction n generalizing m x y p with
  | zero =>
    cases m with
    | zero => rfl
    | succ m =>
      have hx : ¬ y ≥ x := by push_cast at hn; omega
      simp [DrawCircle_loop_cells, hx]
  | succ n ih =>
    cases m with
    | zero =>
      have hx : ¬ y ≥ x := by push_cast at hm; omega
      simp [DrawCircle_loop_cells, hx]
    | succ m =>
      unfold DrawCircle_loop_cells
      by_cases hx : y ≥ x
      · have e1 := ih m (x + 1) y (p + (4 * x + 6)) (by push_cast at hn; omega)
          (by push_cast at hm; omega)
        have e2 := ih m (x + 1) (y - 1) (p + (4 * (x - y) + 10))
          (by push_cast at hn; omega) (by push_cast at hm; omega)
        simp only [hx, if_true, e1, e2]
      · simp only [hx, if_false]

/-- The fuel that `DrawLine` passes to its first loop is enough: more fuel gives
the same calls, because the loop leaves through its own test `x < large_x`. -/
theorem DrawLine_loopX_cells_fuel_enough (dx dy D E L : Int) (m : Nat) (x y px : Int)
    (hm : (L - x).toNat ≤ m) :
    DrawLine_loopX_cells dx dy D E L m x y px =
      DrawLine_loopX_cells dx dy D E L (L - x).toNat x y px :=
  DrawLine_loopX_cells_fuel dx dy D E L m (L - x).toNat x y px
    (le_trans (Int.self_le_toNat _) (by exact_mod_cast hm)) (Int.self_le_toNat _)

/-- The fuel that `DrawLine` passes to its second loop is enough. -/
theorem DrawLine_loopY_cells_fuel_enough (dx dy D E L : Int) (m : Nat) (x y py : Int)
    (hm : (L - y).toNat ≤ m) :
    DrawLine_loopY_cells dx dy D E L m x y py =
      DrawLine_loopY_cells dx dy D E L (L - y).toNat x y py :=
  DrawLine_loopY_cells_fuel dx dy D E L m (L - y).toNat x y py
    (le_trans (Int.self_le_toNat _) (by exact_mod_cast hm)) (Int.self_le_toNat _)

/-- The fuel that `DrawCircle` passes to its loop is enough: more fuel gives the
same calls, because the loop leaves through its own test `y >= x`. -/
theorem DrawCircle_loop_cells_fuel_enough (c : point_2d) (m : Nat) (x y p : Int)
    (hm : (y - x + 1).toNat ≤ m) :
    DrawCircle_loop_cells c m x y p = DrawCircle_loop_cells c (y - x + 1).toNat x y p :=
  DrawCircle_loop_cells_fuel c m (y - x + 1).toNat x y p
    (le_trans (Int.self_le_toNat _) (by exact_mod_cast hm)) (Int.self_le_toNat _)

theorem DrawCircle_loop_eq_plotAll (c : point_2d) (col t : Nat) (fuel : Nat)
    (x y p : Int) (g : ConsoleGraphics) :
    DrawCircle_loop c col t fuel x y p g =
      plotAll g (DrawCircle_loop_cells c fuel x y p) col t := by
  induction fuel generalizing x y p g with
  | zero => rfl
  | succ n ih =>
    unfold DrawCircle_loop DrawCircle_loop_cells
    by_cases h1 : y ≥ x
    · by_cases h2 : p < 0
      · simp only [h1, h2, if_true, plotAll_append, ih]; rfl
      · simp only [h1, h2, if_true, if_false, plotAll_append, ih]; rfl
    · simp only [h1, if_false, plotAll_nil]

/-- `DrawCircle` is the outline pass followed by the closing `DrawLine` call. -/
theorem DrawCircle_eq (g : ConsoleGraphics) (c : point_2d) (r : Int) (col t : Nat) :
    DrawCircle g c r col t =
      if r = 0 then g
      else DrawLine (plotAll g (DrawCircle_outline_cells c r) col t) ⟨c.x, c.y⟩
        ⟨c.x + r - 1, c.y⟩ FG_RED PIXEL_SOLID := by
  unfold DrawCircle DrawCircle_outline_cells
  by_cases h : r = 0
  · simp [h]
  · simp only [h, if_false, DrawCircle_loop_eq_plotAll]

/-- The eight mirrored points of one step are mapped onto themselves by the
rotation `(dx, dy) -> (-dy, dx)` about the centre. -/
theorem eight_points_rot (cx cy x y dx dy : Int) :
    ((cx + dx = cx - x ∧ cy + dy = cy - y) ∨ (cx + dx = cx - y ∧ cy + dy = cy - x) ∨
      (cx + dx = cx + y ∧ cy + dy = cy - x) ∨ (cx + dx = cx + x ∧ cy + dy = cy - y) ∨
      (cx + dx = cx - x ∧ cy + dy = cy + y) ∨ (cx + dx = cx - y ∧ cy + dy = cy + x) ∨
      (cx + dx = cx + y ∧ cy + dy = cy + x) ∨ (cx + dx = cx + x ∧ cy + dy = cy + y)) ↔
    ((cx - dy = cx - x ∧ cy + dx = cy - y) ∨ (cx - dy = cx - y ∧ cy + dx = cy - x) ∨
      (cx - dy = cx + y ∧ cy + dx = cy - x) ∨ (cx - dy = cx + x ∧ cy + dx = cy - y) ∨
      (cx - dy = cx - x ∧ cy + dx = cy + y) ∨ (cx - dy = cx - y ∧ cy + dx = cy + x) ∨
      (cx - dy = cx + y ∧ cy + dx = cy + x) ∨ (cx - dy = cx + x ∧ cy + dx = cy + y)) := by
  constructor
  · rintro (h | h | h | h | h | h | h | h) <;>
      first
      | exact Or.inl (by omega)
      | exact Or.inr (Or.inl (by omega))
      | exact Or.inr (Or.inr (Or.inl (by omega)))
      | exact Or.inr (Or.inr (Or.inr (Or.inl (by omega))))
      | exact Or.inr (Or.inr (Or.inr (Or.inr (Or.inl (by omega)))))
      | exact Or.inr (Or.inr (Or.inr (Or.inr (Or.inr (Or.inl (by omega))))))
      | exact Or.inr (Or.inr (Or.inr (Or.inr (Or.inr (Or.inr (Or.inl (by omega)))))))
      | exact Or.inr (Or.inr (Or.inr (Or.inr (Or.inr (Or.inr (Or.inr (by omega)))))))
  · rintro (h | h | h | h | h | h | h | h) <;>
      first
      | exact Or.inl (by omega)
      | exact Or.inr (Or.inl (by omega))
      | exact Or.inr (Or.inr (Or.inl (by omega)))
      | exact Or.inr (Or.inr (Or.inr (Or.inl (by omega))))
      | exact Or.inr (Or.inr (Or.inr (Or.inr (Or.inl (by omega)))))
      | exact Or.inr (Or.inr (Or.inr (Or.inr (Or.inr (Or.inl (by omega))))))
      | exact Or.inr (Or.inr (Or.inr (Or.inr (Or.inr (Or.inr (Or.inl (by omega)))))))
      | exact Or.inr (Or.inr (Or.inr (Or.inr (Or.inr (Or.inr (Or.inr (by omega)))))))

theorem DrawCircle_loop_cells_rot (c : point_2d) (fuel : Nat) (x y p : Int) (dx dy : Int) :
    (⟨c.x + dx, c.y + dy⟩ : point_2d) ∈ DrawCircle_loop_cells c fuel x y p ↔
      (⟨c.x - dy, c.y + dx⟩ : point_2d) ∈ DrawCircle_loop_cells c fuel x y p := by
  induction fuel generalizing x y p with
  | zero => simp [DrawCircle_loop_cells]
  | succ n ih =>
    unfold DrawCircle_loop_cells
    by_cases h1 : y ≥ x
    · simp only [h1, if_true, List.mem_append, List.mem_cons, vec_2d.mk.injEq,
        List.mem_nil_iff, or_false]
      rw [eight_points_rot c.x c.y x y dx dy]
      by_cases h2 : p < 0
      · simp only [h2, if_true, ih]
      · simp only [h2, if_false, ih]
    · simp [h1]

theorem DrawCircle_loop_cells_bound (c : point_2d) (r : Int) (fuel : Nat) (x y p : Int)
    (hx : 0 ≤ x) (hy : y ≤ r) :
    ∀ q ∈ DrawCircle_loop_cells c fuel x y p, |q.x - c.x| ≤ r ∧ |q.y - c.y| ≤ r := by
  induction fuel generalizing x y p with
  | zero => simp [DrawCircle_loop_cells]
  | succ n ih =>
    unfold DrawCircle_loop_cells
    by_cases h1 : y ≥ x
    · simp only [h1, if_true, List.mem_append, List.mem_cons, List.mem_nil_iff, or_false]
      intro q hq
      rcases hq with hq | hq
      · rcases hq with rfl | rfl | rfl | rfl | rfl | rfl | rfl | rfl <;>
          simp only [abs_le] <;> constructor <;> constructor <;> omega
      · split at hq
        · exact ih (x + 1) y _ (by omega) hy q hq
        · exact ih (x + 1) (y - 1) _ (by omega) (by omega) q hq
    · simp [h1]


theorem DrawCircle_cells_bound (c : point_2d) (r : Int) (hr : 0 < r) :
    ∀ q ∈ DrawCircle_cells c r, |q.x - c.x| ≤ r ∧ |q.y - c.y| ≤ r := by
  intro q hq
  unfold DrawCircle_cells at hq
  rw [if_neg (by omega), List.mem_append] at hq
  rcases hq with hq | hq
  · unfold DrawCircle_outline_cells at hq
    rw [if_neg (by omega)] at hq
    exact DrawCircle_loop_cells_bound c r _ 0 r _ (le_refl _) (le_refl _) q hq
  · obtain ⟨_, _, hbox⟩ := DrawLine_cells_spec ⟨c.x, c.y⟩ ⟨c.x + r - 1, c.y⟩
    obtain ⟨b1, b2, b3, b4⟩ := hbox q hq
    simp only [min_le_iff, le_max_iff, min_self, max_self] at b1 b2 b3 b4
    simp only [abs_le]
    constructor <;> constructor <;> omega


end Circle

/-- C10. For a radius `r > 0`, every point that `DrawCircle(c, r)` hands to
`Pixelate` (the outline pass and the closing `DrawLine` call) lies within
Chebyshev distance `r` of `c`, and every offset of the buffer whose cell the call
modifies is the offset of a grid cell within Chebyshev distance `r` of `c`. -/
theorem DrawCircle_within_radius (g : ConsoleGraphics) (c : point_2d) (r : Int)
    (color glyph : Nat) (hr : 0 < r) :
    (∀ q ∈ DrawCircle_cells c r, |q.x - c.x| ≤ r ∧ |q.y - c.y| ≤ r) ∧
    (∀ i : Int, (DrawCircle g c r color glyph).m_bufScreenData i ≠ g.m_bufScreenData i →
      ∃ q : point_2d, InGrid g q ∧ i = cellIndex g q ∧ |q.x - c.x| ≤ r ∧ |q.y - c.y| ≤ r) := by
  have hb := DrawCircle_cells_bound c r hr
  refine ⟨hb, ?_⟩
  intro i hi
  have hcells : DrawCircle_cells c r =
      DrawCircle_outline_cells c r ++ DrawLine_cells ⟨c.x, c.y⟩ ⟨c.x + r - 1, c.y⟩ := by
    unfold DrawCircle_cells; rw [if_neg (by omega)]
  rw [DrawCircle_eq, if_neg (by omega), DrawLine_eq_plotAll, plotAll_buf] at hi
  have hw := plotAll_width g (DrawCircle_outline_cells c r) color glyph
  have hh := plotAll_height g (DrawCircle_outline_cells c r) color glyph
  simp only [InGrid_congr hw hh, cellIndex_congr hw] at hi
  by_cases h1 : ∃ q ∈ DrawLine_cells ⟨c.x, c.y⟩ ⟨c.x + r - 1, c.y⟩, InGrid g q ∧ i = cellIndex g q
  · obtain ⟨q, hq, hq1, hq2⟩ := h1
    have := hb q (by rw [hcells]; exact List.mem_append_right _ hq)
    exact ⟨q, hq1, hq2, this.1, this.2⟩
  · rw [if_neg h1, plotAll_buf] at hi
    by_cases h2 : ∃ q ∈ DrawCircle_outline_cells c r, InGrid g q ∧ i = cellIndex g q
    · obtain ⟨q, hq, hq1, hq2⟩ := h2
      have := hb q (by rw [hcells]; exact List.mem_append_left _ hq)
      exact ⟨q, hq1, hq2, this.1, this.2⟩
    · rw [if_neg h2] at hi
      exact absurd rfl hi

/-- Witness of C10, the scenario of the claim: on the cleared 10 by 10 grid
`DrawCircle((5,5), 3)` plots `(2, 5)` and modifies no cell outside Chebyshev
distance 3 from `(5, 5)`. -/
theorem DrawCircle_within_radius_witness :
    (⟨2, 5⟩ : point_2d) ∈ DrawCircle_cells ⟨5, 5⟩ 3 ∧
    (∀ i : Int,
      (DrawCircle (zeroedScreen 10 10) ⟨5, 5⟩ 3 FG_WHITE PIXEL_SOLID).m_bufScreenData i ≠
        (zeroedScreen 10 10).m_bufScreenData i →
      ∃ q : point_2d, InGrid (zeroedScreen 10 10) q ∧ i = cellIndex (zeroedScreen 10 10) q ∧
        |q.x - 5| ≤ 3 ∧ |q.y - 5| ≤ 3) :=
  ⟨by decide,
    (DrawCircle_within_radius (zeroedScreen 10 10) ⟨5, 5⟩ 3 FG_WHITE PIXEL_SOLID (by decide)).2⟩

/-- C9, counterexample.  On the cleared 10 by 10 grid, which contains every
point that `DrawCircle((5,5), 2)` plots, the cell `c + (1, 0) = (6, 5)` is
painted (by the closing `DrawLine` call, in `FG_RED`) while its rotation
`c + (0, 1) = (5, 6)` is not plotted and keeps its old content. -/
theorem DrawCircle_rotation_counterexample :
    (∀ q ∈ DrawCircle_cells ⟨5, 5⟩ 2, InGrid (zeroedScreen 10 10) q) ∧
    (⟨5 + 1, 5 + 0⟩ : point_2d) ∈ DrawCircle_cells ⟨5, 5⟩ 2 ∧
    (⟨5 - 0, 5 + 1⟩ : point_2d) ∉ DrawCircle_cells ⟨5, 5⟩ 2 ∧
    (DrawCircle (zeroedScreen 10 10) ⟨5, 5⟩ 2 FG_WHITE PIXEL_SOLID).m_bufScreenData
        (cellIndex (zeroedScreen 10 10) ⟨5 + 1, 5 + 0⟩) =
      { UnicodeChar := PIXEL_SOLID, Attributes := FG_RED } ∧
    (DrawCircle (zeroedScreen 10 10) ⟨5, 5⟩ 2 FG_WHITE PIXEL_SOLID).m_bufScreenData
        (cellIndex (zeroedScreen 10 10) ⟨5 - 0, 5 + 1⟩) =
      (zeroedScreen 10 10).m_bufScreenData (cellIndex (zeroedScreen 10 10) ⟨5 - 0, 5 + 1⟩) := by
  refine ⟨by decide, by decide, by decide, by decide, by decide⟩

/-- C9, amended.  The cells plotted by the midpoint loop of `DrawCircle(c, r)`
(its eight mirrored `Pixelate` calls per step) are invariant under the rotation
by 90 degrees about `c`: `c + (dx, dy)` is plotted if and only if
`c + (-dy, dx)` is.  `DrawCircle` is that pass followed by the call
`DrawLine(c, (c.x + r - 1, c.y), FG_RED)`. -/
theorem DrawCircle_outline_symmetric (g : ConsoleGraphics) (c : point_2d) (r : Int)
    (color glyph : Nat) :
    (∀ dx dy : Int, (⟨c.x + dx, c.y + dy⟩ : point_2d) ∈ DrawCircle_outline_cells c r ↔
      (⟨c.x - dy, c.y + dx⟩ : point_2d) ∈ DrawCircle_outline_cells c r) ∧
    DrawCircle g c r color glyph =
      (if r = 0 then g
      else DrawLine (plotAll g (DrawCircle_outline_cells c r) color glyph) ⟨c.x, c.y⟩
        ⟨c.x + r - 1, c.y⟩ FG_RED PIXEL_SOLID) := by
  refine ⟨?_, DrawCircle_eq g c r color glyph⟩
  intro dx dy
  unfold DrawCircle_outline_cells
  by_cases h : r = 0
  · simp [h]
  · simp only [h, if_false]
    exact DrawCircle_loop_cells_rot c _ 0 r _ dx dy


section FillRect

theorem foldl_cols_rows {σ : Type} (f : σ → point_2d → σ) (xs ys : List Int) (s : σ) :
    xs.foldl (fun s x => ys.foldl (fun s y => f s ⟨x, y⟩) s) s =
      (xs.flatMap (fun x => ys.map (fun y => (⟨x, y⟩ : point_2d)))).foldl f s := by
  induction xs generalizing s with
  | nil => rfl
  | cons x xs ih =>
    rw [List.foldl_cons, ih, List.flatMap_cons, List.foldl_append, List.foldl_map]

theorem Fill_eq_plotAll (g : ConsoleGraphics) (p1 p2 : point_2d) (c t : Nat) :
    Fill g p1 p2 c t = plotAll g (Fill_cells p1 p2) c t := by
  unfold Fill Fill_cells plotAll
  exact foldl_cols_rows (fun g p => Pixelate g p c t) _ _ g

theorem mem_Fill_cells (p1 p2 p : point_2d) :
    p ∈ Fill_cells p1 p2 ↔ p1.x ≤ p.x ∧ p.x < p2.x ∧ p1.y ≤ p.y ∧ p.y < p2.y := by
  unfold Fill_cells
  simp only [List.mem_flatMap, List.mem_map, mem_forRange]
  constructor
  · rintro ⟨x, ⟨hx1, hx2⟩, y, ⟨hy1, hy2⟩, rfl⟩
    exact ⟨hx1, hx2, hy1, hy2⟩
  · rintro ⟨hx1, hx2, hy1, hy2⟩
    exact ⟨p.x, ⟨hx1, hx2⟩, p.y, ⟨hy1, hy2⟩, rfl⟩

/-- C12. `Fill` paints the half-open rectangle.  After `Fill(p1, p2, color,
glyph)` every cell of the grid with `p1.x <= x < p2.x` and `p1.y <= y < p2.y`
holds the glyph and the colour; the cell at every other offset, in particular
in column `p2.x` and in row `p2.y`, is unchanged; and when `p2.x <= p1.x` or
`p2.y <= p1.y` the whole state is unchanged. -/
theorem Fill_half_open (g : ConsoleGraphics) (p1 p2 : point_2d) (color glyph : Nat) :
    (∀ x y : Int, InGrid g ⟨x, y⟩ → p1.x ≤ x → x < p2.x → p1.y ≤ y → y < p2.y →
      (Fill g p1 p2 color glyph).m_bufScreenData (cellIndex g ⟨x, y⟩) =
        { UnicodeChar := glyph, Attributes := color }) ∧
    (∀ i : Int,
      (¬ ∃ x y : Int, InGrid g ⟨x, y⟩ ∧ p1.x ≤ x ∧ x < p2.x ∧ p1.y ≤ y ∧ y < p2.y ∧
        i = cellIndex g ⟨x, y⟩) →
      (Fill g p1 p2 color glyph).m_bufScreenData i = g.m_bufScreenData i) ∧
    (p2.x ≤ p1.x ∨ p2.y ≤ p1.y → Fill g p1 p2 color glyph = g) := by
  refine ⟨?_, ?_, ?_⟩
  · intro x y hg h1 h2 h3 h4
    rw [Fill_eq_plotAll, plotAll_buf, if_pos]
    exact ⟨⟨x, y⟩, (mem_Fill_cells p1 p2 ⟨x, y⟩).mpr ⟨h1, h2, h3, h4⟩, hg, rfl⟩
  · intro i hi
    rw [Fill_eq_plotAll, plotAll_buf, if_neg]
    rintro ⟨p, hp, hg, hpi⟩
    obtain ⟨h1, h2, h3, h4⟩ := (mem_Fill_cells p1 p2 p).mp hp
    exact hi ⟨p.x, p.y, hg, h1, h2, h3, h4, hpi⟩
  · intro h
    have hnil : Fill_cells p1 p2 = [] := by
      apply List.eq_nil_iff_forall_not_mem.mpr
      intro p hp
      obtain ⟨h1, h2, h3, h4⟩ := (mem_Fill_cells p1 p2 p).mp hp
      omega
    rw [Fill_eq_plotAll, hnil, plotAll_nil]

/-- Witness of C12 on the cleared 10 by 10 grid: `Fill((1,1), (3,4))` paints
the cell `(2, 3)`, and `Fill((3,1), (3,4))` changes nothing. -/
theorem Fill_half_open_witness :
    (Fill (zeroedScreen 10 10) ⟨1, 1⟩ ⟨3, 4⟩ FG_RED PIXEL_SOLID).m_bufScreenData
        (cellIndex (zeroedScreen 10 10) ⟨2, 3⟩) =
        { UnicodeChar := PIXEL_SOLID, Attributes := FG_RED } ∧
      Fill (zeroedScreen 10 10) ⟨3, 1⟩ ⟨3, 4⟩ FG_RED PIXEL_SOLID = zeroedScreen 10 10 :=
  ⟨(Fill_half_open (zeroedScreen 10 10) ⟨1, 1⟩ ⟨3, 4⟩ FG_RED PIXEL_SOLID).1 2 3
      (by decide) (by decide) (by decide) (by decide) (by decide),
    (Fill_half_open (zeroedScreen 10 10) ⟨3, 1⟩ ⟨3, 4⟩ FG_RED PIXEL_SOLID).2.2
      (Or.inl (by decide))⟩


end FillRect

section Text

theorem DrawString_first_chars (g : ConsoleGraphics) (x y : Int) (str : List Nat) (color : Nat)
    (n : Nat) :
    ((List.range n).foldl
        (fun (g : ConsoleGraphics) (i : Nat) =>
          { g with
            m_bufScreenData :=
              Function.update g.m_bufScreenData (y * g.m_screenWidth + x + (i : Int))
                { UnicodeChar := str.getD i 0, Attributes := color } })
        g).m_screenWidth = g.m_screenWidth ∧
    ((List.range n).foldl
        (fun (g : ConsoleGraphics) (i : Nat) =>
          { g with
            m_bufScreenData :=
              Function.update g.m_bufScreenData (y * g.m_screenWidth + x + (i : Int))
                { UnicodeChar := str.getD i 0, Attributes := color } })
        g).m_screenHeight = g.m_screenHeight ∧
    ∀ j : Int,
      ((List.range n).foldl
        (fun (g : ConsoleGraphics) (i : Nat) =>
          { g with
            m_bufScreenData :=
              Function.update g.m_bufScreenData (y * g.m_screenWidth + x + (i : Int))
                { UnicodeChar := str.getD i 0, Attributes := color } })
        g).m_bufScreenData j =
      if 0 ≤ j - (y * g.m_screenWidth + x) ∧ j - (y * g.m_screenWidth + x) < n then
        { UnicodeChar := str.getD (j - (y * g.m_screenWidth + x)).toNat 0, Attributes := color }
      else g.m_bufScreenData j := by
  induction n with
  | zero =>
    refine ⟨rfl, rfl, ?_⟩
    intro j
    rw [if_neg]; rfl
    simp only [Nat.cast_zero]; omega
  | succ n ih =>
    obtain ⟨hw, hh, hb⟩ := ih
    rw [List.range_succ, List.foldl_append]
    simp only [List.foldl_cons, List.foldl_nil]
    refine ⟨hw, hh, ?_⟩
    intro j
    rw [hw]
    by_cases hj : j = y * g.m_screenWidth + x + (n : Int)
    · subst hj
      rw [Function.update_same, if_pos (by push_cast; omega)]
      congr 2
      simp
    · rw [Function.update_noteq hj, hb j]
      by_cases h1 : 0 ≤ j - (y * g.m_screenWidth + x) ∧ j - (y * g.m_screenWidth + x) < n
      · rw [if_pos h1, if_pos (by push_cast; omega)]
      · rw [if_neg h1, if_neg (by push_cast; omega)]

/-- What `DrawString` leaves in the buffer: character `i` is at offset
`y * w + x + i`, whatever that offset is; no other offset changes. -/
theorem DrawString_buf (g : ConsoleGraphics) (x y : Int) (str : List Nat) (color : Nat)
    (j : Int) :
    (DrawString g x y str color).m_bufScreenData j =
      if 0 ≤ j - (y * g.m_screenWidth + x) ∧ j - (y * g.m_screenWidth + x) < str.length then
        { UnicodeChar := str.getD (j - (y * g.m_screenWidth + x)).toNat 0, Attributes := color }
      else g.m_bufScreenData j :=
  (DrawString_first_chars g x y str color str.length).2.2 j

/-- C13, the code at a failing input.  On the cleared 10 by 10 grid the start
`(8, 0)` is inside the grid and `DrawString(8, 0, "abcd")` leaves `c` at offset
10, which is the cell `(0, 1)` of the next row; `DrawString(8, 9, "abcd")`
leaves `c` at offset 100, one past the last cell of the buffer. -/
theorem DrawString_wraps :
    InGrid (zeroedScreen 10 10) ⟨8, 0⟩ ∧
    (DrawString (zeroedScreen 10 10) 8 0 [97, 98, 99, 100] FG_WHITE).m_bufScreenData
        (cellIndex (zeroedScreen 10 10) ⟨0, 1⟩) =
      { UnicodeChar := 99, Attributes := FG_WHITE } ∧
    (DrawString (zeroedScreen 10 10) 8 9 [97, 98, 99, 100] FG_WHITE).m_bufScreenData 100 =
      { UnicodeChar := 99, Attributes := FG_WHITE } := by
  refine ⟨by decide, by decide, by decide⟩

theorem foldl_Pixelate_colored (l : List point_2d) (tgt : point_2d → point_2d)
    (col : point_2d → Nat) (t : Nat) (hinj : Function.Injective tgt) (g : ConsoleGraphics) :
    (l.foldl (fun g q => Pixelate g (tgt q) (col q) t) g).m_screenWidth = g.m_screenWidth ∧
    (l.foldl (fun g q => Pixelate g (tgt q) (col q) t) g).m_screenHeight = g.m_screenHeight ∧
    (∀ q ∈ l, InGrid g (tgt q) →
      (l.foldl (fun g q => Pixelate g (tgt q) (col q) t) g).m_bufScreenData
        (cellIndex g (tgt q)) = { UnicodeChar := t, Attributes := col q }) ∧
    (∀ i : Int, (¬ ∃ q ∈ l, InGrid g (tgt q) ∧ i = cellIndex g (tgt q)) →
      (l.foldl (fun g q => Pixelate g (tgt q) (col q) t) g).m_bufScreenData i
        = g.m_bufScreenData i) := by
  induction l generalizing g with
  | nil => simp
  | cons a l ih =>
    obtain ⟨ihw, ihh, ihp, ihn⟩ := ih (Pixelate g (tgt a) (col a) t)
    have hw := Pixelate_width g (tgt a) (col a) t
    have hh := Pixelate_height g (tgt a) (col a) t
    simp only [InGrid_congr hw hh, cellIndex_congr hw] at ihp ihn
    rw [List.foldl_cons]
    refine ⟨ihw.trans hw, ihh.trans hh, ?_, ?_⟩
    · intro q hq hg
      by_cases hql : q ∈ l
      · exact ihp q hql hg
      · have hqa : q = a := by
          rcases List.mem_cons.mp hq with h | h
          · exact h
          · exact absurd h hql
        subst hqa
        rw [ihn, Pixelate_buf, if_pos ⟨hg, rfl⟩]
        rintro ⟨q', hq', hg', hidx⟩
        have : tgt q = tgt q' := cellIndex_inj g _ _ hg hg' hidx
        exact hql (hinj this ▸ hq')
    · intro i hi
      rw [ihn, Pixelate_buf, if_neg]
      · rintro ⟨hg, hidx⟩
        exact hi ⟨a, List.mem_cons_self _ _, hg, hidx⟩
      · rintro ⟨q, hq, hg, hidx⟩
        exact hi ⟨q, List.mem_cons_of_mem _ hq, hg, hidx⟩

/-- C14. `DrawSprite` blits every sprite cell.  With `(px, py)` the truncated
position, every grid cell `(px + x, py + y)` with `0 <= x < W` and `0 <= y < H`
holds the solid glyph and the attribute `sprite[y * W + x]` afterwards, whatever
it held before; the cell at every other offset is unchanged. -/
theorem DrawSprite_blit (g : ConsoleGraphics) (sprite : Sprite) :
    (∀ x y : Int, 0 ≤ x → x < sprite.nSpriteDimX → 0 ≤ y → y < sprite.nSpriteDimY →
      InGrid g ⟨castInt sprite.vPos.x + x, castInt sprite.vPos.y + y⟩ →
      (DrawSprite g sprite).m_bufScreenData
          (cellIndex g ⟨castInt sprite.vPos.x + x, castInt sprite.vPos.y + y⟩) =
        { UnicodeChar := PIXEL_SOLID,
          Attributes := sprite.spriteData (y * sprite.nSpriteDimX + x) }) ∧
    (∀ i : Int,
      (¬ ∃ x y : Int, 0 ≤ x ∧ x < sprite.nSpriteDimX ∧ 0 ≤ y ∧ y < sprite.nSpriteDimY ∧
        InGrid g ⟨castInt sprite.vPos.x + x, castInt sprite.vPos.y + y⟩ ∧
        i = cellIndex g ⟨castInt sprite.vPos.x + x, castInt sprite.vPos.y + y⟩) →
      (DrawSprite g sprite).m_bufScreenData i = g.m_bufScreenData i) := by
  have hinj : Function.Injective
      (fun q : point_2d => (⟨q.x + castInt sprite.vPos.x, q.y + castInt sprite.vPos.y⟩ :
        point_2d)) := by
    intro a b h
    simp only [vec_2d.mk.injEq] at h
    cases a; cases b
    simp only [vec_2d.mk.injEq] at h ⊢
    omega
  obtain ⟨_, _, hp, hn⟩ := foldl_Pixelate_colored
    ((forRange 0 sprite.nSpriteDimY).flatMap
      (fun y => (forRange 0 sprite.nSpriteDimX).map (fun x => (⟨x, y⟩ : point_2d))))
    (fun q => ⟨q.x + castInt sprite.vPos.x, q.y + castInt sprite.vPos.y⟩)
    (fun q => sprite.spriteData (q.y * sprite.nSpriteDimX + q.x)) PIXEL_SOLID hinj g
  have heq : DrawSprite g sprite =
      ((forRange 0 sprite.nSpriteDimY).flatMap
        (fun y => (forRange 0 sprite.nSpriteDimX).map (fun x => (⟨x, y⟩ : point_2d)))).foldl
        (fun g q => Pixelate g ⟨q.x + castInt sprite.vPos.x, q.y + castInt sprite.vPos.y⟩
          (sprite.spriteData (q.y * sprite.nSpriteDimX + q.x)) PIXEL_SOLID) g := by
    unfold DrawSprite
    exact foldl_rows_cols
      (fun y g x => Pixelate g ⟨x + castInt sprite.vPos.x, y + castInt sprite.vPos.y⟩
        (sprite.spriteData (y * sprite.nSpriteDimX + x)) PIXEL_SOLID) _ _ g
  rw [heq]
  constructor
  · intro x y hx0 hx1 hy0 hy1 hg
    have hmem : (⟨x, y⟩ : point_2d) ∈ (forRange 0 sprite.nSpriteDimY).flatMap
        (fun y => (forRange 0 sprite.nSpriteDimX).map (fun x => (⟨x, y⟩ : point_2d))) := by
      rw [mem_rows_cols, mem_forRange, mem_forRange]
      exact ⟨⟨hx0, hx1⟩, hy0, hy1⟩
    have e : (⟨castInt sprite.vPos.x + x, castInt sprite.vPos.y + y⟩ : point_2d) =
        ⟨x + castInt sprite.vPos.x, y + castInt sprite.vPos.y⟩ := by
      rw [add_comm x, add_comm y]
    rw [e] at hg ⊢
    exact hp ⟨x, y⟩ hmem hg
  · intro i hi
    apply hn
    rintro ⟨q, hq, hg, hidx⟩
    rw [mem_rows_cols, mem_forRange, mem_forRange] at hq
    have e : (⟨q.x + castInt sprite.vPos.x, q.y + castInt sprite.vPos.y⟩ : point_2d) =
        ⟨castInt sprite.vPos.x + q.x, castInt sprite.vPos.y + q.y⟩ := by
      rw [add_comm q.x, add_comm q.y]
    simp only [e] at hg hidx
    exact hi ⟨q.x, q.y, hq.1.1, hq.1.2, hq.2.1, hq.2.2, hg, hidx⟩


/-- Witness of C14: a 2 by 3 sprite at position `(1, 1)` on the cleared 5 by 5
grid; the sprite cell `(1, 2)` lands in the grid cell `(2, 3)`. -/
theorem DrawSprite_blit_witness :
    (DrawSprite (zeroedScreen 5 5)
        { spriteData := fun i => (100 + i).toNat, nSpriteDimX := 2, nSpriteDimY := 3,
          vPos := ⟨1, 1⟩ }).m_bufScreenData
        (cellIndex (zeroedScreen 5 5) ⟨castInt 1 + 1, castInt 1 + 2⟩) =
      { UnicodeChar := PIXEL_SOLID, Attributes := (100 + (2 * 2 + 1 : Int)).toNat } :=
  (DrawSprite_blit (zeroedScreen 5 5)
    { spriteData := fun i => (100 + i).toNat, nSpriteDimX := 2, nSpriteDimY := 3,
      vPos := ⟨1, 1⟩ }).1 1 2 (by decide) (by decide) (by decide) (by decide) (by decide)

end Text

section Disc

/-- In a row of the grid (`mod_dy = 0`, decision variable negative) the first
loop of `DrawLine` plots every cell up to `large_x`. -/
theorem mem_DrawLine_loopX_cells_flat (dx dy D L : Int) (n : Nat) (x y px : Int)
    (hn : x + n = L) (hpx : px < 0) (q : point_2d) :
    q ∈ DrawLine_loopX_cells dx dy D 0 L n x y px ↔ q.y = y ∧ x < q.x ∧ q.x ≤ L := by
  induction n generalizing x with
  | zero =>
    simp only [DrawLine_loopX_cells, List.not_mem_nil, false_iff]
    push_cast at hn
    omega
  | succ n ih =>
    have hx : x < L := by push_cast at hn; omega
    unfold DrawLine_loopX_cells
    simp only [hx, hpx, if_true, mul_zero, add_zero, List.mem_cons]
    rw [ih (x + 1) (by push_cast at hn; omega)]
    constructor
    · rintro (h | ⟨h1, h2, h3⟩)
      · subst h; exact ⟨rfl, by simp, by simpa using hx⟩
      · exact ⟨h1, by omega, h3⟩
    · rintro ⟨h1, h2, h3⟩
      by_cases hq : q.x = x + 1
      · left; cases q; simp_all
      · right; exact ⟨h1, by omega, h3⟩

/-- A horizontal `DrawLine` from `(a, y)` to `(b, y)` with `a <= b` plots exactly
the cells of row `y` between the two columns. -/
theorem mem_DrawLine_cells_horizontal (a b y : Int) (hab : a ≤ b) (q : point_2d) :
    q ∈ DrawLine_cells ⟨a, y⟩ ⟨b, y⟩ ↔ q.y = y ∧ a ≤ q.x ∧ q.x ≤ b := by
  unfold DrawLine_cells
  have h0 : |y - y| ≤ |b - a| := by simp
  have hge : b - a ≥ 0 := by omega
  dsimp only
  rw [if_pos h0, if_pos hge, if_pos hge, if_pos hge]
  simp only [sub_self, abs_zero, mul_zero, zero_sub, List.mem_cons]
  rcases eq_or_lt_of_le hab with h | h
  · subst h
    simp only [sub_self, Int.toNat_zero, DrawLine_loopX_cells, List.not_mem_nil, or_false]
    constructor
    · rintro rfl; exact ⟨rfl, le_refl _, le_refl _⟩
    · rintro ⟨h1, h2, h3⟩; cases q; simp_all; omega
  · rw [mem_DrawLine_loopX_cells_flat (b - a) 0 |b - a| b (b - a).toNat a y (-|b - a|)
      (by rw [Int.toNat_of_nonneg (by omega)]; ring)
      (by rw [abs_of_pos (by omega)]; omega)]
    constructor
    · rintro (h1 | ⟨h1, h2, h3⟩)
      · subst h1; exact ⟨rfl, le_refl _, hab⟩
      · exact ⟨h1, by omega, h3⟩
    · rintro ⟨h1, h2, h3⟩
      by_cases hq : q.x = a
      · left; cases q; simp_all
      · right; exact ⟨h1, by omega, h3⟩


theorem SymRow_nil (c : point_2d) (r dy : Int) : SymRow [] c r dy :=
  Or.inl (fun _ h => by simp at h)

theorem SymRow_append (T1 T2 : List point_2d) (c : point_2d) (r dy : Int)
    (h1 : SymRow T1 c r dy) (h2 : SymRow T2 c r dy) : SymRow (T1 ++ T2) c r dy := by
  unfold SymRow at *
  rcases h1 with e1 | ⟨k1, a1, b1, m1⟩ <;> rcases h2 with e2 | ⟨k2, a2, b2, m2⟩
  · left
    intro ex h
    rcases List.mem_append.mp h with h | h
    · exact e1 ex h
    · exact e2 ex h
  · right
    refine ⟨k2, a2, b2, fun ex => ?_⟩
    rw [List.mem_append, m2 ex]
    constructor
    · rintro (h | h)
      · exact absurd h (e1 ex)
      · exact h
    · exact Or.inr
  · right
    refine ⟨k1, a1, b1, fun ex => ?_⟩
    rw [List.mem_append, m1 ex]
    constructor
    · rintro (h | h)
      · exact h
      · exact absurd h (e2 ex)
    · exact Or.inl
  · right
    refine ⟨max k1 k2, le_max_of_le_left a1, max_le b1 b2, fun ex => ?_⟩
    rw [List.mem_append, m1 ex, m2 ex, le_max_iff]

theorem SymRow_line (c : point_2d) (w Y r dy : Int) (hw0 : 0 ≤ w) (hwr : w ≤ r) :
    SymRow (DrawLine_cells ⟨c.x - w, Y⟩ ⟨c.x + w, Y⟩) c r dy := by
  unfold SymRow
  by_cases hY : c.y + dy = Y
  · right
    refine ⟨w, hw0, hwr, fun ex => ?_⟩
    rw [mem_DrawLine_cells_horizontal _ _ _ (by omega), abs_le]
    simp only [hY, true_and]
    constructor
    · rintro ⟨h1, h2⟩; constructor <;> omega
    · rintro ⟨h1, h2⟩; constructor <;> omega
  · left
    intro ex h
    rw [mem_DrawLine_cells_horizontal _ _ _ (by omega)] at h
    exact hY h.1

theorem SymRow_FillCircle_loop (c : point_2d) (r dy : Int) (fuel : Nat) (x y p : Int)
    (hx : 0 ≤ x) (hy : y ≤ r) : SymRow (FillCircle_loop_cells c fuel x y p) c r dy := by
  induction fuel generalizing x y p with
  | zero => exact SymRow_nil c r dy
  | succ n ih =>
    unfold FillCircle_loop_cells
    by_cases h1 : y ≥ x
    · rw [if_pos h1]
      refine SymRow_append _ _ c r dy
        (SymRow_append _ _ c r dy (SymRow_line c x _ r dy hx (by omega))
          (SymRow_append _ _ c r dy (SymRow_line c y _ r dy (by omega) hy)
            (SymRow_append _ _ c r dy (SymRow_line c x _ r dy hx (by omega))
              (SymRow_line c y _ r dy (by omega) hy)))) ?_
      split
      · exact ih (x + 1) y _ (by omega) hy
      · exact ih (x + 1) (y - 1) _ (by omega) (by omega)
    · rw [if_neg h1]; exact SymRow_nil c r dy

/-- With the fuel of `FillCircle`, the loop started at `(x, y)` reaches the
centre column of every row at distance `x .. y` above and below the centre. -/
theorem FillCircle_loop_cells_cover (c : point_2d) (fuel : Nat) (x y p : Int)
    (hx : 0 ≤ x) (hfuel : y - x + 1 ≤ fuel) (e : Int) (he1 : x ≤ e) (he2 : e ≤ y) :
    (⟨c.x, c.y - e⟩ : point_2d) ∈ FillCircle_loop_cells c fuel x y p ∧
      (⟨c.x, c.y + e⟩ : point_2d) ∈ FillCircle_loop_cells c fuel x y p := by
  induction fuel generalizing x y p with
  | zero => push_cast at hfuel; omega
  | succ n ih =>
    have hyx : y ≥ x := by omega
    unfold FillCircle_loop_cells
    rw [if_pos hyx]
    simp only [List.mem_append, mem_DrawLine_cells_horizontal _ _ _
      (show c.x - x ≤ c.x + x by omega), mem_DrawLine_cells_horizontal _ _ _
      (show c.x - y ≤ c.x + y by omega)]
    by_cases hex : e = x
    · subst hex
      exact ⟨Or.inl (Or.inr (Or.inl ⟨rfl, by omega, by omega⟩)),
        Or.inl (Or.inr (Or.inr (Or.inr ⟨rfl, by omega, by omega⟩)))⟩
    · by_cases hey : e = y
      · subst hey
        exact ⟨Or.inl (Or.inl ⟨rfl, by omega, by omega⟩),
          Or.inl (Or.inr (Or.inr (Or.inl ⟨rfl, by omega, by omega⟩)))⟩
      · split
        · obtain ⟨a, b⟩ := ih (x + 1) y (p + (4 * x + 6)) (by omega)
            (by push_cast at hfuel; omega) (by omega) (by omega)
          exact ⟨Or.inr a, Or.inr b⟩
        · obtain ⟨a, b⟩ := ih (x + 1) (y - 1) (p + (4 * (x - y) + 10)) (by omega)
            (by push_cast at hfuel; omega) (by omega) (by omega)
          exact ⟨Or.inr a, Or.inr b⟩

theorem FillCircle_loop_cells_bound (c : point_2d) (r : Int) (fuel : Nat) (x y p : Int)
    (hx : 0 ≤ x) (hy : y ≤ r) :
    ∀ q ∈ FillCircle_loop_cells c fuel x y p, |q.x - c.x| ≤ r ∧ |q.y - c.y| ≤ r := by
  induction fuel generalizing x y p with
  | zero => simp [FillCircle_loop_cells]
  | succ n ih =>
    unfold FillCircle_loop_cells
    by_cases h1 : y ≥ x
    · rw [if_pos h1]
      intro q hq
      simp only [List.mem_append, mem_DrawLine_cells_horizontal _ _ _
        (show c.x - x ≤ c.x + x by omega), mem_DrawLine_cells_horizontal _ _ _
        (show c.x - y ≤ c.x + y by omega)] at hq
      rcases hq with (h | h | h | h) | h
      · simp only [abs_le]; constructor <;> constructor <;> omega
      · simp only [abs_le]; constructor <;> constructor <;> omega
      · simp only [abs_le]; constructor <;> constructor <;> omega
      · simp only [abs_le]; constructor <;> constructor <;> omega
      · split at h
        · exact ih (x + 1) y _ (by omega) hy q h
        · exact ih (x + 1) (y - 1) _ (by omega) (by omega) q h
    · simp [h1]

theorem FillCircle_loop_cells_fuel (c : point_2d) (n m : Nat) (x y p : Int)
    (hn : y - x + 1 ≤ n) (hm : y - x + 1 ≤ m) :
    FillCircle_loop_cells c n x y p = FillCircle_loop_cells c m x y p := by
  induction n generalizing m x y p with
  | zero =>
    cases m with
    | zero => rfl
    | succ m =>
      have hx : ¬ y ≥ x := by push_cast at hn; omega
      simp [FillCircle_loop_cells, hx]
  | succ n ih =>
    cases m with
    | zero =>
      have hx : ¬ y ≥ x := by push_cast at hm; omega
      simp [FillCircle_loop_cells, hx]
    | succ m =>
      unfold FillCircle_loop_cells
      by_cases hx : y ≥ x
      · have e1 := ih m (x + 1) y (p + (4 * x + 6)) (by push_cast at hn; omega)
          (by push_cast at hm; omega)
        have e2 := ih m (x + 1) (y - 1) (p + (4 * (x - y) + 10))
          (by push_cast at hn; omega) (by push_cast at hm; omega)
        simp only [hx, if_true, e1, e2]
      · simp only [hx, if_false]

/-- The fuel that `FillCircle` passes to its loop is enough: more fuel gives the
same calls, because the loop leaves through its own test `y >= x`. -/
theorem FillCircle_loop_cells_fuel_enough (c : point_2d) (m : Nat) (x y p : Int)
    (hm : (y - x + 1).toNat ≤ m) :
    FillCircle_loop_cells c m x y p = FillCircle_loop_cells c (y - x + 1).toNat x y p :=
  FillCircle_loop_cells_fuel c m (y - x + 1).toNat x y p
    (le_trans (Int.self_le_toNat _) (by exact_mod_cast hm)) (Int.self_le_toNat _)

theorem FillCircle_loop_eq_plotAll (c : point_2d) (fuel : Nat) (x y p : Int)
    (g : ConsoleGraphics) :
    FillCircle_loop c fuel x y p g =
      plotAll g (FillCircle_loop_cells c fuel x y p) FG_WHITE PIXEL_SOLID := by
  induction fuel generalizing x y p g with
  | zero => rfl
  | succ n ih =>
    unfold FillCircle_loop FillCircle_loop_cells
    by_cases h1 : y ≥ x
    · by_cases h2 : p < 0
      · simp only [h1, h2, if_true, plotAll_append, ih, DrawLine_eq_plotAll]
      · simp only [h1, h2, if_true, if_false, plotAll_append, ih, DrawLine_eq_plotAll]
    · simp only [h1, if_false, plotAll_nil]

theorem FillCircle_eq_plotAll (g : ConsoleGraphics) (c : point_2d) (r : Int) (col t : Nat) :
    FillCircle g c r col t = plotAll g (FillCircle_cells c r) FG_WHITE PIXEL_SOLID := by
  unfold FillCircle FillCircle_cells
  by_cases h : r = 0
  · simp [h, plotAll_nil]
  · simp only [h, if_false, FillCircle_loop_eq_plotAll]

/-- C11. `FillCircle` produces a filled disc with no holes.  For a radius
`r > 0` on a grid that contains every cell the call plots:
in every row `c.y + dy` with `|dy| <= r` the plotted cells are exactly the
columns `c.x - k .. c.x + k` for some `0 <= k <= r` (a non-empty interval
symmetric about `c.x`); no cell is plotted in a row with `|dy| > r`; every
plotted cell is a cell of the grid and holds the solid glyph in `FG_WHITE`
afterwards; and no other cell of the buffer changes. -/
theorem FillCircle_disc (g : ConsoleGraphics) (c : point_2d) (r : Int) (color glyph : Nat)
    (hr : 0 < r) (hgrid : ∀ q ∈ FillCircle_cells c r, InGrid g q) :
    (∀ dy : Int, |dy| ≤ r → ∃ k : Int, 0 ≤ k ∧ k ≤ r ∧
      ∀ x : Int, (⟨x, c.y + dy⟩ : point_2d) ∈ FillCircle_cells c r ↔
        c.x - k ≤ x ∧ x ≤ c.x + k) ∧
    (∀ q ∈ FillCircle_cells c r, |q.y - c.y| ≤ r) ∧
    (∀ q ∈ FillCircle_cells c r, InGrid g q ∧
      (FillCircle g c r color glyph).m_bufScreenData (cellIndex g q) =
        { UnicodeChar := PIXEL_SOLID, Attributes := FG_WHITE }) ∧
    (∀ i : Int, (∀ q ∈ FillCircle_cells c r, i ≠ cellIndex g q) →
      (FillCircle g c r color glyph).m_bufScreenData i = g.m_bufScreenData i) := by
  have hcells : FillCircle_cells c r =
      FillCircle_loop_cells c (r - 0 + 1).toNat 0 r (3 - 2 * r) := by
    unfold FillCircle_cells; rw [if_neg (by omega)]
  have hfuel : r - 0 + 1 ≤ ((r - 0 + 1).toNat : Int) := Int.self_le_toNat _
  have hbound := FillCircle_loop_cells_bound c r (r - 0 + 1).toNat 0 r (3 - 2 * r)
    (le_refl _) (le_refl _)
  rw [← hcells] at hbound
  refine ⟨?_, fun q hq => (hbound q hq).2, ?_, ?_⟩
  · intro dy hdy
    have hsym := SymRow_FillCircle_loop c r dy (r - 0 + 1).toNat 0 r (3 - 2 * r)
      (le_refl _) (le_refl _)
    rw [← hcells] at hsym
    have hcov := FillCircle_loop_cells_cover c (r - 0 + 1).toNat 0 r (3 - 2 * r)
      (le_refl _) hfuel |dy| (abs_nonneg _) hdy
    rw [← hcells] at hcov
    have hcentre : (⟨c.x + 0, c.y + dy⟩ : point_2d) ∈ FillCircle_cells c r := by
      rw [add_zero]
      rcases abs_cases dy with ⟨h, _⟩ | ⟨h, _⟩
      · rw [h] at hcov; exact hcov.2
      · rw [h] at hcov
        have := hcov.1
        rwa [sub_neg_eq_add] at this
    rcases hsym with hempty | ⟨k, hk0, hkr, hk⟩
    · exact absurd hcentre (hempty 0)
    · refine ⟨k, hk0, hkr, fun x => ?_⟩
      have := hk (x - c.x)
      rw [show c.x + (x - c.x) = x by ring, abs_le] at this
      rw [this]
      constructor
      · rintro ⟨h1, h2⟩; constructor <;> omega
      · rintro ⟨h1, h2⟩; constructor <;> omega
  · intro q hq
    have hin : InGrid g q := hgrid q hq
    refine ⟨hin, ?_⟩
    rw [FillCircle_eq_plotAll, plotAll_buf, if_pos ⟨q, hq, hin, rfl⟩]
  · intro i hi
    rw [FillCircle_eq_plotAll, plotAll_buf, if_neg]
    rintro ⟨q, hq, _, hqi⟩
    exact hi q hq hqi


/-- Witness of C11 on the cleared 10 by 10 grid: `FillCircle((5,5), 2)` in the
row `5 + 1`. -/
theorem FillCircle_disc_witness :
    ∃ k : Int, 0 ≤ k ∧ k ≤ 2 ∧
      ∀ x : Int, (⟨x, 5 + 1⟩ : point_2d) ∈ FillCircle_cells ⟨5, 5⟩ 2 ↔ 5 - k ≤ x ∧ x ≤ 5 + k :=
  (FillCircle_disc (zeroedScreen 10 10) ⟨5, 5⟩ 2 FG_RED PIXEL_SOLID (by decide)
    (by decide)).1 1 (by decide)

end Disc

section Transform

theorem RotateTriangle_vertex (p : point_2d) (c s : ℚ) (v : vec_2d ℚ) :
    MultiplyMatrix3x3 v
      { m00 := c, m01 := -s, m02 := (p.x : ℚ) * (1 - c) + (p.y : ℚ) * s,
        m10 := s, m11 := c, m12 := (p.y : ℚ) * (1 - c) - (p.x : ℚ) * s,
        m20 := 0, m21 := 0, m22 := 1 } =
      { x := (p.x : ℚ) + (c * (v.x - p.x) + -s * (v.y - p.y))
        y := (p.y : ℚ) + (s * (v.x - p.x) + c * (v.y - p.y)) } := by
  unfold MultiplyMatrix3x3
  simp only [vec_2d.mk.injEq]
  constructor <;> ring

/-- C16. `RotateTriangle` implements the rotation about the pivot.  With
`cosA` and `sinA` the values of `cos(fAngle)` and `sin(fAngle)`, each output
vertex equals `p + R (v - p)` for the input vertex `v`, where `R` has the rows
`(cosA, -sinA)` and `(sinA, cosA)`; a vertex equal to the pivot is mapped to
itself.  Arithmetic is exact. -/
theorem RotateTriangle_rotation (p : point_2d) (cosA sinA : ℚ) (out tri : triangle) :
    (RotateTriangle p cosA sinA out tri).p0 =
      { x := (p.x : ℚ) + (cosA * (tri.p0.x - p.x) + -sinA * (tri.p0.y - p.y))
        y := (p.y : ℚ) + (sinA * (tri.p0.x - p.x) + cosA * (tri.p0.y - p.y)) } ∧
    (RotateTriangle p cosA sinA out tri).p1 =
      { x := (p.x : ℚ) + (cosA * (tri.p1.x - p.x) + -sinA * (tri.p1.y - p.y))
        y := (p.y : ℚ) + (sinA * (tri.p1.x - p.x) + cosA * (tri.p1.y - p.y)) } ∧
    (RotateTriangle p cosA sinA out tri).p2 =
      { x := (p.x : ℚ) + (cosA * (tri.p2.x - p.x) + -sinA * (tri.p2.y - p.y))
        y := (p.y : ℚ) + (sinA * (tri.p2.x - p.x) + cosA * (tri.p2.y - p.y)) } ∧
    (tri.p0 = toVecF p → (RotateTriangle p cosA sinA out tri).p0 = tri.p0) ∧
    (tri.p1 = toVecF p → (RotateTriangle p cosA sinA out tri).p1 = tri.p1) ∧
    (tri.p2 = toVecF p → (RotateTriangle p cosA sinA out tri).p2 = tri.p2) := by
  have h0 : (RotateTriangle p cosA sinA out tri).p0 = _ :=
    RotateTriangle_vertex p cosA sinA tri.p0
  have h1 : (RotateTriangle p cosA sinA out tri).p1 = _ :=
    RotateTriangle_vertex p cosA sinA tri.p1
  have h2 : (RotateTriangle p cosA sinA out tri).p2 = _ :=
    RotateTriangle_vertex p cosA sinA tri.p2
  refine ⟨h0, h1, h2, ?_, ?_, ?_⟩
  · intro h
    rw [h0, h]; simp [toVecF]
  · intro h
    rw [h1, h]; simp [toVecF]
  · intro h
    rw [h2, h]; simp [toVecF]

/-- Witness of C16: pivot `(2, 3)`, the values `3/5` and `4/5` for the cosine
and the sine, and a triangle whose first vertex is the pivot. -/
theorem RotateTriangle_rotation_witness :
    (RotateTriangle ⟨2, 3⟩ (3 / 5) (4 / 5) (triangle.ofPoints ⟨0, 0⟩ ⟨0, 0⟩ ⟨0, 0⟩ FG_BLACK FG_WHITE)
      (triangle.ofPoints ⟨2, 3⟩ ⟨7, 3⟩ ⟨2, 8⟩ FG_BLACK FG_WHITE)).p0 =
      (triangle.ofPoints ⟨2, 3⟩ ⟨7, 3⟩ ⟨2, 8⟩ FG_BLACK FG_WHITE).p0 :=
  (RotateTriangle_rotation ⟨2, 3⟩ (3 / 5) (4 / 5)
    (triangle.ofPoints ⟨0, 0⟩ ⟨0, 0⟩ ⟨0, 0⟩ FG_BLACK FG_WHITE)
    (triangle.ofPoints ⟨2, 3⟩ ⟨7, 3⟩ ⟨2, 8⟩ FG_BLACK FG_WHITE)).2.2.2.1 rfl

theorem TranslateTriangle_vertex (t : point_2d) (v : vec_2d ℚ) :
    MultiplyMatrix3x3 v
      { m00 := 1, m01 := 0, m02 := (t.x : ℚ), m10 := 0, m11 := 1, m12 := (t.y : ℚ),
        m20 := 0, m21 := 0, m22 := 1 } = { x := v.x + t.x, y := v.y + t.y } := by
  unfold MultiplyMatrix3x3
  simp only [vec_2d.mk.injEq]
  constructor <;> ring

/-- C17. Translation round trip.  Translating by `(dx, dy)` with
`TranslateTriangle` and translating the result by `(-dx, -dy)` gives back the
three vertices of the original triangle; when the second call writes into a
copy of the original, the whole triangle (colours included) is the original.
Arithmetic is exact. -/
theorem TranslateTriangle_round_trip (dx dy : Int) (out1 out2 tri : triangle) :
    (TranslateTriangle ⟨-dx, -dy⟩ out2 (TranslateTriangle ⟨dx, dy⟩ out1 tri)).p0 = tri.p0 ∧
    (TranslateTriangle ⟨-dx, -dy⟩ out2 (TranslateTriangle ⟨dx, dy⟩ out1 tri)).p1 = tri.p1 ∧
    (TranslateTriangle ⟨-dx, -dy⟩ out2 (TranslateTriangle ⟨dx, dy⟩ out1 tri)).p2 = tri.p2 ∧
    TranslateTriangle ⟨-dx, -dy⟩ tri (TranslateTriangle ⟨dx, dy⟩ out1 tri) = tri := by
  have key : ∀ v : vec_2d ℚ,
      MultiplyMatrix3x3 (MultiplyMatrix3x3 v
        { m00 := 1, m01 := 0, m02 := ((dx : Int) : ℚ), m10 := 0, m11 := 1,
          m12 := ((dy : Int) : ℚ), m20 := 0, m21 := 0, m22 := 1 })
        { m00 := 1, m01 := 0, m02 := ((-dx : Int) : ℚ), m10 := 0, m11 := 1,
          m12 := ((-dy : Int) : ℚ), m20 := 0, m21 := 0, m22 := 1 } = v := by
    intro v
    have a := TranslateTriangle_vertex ⟨dx, dy⟩ v
    have b := TranslateTriangle_vertex ⟨-dx, -dy⟩ ⟨v.x + dx, v.y + dy⟩
    simp only at a b
    rw [a, b]
    cases v
    simp only [vec_2d.mk.injEq]
    constructor <;> (push_cast; ring)
  refine ⟨key tri.p0, key tri.p1, key tri.p2, ?_⟩
  have e0 := key tri.p0
  have e1 := key tri.p1
  have e2 := key tri.p2
  cases tri
  simp only [TranslateTriangle, mat3x3.zero] at e0 e1 e2 ⊢
  simp only [triangle.mk.injEq, and_true]
  exact ⟨e0, e1, e2⟩


end Transform

section Loop

theorem GameThread_run_succ (c : Consumer) (n : Nat) (s : LoopState) :
    GameThread_run c (n + 1) s = GameThread_run c n (GameThread_step c s) := rfl

theorem GameThread_run_add (c : Consumer) (m n : Nat) (s : LoopState) :
    GameThread_run c (m + n) s = GameThread_run c n (GameThread_run c m s) := by
  induction m generalizing s with
  | zero => simp [GameThread_run]
  | succ m ih =>
    rw [Nat.succ_add, GameThread_run_succ, ih, GameThread_run_succ]

theorem GameThread_step_stopped (c : Consumer) (s : LoopState) (h : s.pc = LoopPC.stopped) :
    GameThread_step c s = s := by
  unfold GameThread_step; rw [h]

/-- The end of `GameThread` is final: nothing happens after it. -/
theorem GameThread_run_stopped (c : Consumer) (n : Nat) (s : LoopState)
    (h : s.pc = LoopPC.stopped) : GameThread_run c n s = s := by
  induction n with
  | zero => rfl
  | succ n ih => rw [GameThread_run_succ, GameThread_step_stopped c s h, ih]

/-- Every step keeps the events so far and appends to them. -/
theorem GameThread_step_log (c : Consumer) (s : LoopState) :
    ∃ rest, (GameThread_step c s).log = s.log ++ rest := by
  unfold GameThread_step
  cases hpc : s.pc
  · exact ⟨_, rfl⟩
  · by_cases h : s.m_bIsRunning = true
    · simp only [h, if_true]; exact ⟨[], by simp⟩
    · simp only [h]; exact ⟨[], by simp⟩
  · by_cases h : s.m_bIsRunning = true
    · simp only [h, if_true]; exact ⟨[], by simp⟩
    · simp only [h]; exact ⟨[], by simp⟩
  · exact ⟨_, rfl⟩
  · by_cases h : c.Destroy s.nDestroy = true
    · simp only [h, if_true]; exact ⟨_, rfl⟩
    · simp only [h]; exact ⟨_, rfl⟩
  · exact ⟨[], by simp⟩

theorem GameThread_run_log (c : Consumer) (n : Nat) (s : LoopState) :
    ∃ rest, (GameThread_run c n s).log = s.log ++ rest := by
  induction n generalizing s with
  | zero => exact ⟨[], by simp [GameThread_run]⟩
  | succ n ih =>
    obtain ⟨r1, h1⟩ := GameThread_step_log c s
    obtain ⟨r2, h2⟩ := ih (GameThread_step c s)
    exact ⟨r1 ++ r2, by rw [GameThread_run_succ, h2, h1, List.append_assoc]⟩

theorem LoopInv_init : LoopInv GameThread_init := by decide

theorem LoopInv_step (c : Consumer) (s : LoopState) (h : LoopInv s) :
    LoopInv (GameThread_step c s) := by
  obtain ⟨h1, h2⟩ := h
  unfold LoopInv GameThread_step
  cases hpc : s.pc
  · simp only [hpc] at h1 h2
    have hn : LoopEvent.notifyOne ∉ s.log := fun hm => by simpa using h2 hm
    simp [hn]
  · simp only [hpc] at h1 h2
    by_cases hr : s.m_bIsRunning = true
    · have hn : LoopEvent.notifyOne ∉ s.log := fun hm => by simpa [hr] using h2 hm
      simp [hr, hn]
    · simp [hr]
  · simp only [hpc] at h1 h2
    have hn : LoopEvent.notifyOne ∉ s.log := fun hm => by simpa using h2 hm
    by_cases hr : s.m_bIsRunning = true
    · simp [hr, hn]
    · simp [hr, hn]
  · simp only [hpc] at h1 h2
    have hn : LoopEvent.notifyOne ∉ s.log := fun hm => by simpa using h2 hm
    simp [hn]
  · simp only [hpc] at h1 h2
    have hn : LoopEvent.notifyOne ∉ s.log := fun hm => by simpa using h2 hm
    have hf : s.m_bIsRunning = false := h1 trivial
    by_cases hd : c.Destroy s.nDestroy = true
    · simp [hd, hf]
    · simp [hd, hn]
  · exact ⟨h1, h2⟩

theorem LoopInv_run (c : Consumer) (n : Nat) : LoopInv (GameThread_run c n GameThread_init) := by
  have : ∀ (n : Nat) (s : LoopState), LoopInv s → LoopInv (GameThread_run c n s) := by
    intro n
    induction n with
    | zero => intro s h; exact h
    | succ n ih => intro s h; exact ih _ (LoopInv_step c s h)
  exact this n _ LoopInv_init


/-- C19 at a consumer whose `Setup` returns false and whose `Destroy` would
return true.  The loop thread is at its end after three steps and the only
event is the call of `Setup`: `Destroy` is not called, the buffer is not
released and `notify_one` is not issued.  The same store `m_bIsRunning = false`
made after a false `Update` (second consumer) does reach the teardown. -/
theorem Setup_failure_skips_teardown :
    (GameThread_run { Setup := false, Update := fun _ => true, Destroy := fun _ => true }
      3 GameThread_init).pc = LoopPC.stopped ∧
    (GameThread_run { Setup := false, Update := fun _ => true, Destroy := fun _ => true }
      3 GameThread_init).log = [LoopEvent.callSetup] ∧
    LoopEvent.callDestroy ∉
      (GameThread_run { Setup := false, Update := fun _ => true, Destroy := fun _ => true }
        3 GameThread_init).log ∧
    (GameThread_run { Setup := true, Update := fun _ => false, Destroy := fun _ => true }
      7 GameThread_init).pc = LoopPC.stopped ∧
    (GameThread_run { Setup := true, Update := fun _ => false, Destroy := fun _ => true }
      7 GameThread_init).log =
      [LoopEvent.callSetup, LoopEvent.pollInput, LoopEvent.callUpdate, LoopEvent.flushScreen,
        LoopEvent.callDestroy, LoopEvent.releaseBuffer, LoopEvent.restoreSurface,
        LoopEvent.notifyOne] := by
  refine ⟨by decide, by decide, by decide, by decide, by decide⟩

/-- What the code does for every consumer whose `Setup` returns false: the
loop thread clears `m_bIsRunning`, fails the outer loop test and ends without
reaching the teardown, since the call of `Destroy` sits inside the outer
loop. -/
theorem Setup_failure_stops (c : Consumer) (hsetup : c.Setup = false) (n : Nat) (hn : 2 ≤ n) :
    GameThread_run c n GameThread_init =
      { pc := LoopPC.stopped, m_bIsRunning := false, nUpdate := 0, nDestroy := 0,
        log := [LoopEvent.callSetup] } := by
  obtain ⟨m, rfl⟩ : ∃ m, n = 2 + m := ⟨n - 2, by omega⟩
  rw [GameThread_run_add]
  have h2 : GameThread_run c 2 GameThread_init =
      { pc := LoopPC.stopped, m_bIsRunning := false, nUpdate := 0, nDestroy := 0,
        log := [LoopEvent.callSetup] } := by
    simp [GameThread_run, GameThread_step, GameThread_init, hsetup]
  rw [h2]
  exact GameThread_run_stopped c m _ rfl

/-- An instance of `Setup_failure_stops`. -/
theorem Setup_failure_stops_witness :
    GameThread_run { Setup := false, Update := fun _ => true, Destroy := fun _ => true } 7
        GameThread_init =
      { pc := LoopPC.stopped, m_bIsRunning := false, nUpdate := 0, nDestroy := 0,
        log := [LoopEvent.callSetup] } :=
  Setup_failure_stops { Setup := false, Update := fun _ => true, Destroy := fun _ => true }
    rfl 7 (by decide)

end Loop

section KeyEdges

theorem keyStep_pressed_held (raw : Nat) (st : Nat × sKeyState)
    (h : (keyStep raw st).2.bPressed = true) : (keyStep raw st).2.bHeld = true := by
  unfold keyStep at *
  by_cases h1 : raw = st.1
  · simp [h1] at h
  · by_cases h2 : raw &&& 0x8000 = 0
    · simp [h1, h2] at h
    · simp [h1, h2]

theorem keyStep_not_pressed_of_held (raw : Nat) (st : Nat × sKeyState)
    (h : st.2.bHeld = true) : (keyStep raw st).2.bPressed = false := by
  unfold keyStep
  by_cases h1 : raw = st.1
  · simp [h1]
  · by_cases h2 : raw &&& 0x8000 = 0
    · simp [h1, h2]
    · simp [h1, h2, h]

/-- The flag `bPressed` of a key is never true in two consecutive frames, from
any starting state and for any raw samples. -/
theorem pressed_not_consecutive (s : KeyboardState) (frames : List (Fin 256 → Nat))
    (f1 f2 : Fin 256 → Nat) (i : Fin 256)
    (h : ((runKeys s (frames ++ [f1])).m_keys i).bPressed = true) :
    ((runKeys s (frames ++ [f1, f2])).m_keys i).bPressed = false := by
  have e1 : (runKeys s (frames ++ [f1])).m_keys i = (keyOf (runKeys s (frames ++ [f1])) i).2 :=
    rfl
  have e2 : (runKeys s (frames ++ [f1, f2])).m_keys i =
      (keyOf (runKeys s (frames ++ [f1, f2])) i).2 := rfl
  have e3 : frames ++ [f1, f2] = (frames ++ [f1]) ++ [f2] := by simp
  rw [e1, runKeys_append, runKeys_key] at h
  rw [e2, e3, runKeys_append, runKeys_append, runKeys_key [f2], runKeys_key [f1]]
  simp only [List.foldl_cons, List.foldl_nil] at h ⊢
  exact keyStep_not_pressed_of_held _ _ (keyStep_pressed_held _ _ h)

/-- C15, the code at a failing input.  From the all-clear state, the raw
samples `0x0001` and then `0x0000` for key 65 (the key is up in both frames and
was never held) give `bReleased = true` in both frames. -/
theorem released_twice :
    ((runKeys KeyboardState.init [fun _ => 0x0001]).m_keys 65).bReleased = true ∧
    ((runKeys KeyboardState.init [fun _ => 0x0001]).m_keys 65).bHeld = false ∧
    ((runKeys KeyboardState.init [fun _ => 0x0001, fun _ => 0x0000]).m_keys 65).bReleased
      = true := by
  have e1 : ∀ frames : List (Fin 256 → Nat), (runKeys KeyboardState.init frames).m_keys 65 =
      (keyOf (runKeys KeyboardState.init frames) 65).2 := fun _ => rfl
  simp only [e1, runKeys_key]
  decide


end KeyEdges

section Construct

/-- C21. Size validation.  For every requested size and every combination of
outcomes of the platform calls, when the requested height exceeds the reported
maximum window height or the requested width exceeds the reported maximum
window width, `ConstructConsole` returns 0 and the allocation of the screen
buffer is not reached. -/
theorem ConstructConsole_size_validation (o : PlatformOutcomes)
    (width height fontWidth fontHeight : Int)
    (h : height > o.dwMaximumWindowSizeY ∨ width > o.dwMaximumWindowSizeX) :
    (ConstructConsole o width height fontWidth fontHeight).ret = 0 ∧
    (ConstructConsole o width height fontWidth fontHeight).allocated = false := by
  unfold ConstructConsole GraphicError
  simp only
  split_ifs <;> first | exact ⟨rfl, rfl⟩ | omega

/-- Witness of C21: a request of 200 by 50 cells against a maximum window of
120 by 60, with every platform call succeeding. -/
theorem ConstructConsole_size_validation_witness :
    (ConstructConsole ⟨true, true, true, true, 120, 60, true, true, true⟩ 200 50 8 8).ret = 0 ∧
    (ConstructConsole ⟨true, true, true, true, 120, 60, true, true, true⟩ 200 50 8 8).allocated
      = false :=
  ConstructConsole_size_validation ⟨true, true, true, true, 120, 60, true, true, true⟩
    200 50 8 8 (Or.inr (by decide))

/-- With every platform call succeeding and the size within the maximum,
`ConstructConsole` returns 1 with the buffer allocated. -/
theorem ConstructConsole_success (o : PlatformOutcomes) (width height fontWidth fontHeight : Int)
    (h1 : o.SetConsoleScreenBufferSize = true) (h2 : o.SetConsoleActiveScreenBuffer = true)
    (h3 : o.SetCurrentConsoleFontEx = true) (h4 : o.GetConsoleScreenBufferInfo = true)
    (h5 : o.SetConsoleWindowInfo = true) (h6 : o.SetConsoleMode = true)
    (h7 : o.SetConsoleCtrlHandler = true)
    (hh : height ≤ o.dwMaximumWindowSizeY) (hw : width ≤ o.dwMaximumWindowSizeX) :
    ConstructConsole o width height fontWidth fontHeight = ⟨1, width, height, true⟩ := by
  unfold ConstructConsole
  simp [h1, h2, h3, h4, h5, h6, h7, not_lt.mpr hh, not_lt.mpr hw]

end Construct

section Clamp

/-- When `v1` is element-wise at most `v2`, `clamp` is the clamp of each
component to the closed interval between them. -/
theorem clamp_ordered (v v1 v2 : point_2d) (hx : v1.x ≤ v2.x) (hy : v1.y ≤ v2.y) :
    (v.clamp v1 v2).x = (if v.x < v1.x then v1.x else if v2.x < v.x then v2.x else v.x) ∧
    (v.clamp v1 v2).y = (if v.y < v1.y then v1.y else if v2.y < v.y then v2.y else v.y) := by
  unfold vec_2d.clamp vec_2d.min vec_2d.max
  simp only
  constructor <;> split_ifs <;> omega

/-- When a component of `v1` exceeds that of `v2`, `clamp` returns the
component of `v2`, whatever the vector clamped. -/
theorem clamp_reversed_x (v v1 v2 : point_2d) (hx : v2.x < v1.x) :
    (v.clamp v1 v2).x = v2.x := by
  unfold vec_2d.clamp vec_2d.min vec_2d.max
  simp only
  omega

/-- C30. `vec_2d::clamp` at `v = (5, 5)`, `v1 = (10, 10)`, `v2 = (0, 0)`: the
code returns `(0, 0)`, although `(5, 5)` already lies between the
element-wise minimum `(0, 0)` and maximum `(10, 10)` of `v1` and `v2`. -/
theorem clamp_reversed_bounds :
    vec_2d.clamp (⟨5, 5⟩ : point_2d) ⟨10, 10⟩ ⟨0, 0⟩ = ⟨0, 0⟩ ∧
    (vec_2d.min (⟨10, 10⟩ : point_2d) ⟨0, 0⟩).x ≤ (5 : Int) ∧
    (5 : Int) ≤ (vec_2d.max (⟨10, 10⟩ : point_2d) ⟨0, 0⟩).x ∧
    vec_2d.clamp (⟨5, 5⟩ : point_2d) ⟨10, 10⟩ ⟨0, 0⟩ ≠ ⟨5, 5⟩ := by
  decide

end Clamp

section HeldInvariant

/-- C29. In every state reached from the all-clear state by complete frames,
and for every key, the held flag is set exactly when the most recently stored
raw sample has the down bit `0x8000`; after each frame the stored sample is
the sample of that frame. -/
theorem held_iff_down_bit (frames : List (Fin 256 → Nat)) (i : Fin 256) :
    (((runKeys KeyboardState.init frames).m_keys i).bHeld = true ↔
      (runKeys KeyboardState.init frames).m_keyOldState i &&& 0x8000 ≠ 0) ∧
    ∀ f : Fin 256 → Nat,
      (runKeys KeyboardState.init (frames ++ [f])).m_keyOldState i = f i := by
  have h := runKeys_heldInv frames i
  unfold heldInv keyOf at h
  refine ⟨by simpa using h, ?_⟩
  intro f
  have h2 := runKeys_key [f] (runKeys KeyboardState.init frames) i
  rw [← runKeys_append] at h2
  have h3 := congrArg Prod.fst h2
  simpa [keyOf, keyStep] using h3

end HeldInvariant

section Diagonal

/-- On a diagonal with both differences positive and equal magnitudes, the
x-major loop steps both coordinates at every iteration. -/
theorem DrawLine_loopX_cells_diagonal (dx dy D L : Int) (hdx : 0 < dx) (hdy : 0 < dy) :
    ∀ (n : Nat) (x y px : Int), 0 ≤ px → L = x + n →
      DrawLine_loopX_cells dx dy D D L n x y px =
        (List.range n).map (fun (k : Nat) => (⟨x + 1 + k, y + 1 + k⟩ : point_2d)) := by
  intro n
  induction n with
  | zero => intro x y px _ _; rfl
  | succ n ih =>
    intro x y px hpx hL
    have hlt : x < L := by omega
    have hnot : ¬ px < 0 := by omega
    have hdir : (dx < 0 ∧ dy < 0) ∨ (dx > 0 ∧ dy > 0) := Or.inr ⟨hdx, hdy⟩
    unfold DrawLine_loopX_cells
    simp only [if_pos hlt, if_neg hnot, if_pos hdir]
    rw [ih (x + 1) (y + 1) (px + 2 * (D - D)) (by simpa using hpx) (by push_cast at hL ⊢; omega)]
    rw [List.range_succ_eq_map, List.map_cons, List.map_map]
    congr 1
    · simp
    · apply List.map_congr_left
      intro k _
      simp only [Function.comp, Nat.succ_eq_add_one]
      congr 1 <;> (push_cast; ring)

/-- The cells that `DrawLine` plots from `(0, 0)` to `(n, n)`. -/
theorem DrawLine_cells_diagonal (n : Nat) :
    DrawLine_cells ⟨0, 0⟩ ⟨n, n⟩ =
      (List.range (n + 1)).map (fun (i : Nat) => (⟨i, i⟩ : point_2d)) := by
  unfold DrawLine_cells
  simp only [sub_zero, le_refl, if_true]
  have h0 : ((n : Int) ≥ 0) := by omega
  simp only [if_pos h0]
  rcases Nat.eq_zero_or_pos n with hn | hn
  · subst hn
    simp [DrawLine_loopX_cells, List.range_succ]
  · have hn2 : (0 : Int) < n := by exact_mod_cast hn
    rw [DrawLine_loopX_cells_diagonal n n |(n : Int)| n hn2 hn2 _ 0 0 _
      (by rw [abs_of_pos hn2]; omega) (by simp)]
    rw [List.range_succ_eq_map, List.map_cons, List.map_map]
    simp
    intro a _
    omega

/-- C22. Diagonal line.  For every `n >= 0`, `DrawLine((0,0), (n,n))` hands
exactly the `n + 1` cells `(i, i)`, `0 <= i <= n`, to `Pixelate`; when `(n, n)`
lies inside the grid each of them receives the colour and the glyph, and every
other element of the buffer keeps its value. -/
theorem DrawLine_diagonal (g : ConsoleGraphics) (n : Nat) (color pixelType : Nat)
    (hgn : InGrid g ⟨n, n⟩) :
    DrawLine_cells ⟨0, 0⟩ ⟨n, n⟩ =
      (List.range (n + 1)).map (fun (i : Nat) => (⟨i, i⟩ : point_2d)) ∧
    (DrawLine_cells ⟨0, 0⟩ ⟨n, n⟩).length = n + 1 ∧
    (∀ i : Int, 0 ≤ i → i ≤ n →
      (DrawLine g ⟨0, 0⟩ ⟨n, n⟩ color pixelType).m_bufScreenData (cellIndex g ⟨i, i⟩) =
        { UnicodeChar := pixelType, Attributes := color }) ∧
    (∀ j : Int, (¬ ∃ i : Int, 0 ≤ i ∧ i ≤ n ∧ j = cellIndex g ⟨i, i⟩) →
      (DrawLine g ⟨0, 0⟩ ⟨n, n⟩ color pixelType).m_bufScreenData j = g.m_bufScreenData j) := by
  have hc := DrawLine_cells_diagonal n
  refine ⟨hc, by rw [hc]; simp, ?_, ?_⟩
  · intro i hi0 hin
    rw [DrawLine_eq_plotAll, plotAll_buf, hc, if_pos]
    refine ⟨⟨i, i⟩, ?_, ?_, rfl⟩
    · rw [List.mem_map]
      refine ⟨i.toNat, ?_, ?_⟩
      · rw [List.mem_range]
        have := Int.toNat_of_nonneg hi0
        omega
      · rw [Int.toNat_of_nonneg hi0]
    · unfold InGrid at hgn ⊢
      simp only at hgn ⊢
      omega
  · intro j hj
    rw [DrawLine_eq_plotAll, plotAll_buf, hc, if_neg]
    rintro ⟨p, hp, _, hpj⟩
    rw [List.mem_map] at hp
    obtain ⟨k, hk, rfl⟩ := hp
    rw [List.mem_range] at hk
    exact hj ⟨k, by omega, by omega, hpj⟩

/-- Witness of C22 on the cleared 10 by 10 grid with the endpoint `(9, 9)`. -/
theorem DrawLine_diagonal_witness :
    DrawLine_cells ⟨0, 0⟩ ⟨((9 : Nat) : Int), ((9 : Nat) : Int)⟩ =
      (List.range (9 + 1)).map (fun (i : Nat) => (⟨i, i⟩ : point_2d)) ∧
    (DrawLine_cells ⟨0, 0⟩ ⟨((9 : Nat) : Int), ((9 : Nat) : Int)⟩).length = 9 + 1 ∧
    (∀ i : Int, 0 ≤ i → i ≤ ((9 : Nat) : Int) →
      (DrawLine (zeroedScreen 10 10) ⟨0, 0⟩ ⟨((9 : Nat) : Int), ((9 : Nat) : Int)⟩ FG_RED
          PIXEL_SOLID).m_bufScreenData (cellIndex (zeroedScreen 10 10) ⟨i, i⟩) =
        { UnicodeChar := PIXEL_SOLID, Attributes := FG_RED }) ∧
    (∀ j : Int, (¬ ∃ i : Int, 0 ≤ i ∧ i ≤ ((9 : Nat) : Int) ∧
        j = cellIndex (zeroedScreen 10 10) ⟨i, i⟩) →
      (DrawLine (zeroedScreen 10 10) ⟨0, 0⟩ ⟨((9 : Nat) : Int), ((9 : Nat) : Int)⟩ FG_RED
          PIXEL_SOLID).m_bufScreenData j = (zeroedScreen 10 10).m_bufScreenData j) :=
  DrawLine_diagonal (zeroedScreen 10 10) 9 FG_RED PIXEL_SOLID (by decide)

end Diagonal

section ClosedTriangle

/-- The first sub-area is linear in the point: at a combination of the
vertices with weights summing to one it is the weight of `p1` times the whole
area. -/
theorem shoelace_combination (p p1 p2 p3 : point_2d) (a b c : ℚ) (hs : a + b + c = 1)
    (hx : (p.x : ℚ) = a * p1.x + b * p2.x + c * p3.x)
    (hy : (p.y : ℚ) = a * p1.y + b * p2.y + c * p3.y) :
    ((shoelace p p2 p3 : Int) : ℚ) = a * (shoelace p1 p2 p3 : Int) ∧
    ((shoelace p1 p p3 : Int) : ℚ) = b * (shoelace p1 p2 p3 : Int) ∧
    ((shoelace p1 p2 p : Int) : ℚ) = c * (shoelace p1 p2 p3 : Int) := by
  unfold shoelace
  push_cast
  rw [hx, hy]
  have ha : a = 1 - b - c := by linarith
  subst ha
  refine ⟨by ring, by ring, by ring⟩

/-- C25. The area method decides membership in the closed triangle.  For
integer points and a triangle of non-zero area, `IsPointInsideTriangle` returns
true exactly when `p` is a convex combination of the three vertices. -/
theorem IsPointInsideTriangle_iff_convex (p p1 p2 p3 : point_2d)
    (hnd : IsPointInsideTriangle_area p1 p2 p3 ≠ 0) :
    IsPointInsideTriangle p p1 p2 p3 = true ↔
      ∃ a b c : ℚ, 0 ≤ a ∧ 0 ≤ b ∧ 0 ≤ c ∧ a + b + c = 1 ∧
        (p.x : ℚ) = a * p1.x + b * p2.x + c * p3.x ∧
        (p.y : ℚ) = a * p1.y + b * p2.y + c * p3.y := by
  have hN : shoelace p1 p2 p3 ≠ 0 := by
    intro h0
    apply hnd
    rw [IsPointInsideTriangle_area_eq, h0]
    simp
  have hNq : ((shoelace p1 p2 p3 : Int) : ℚ) ≠ 0 := by exact_mod_cast hN
  constructor
  · intro h
    have hsign := shoelace_same_sign p p1 p2 p3 h
    have hsplit := shoelace_split p p1 p2 p3
    have hbx := shoelace_bary_x p p1 p2 p3
    have hby := shoelace_bary_y p p1 p2 p3
    have hsplitq : ((shoelace p1 p2 p3 : Int) : ℚ) =
        (shoelace p p2 p3 : Int) + (shoelace p1 p p3 : Int) + (shoelace p1 p2 p : Int) := by
      exact_mod_cast hsplit
    have hbxq : ((shoelace p p2 p3 : Int) : ℚ) * ((p.x : ℚ) - p1.x) +
        (shoelace p1 p p3 : Int) * ((p.x : ℚ) - p2.x) +
        (shoelace p1 p2 p : Int) * ((p.x : ℚ) - p3.x) = 0 := by
      exact_mod_cast hbx
    have hbyq : ((shoelace p p2 p3 : Int) : ℚ) * ((p.y : ℚ) - p1.y) +
        (shoelace p1 p p3 : Int) * ((p.y : ℚ) - p2.y) +
        (shoelace p1 p2 p : Int) * ((p.y : ℚ) - p3.y) = 0 := by
      exact_mod_cast hby
    refine ⟨(shoelace p p2 p3 : Int) / (shoelace p1 p2 p3 : Int),
      (shoelace p1 p p3 : Int) / (shoelace p1 p2 p3 : Int),
      (shoelace p1 p2 p : Int) / (shoelace p1 p2 p3 : Int), ?_, ?_, ?_, ?_, ?_, ?_⟩
    · rcases hsign with ⟨h1, h2, h3⟩ | ⟨h1, h2, h3⟩
      · exact div_nonneg (by exact_mod_cast h1) (by exact_mod_cast (by omega : 0 ≤ shoelace p1 p2 p3))
      · exact div_nonneg_of_nonpos (by exact_mod_cast h1)
          (by exact_mod_cast (by omega : shoelace p1 p2 p3 ≤ 0))
    · rcases hsign with ⟨h1, h2, h3⟩ | ⟨h1, h2, h3⟩
      · exact div_nonneg (by exact_mod_cast h2) (by exact_mod_cast (by omega : 0 ≤ shoelace p1 p2 p3))
      · exact div_nonneg_of_nonpos (by exact_mod_cast h2)
          (by exact_mod_cast (by omega : shoelace p1 p2 p3 ≤ 0))
    · rcases hsign with ⟨h1, h2, h3⟩ | ⟨h1, h2, h3⟩
      · exact div_nonneg (by exact_mod_cast h3) (by exact_mod_cast (by omega : 0 ≤ shoelace p1 p2 p3))
      · exact div_nonneg_of_nonpos (by exact_mod_cast h3)
          (by exact_mod_cast (by omega : shoelace p1 p2 p3 ≤ 0))
    · field_simp
      linarith
    · field_simp
      linear_combination (p.x : ℚ) * hsplitq + hbxq
    · field_simp
      linear_combination (p.y : ℚ) * hsplitq + hbyq
  · rintro ⟨a, b, c, ha, hb, hc, hs, hx, hy⟩
    obtain ⟨e1, e2, e3⟩ := shoelace_combination p p1 p2 p3 a b c hs hx hy
    rw [IsPointInsideTriangle_iff]
    have hq : ((|shoelace p1 p2 p3| : Int) : ℚ) =
        ((|shoelace p p2 p3| + |shoelace p1 p p3| + |shoelace p1 p2 p| : Int) : ℚ) := by
      push_cast
      rw [e1, e2, e3, abs_mul, abs_mul, abs_mul, abs_of_nonneg ha, abs_of_nonneg hb,
        abs_of_nonneg hc]
      have : (a + b + c) * |((shoelace p1 p2 p3 : Int) : ℚ)| = |((shoelace p1 p2 p3 : Int) : ℚ)| := by
        rw [hs, one_mul]
      linarith
    exact_mod_cast hq

/-- Witness of C25 at the triangle `(0,0)`, `(4,0)`, `(0,4)` and the point
`(1, 1)`, the combination with weights `1/2`, `1/4`, `1/4`. -/
theorem IsPointInsideTriangle_iff_convex_witness :
    IsPointInsideTriangle ⟨1, 1⟩ ⟨0, 0⟩ ⟨4, 0⟩ ⟨0, 4⟩ = true ↔
      ∃ a b c : ℚ, 0 ≤ a ∧ 0 ≤ b ∧ 0 ≤ c ∧ a + b + c = 1 ∧
        (((⟨1, 1⟩ : point_2d).x : Int) : ℚ) = a * (⟨0, 0⟩ : point_2d).x +
          b * (⟨4, 0⟩ : point_2d).x + c * (⟨0, 4⟩ : point_2d).x ∧
        (((⟨1, 1⟩ : point_2d).y : Int) : ℚ) = a * (⟨0, 0⟩ : point_2d).y +
          b * (⟨4, 0⟩ : point_2d).y + c * (⟨0, 4⟩ : point_2d).y :=
  IsPointInsideTriangle_iff_convex ⟨1, 1⟩ ⟨0, 0⟩ ⟨4, 0⟩ ⟨0, 4⟩ (by
    rw [IsPointInsideTriangle_area_eq]
    have : shoelace ⟨0, 0⟩ ⟨4, 0⟩ ⟨0, 4⟩ = 16 := by decide
    rw [this]; norm_num)

end ClosedTriangle

section Mouse

theorem updateMouseButton_new (s : MouseState) (m : Fin 5) :
    (updateMouseButton s m).m_mouseNewState = s.m_mouseNewState := by
  unfold updateMouseButton
  rcases Bool.eq_false_or_eq_true (s.m_mouseNewState m) with hn | hn <;>
    rcases Bool.eq_false_or_eq_true (s.m_mouseOldState m) with ho | ho <;> simp [hn, ho]

theorem updateMouseButton_same (s : MouseState) (m : Fin 5) :
    mouseOf (updateMouseButton s m) m = mouseStep (s.m_mouseNewState m) (mouseOf s m) := by
  unfold updateMouseButton mouseOf mouseStep
  rcases Bool.eq_false_or_eq_true (s.m_mouseNewState m) with hn | hn <;>
    rcases Bool.eq_false_or_eq_true (s.m_mouseOldState m) with ho | ho <;> simp [hn, ho]

theorem updateMouseButton_other (s : MouseState) (m j : Fin 5) (h : j ≠ m) :
    mouseOf (updateMouseButton s m) j = mouseOf s j := by
  unfold updateMouseButton mouseOf
  rcases Bool.eq_false_or_eq_true (s.m_mouseNewState m) with hn | hn <;>
    rcases Bool.eq_false_or_eq_true (s.m_mouseOldState m) with ho | ho <;>
    simp [hn, ho, Function.update_noteq h]

theorem foldl_updateMouseButton (l : List (Fin 5)) (hl : l.Nodup) (s : MouseState)
    (j : Fin 5) :
    (l.foldl updateMouseButton s).m_mouseNewState = s.m_mouseNewState ∧
    mouseOf (l.foldl updateMouseButton s) j =
      if j ∈ l then mouseStep (s.m_mouseNewState j) (mouseOf s j) else mouseOf s j := by
  induction l generalizing s with
  | nil => simp
  | cons a l ih =>
    rw [List.nodup_cons] at hl
    rw [List.foldl_cons]
    obtain ⟨ih1, ih2⟩ := ih hl.2 (updateMouseButton s a)
    rw [ih1, ih2, updateMouseButton_new]
    refine ⟨rfl, ?_⟩
    by_cases hja : j = a
    · subst hja
      simp [hl.1, updateMouseButton_same]
    · by_cases hjl : j ∈ l
      · simp [hjl, updateMouseButton_other s a j hja]
      · simp [hjl, hja, updateMouseButton_other s a j hja]

/-- One frame of the mouse loop acts on every button as `mouseStep`. -/
theorem mouseFrame_button (smp : Fin 5 → Bool) (s : MouseState) (m : Fin 5) :
    mouseOf (mouseFrame smp s) m = mouseStep (smp m) (mouseOf s m) := by
  unfold mouseFrame updateMouseButtons
  rw [(foldl_updateMouseButton _ (List.nodup_finRange 5) _ m).2]
  simp [mouseOf]

/-- A run of frames acts on every button as the iteration of `mouseStep`. -/
theorem runMouse_button (frames : List (Fin 5 → Bool)) (s : MouseState) (m : Fin 5) :
    mouseOf (runMouse s frames) m =
      frames.foldl (fun st f => mouseStep (f m) st) (mouseOf s m) := by
  induction frames generalizing s with
  | nil => rfl
  | cons f fs ih =>
    unfold runMouse at ih ⊢
    rw [List.foldl_cons, ih, mouseFrame_button, List.foldl_cons]

/-- One step of the simulation: when the stored key sample is the pattern of
the stored button sample, the records agree and the held flag is the stored
button sample, the same holds after a frame. -/
theorem mouseStep_keyStep (b : Bool) (bst : Bool × sKeyState) (kst : Nat × sKeyState)
    (h1 : kst.1 = rawOfBool bst.1) (h2 : kst.2 = bst.2) (h3 : bst.2.bHeld = bst.1) :
    (keyStep (rawOfBool b) kst).1 = rawOfBool (mouseStep b bst).1 ∧
    (keyStep (rawOfBool b) kst).2 = (mouseStep b bst).2 ∧
    (mouseStep b bst).2.bHeld = (mouseStep b bst).1 := by
  obtain ⟨o, ⟨p, r, hd⟩⟩ := bst
  obtain ⟨ko, kr⟩ := kst
  simp only at h1 h2 h3
  subst h1 h2 h3
  cases b <;> cases p <;> cases r <;> cases hd <;> decide

theorem foldl_mouseStep_keyStep (l : List Bool) (bst : Bool × sKeyState)
    (kst : Nat × sKeyState)
    (h1 : kst.1 = rawOfBool bst.1) (h2 : kst.2 = bst.2) (h3 : bst.2.bHeld = bst.1) :
    (l.foldl (fun st b => keyStep (rawOfBool b) st) kst).2 =
      (l.foldl (fun st b => mouseStep b st) bst).2 ∧
    (l.foldl (fun st b => mouseStep b st) bst).2.bHeld =
      (l.foldl (fun st b => mouseStep b st) bst).1 := by
  induction l generalizing bst kst with
  | nil => exact ⟨h2, h3⟩
  | cons b l ih =>
    obtain ⟨e1, e2, e3⟩ := mouseStep_keyStep b bst kst h1 h2 h3
    rw [List.foldl_cons, List.foldl_cons]
    exact ih _ _ e1 e2 e3

/-- C28. Mouse buttons and keys.  For every sequence of boolean button
samples, starting from the all-clear state, the record of a button after the
mouse update equals the record of a key after the keyboard update on the same
sequence with up sent to `0x0000` and down to `0x8000`; and a frame that sets
the pressed flag of the button starts with its held flag clear. -/
theorem mouse_matches_keyboard (frames : List (Fin 5 → Bool)) (m : Fin 5) (i : Fin 256) :
    (runMouse MouseState.init frames).m_mouse m =
      (runKeys KeyboardState.init
        (frames.map (fun f => fun (_ : Fin 256) => rawOfBool (f m)))).m_keys i ∧
    ∀ f : Fin 5 → Bool,
      ((runMouse MouseState.init (frames ++ [f])).m_mouse m).bPressed = true →
      ((runMouse MouseState.init frames).m_mouse m).bHeld = false := by
  have hm := runMouse_button frames MouseState.init m
  have hk := runKeys_key (frames.map (fun f => fun (_ : Fin 256) => rawOfBool (f m)))
    KeyboardState.init i
  rw [List.foldl_map] at hk
  have hsim := foldl_mouseStep_keyStep (frames.map (fun f => f m))
    (mouseOf MouseState.init m) (keyOf KeyboardState.init i) rfl rfl rfl
  rw [List.foldl_map, List.foldl_map] at hsim
  rw [← hm, ← hk] at hsim
  refine ⟨hsim.1.symm, ?_⟩
  intro f hp
  have hm2 := runMouse_button (frames ++ [f]) MouseState.init m
  rw [List.foldl_append, ← hm] at hm2
  simp only [List.foldl_cons, List.foldl_nil] at hm2
  have hheld := hsim.2
  have hp2 : (mouseOf (runMouse MouseState.init (frames ++ [f])) m).2.bPressed = true := hp
  rw [hm2] at hp2
  have hh : (mouseOf (runMouse MouseState.init frames) m).2.bHeld = false := by
    generalize mouseOf (runMouse MouseState.init frames) m = st at hheld hp2 ⊢
    obtain ⟨o, ⟨p, r, hd⟩⟩ := st
    simp only at hheld
    subst hheld
    revert hp2
    cases f m <;> cases hd <;> simp [mouseStep]
  exact hh

end Mouse

section TriangleCells

theorem ConsoleGraphics_eq (a b : ConsoleGraphics) (hw : a.m_screenWidth = b.m_screenWidth)
    (hh : a.m_screenHeight = b.m_screenHeight)
    (hb : ∀ i, a.m_bufScreenData i = b.m_bufScreenData i) : a = b := by
  cases a; cases b
  simp only [ConsoleGraphics.mk.injEq] at *
  exact ⟨hw, hh, funext hb⟩

/-- `FillTriangle(const triangle&)` is the plot of `FillTriangle_cells` with
the fill colour. -/
theorem FillTriangle_eq_plotAll (g : ConsoleGraphics) (t : triangle) (pt : Nat) :
    FillTriangle g t pt = plotAll g (FillTriangle_cells g t) t.fillColor pt := by
  unfold FillTriangle FillTriangle_cells
  simp only
  rw [foldl_rows_cols]
  generalize (forRange (min (min (castInt t.p0.y) (castInt t.p1.y)) (castInt t.p2.y))
      (max (max (castInt t.p0.y) (castInt t.p1.y)) (castInt t.p2.y) + 1)).flatMap
      (fun y => (forRange (min (min (castInt t.p0.x) (castInt t.p1.x)) (castInt t.p2.x))
        (max (max (castInt t.p0.x) (castInt t.p1.x)) (castInt t.p2.x) + 1)).map
        (fun x => (⟨x, y⟩ : point_2d))) = L
  obtain ⟨hw, hh, hb⟩ := foldl_FillTriangle_cell t pt L g
  apply ConsoleGraphics_eq
  · rw [hw, plotAll_width]
  · rw [hh, plotAll_height]
  · intro i
    rw [hb, plotAll_buf]
    apply if_congr _ rfl rfl
    constructor
    · rintro ⟨p, hp, hpaint, hi⟩
      exact ⟨p, List.mem_filter.mpr ⟨hp, by simpa using hpaint⟩, hpaint.1, hi⟩
    · rintro ⟨p, hp, _, hi⟩
      rw [List.mem_filter] at hp
      exact ⟨p, hp.1, by simpa using hp.2, hi⟩

/-- The cells of `FillTriangle_cells` are the cells of the bounding box at
which the call paints. -/
theorem mem_FillTriangle_cells (g : ConsoleGraphics) (t : triangle) (p : point_2d) :
    p ∈ FillTriangle_cells g t ↔ t.inBoundingBox p ∧ t.paintable g p := by
  unfold FillTriangle_cells
  simp only
  rw [List.mem_filter, mem_rows_cols, mem_forRange, mem_forRange]
  unfold triangle.inBoundingBox
  simp only [decide_eq_true_eq]
  constructor
  · rintro ⟨⟨⟨a, b⟩, c, d⟩, e⟩
    exact ⟨⟨a, by omega, c, by omega⟩, e⟩
  · rintro ⟨⟨a, b, c, d⟩, e⟩
    exact ⟨⟨⟨a, by omega⟩, c, by omega⟩, e⟩

/-- The area test of the right triangle `(0,0)`, `(4,0)`, `(0,4)`: the closed
triangle `0 <= x`, `0 <= y`, `x + y <= 4`. -/
theorem IsPointInsideTriangle_right (p : point_2d) :
    IsPointInsideTriangle p ⟨0, 0⟩ ⟨4, 0⟩ ⟨0, 4⟩ = true ↔ 0 ≤ p.x ∧ 0 ≤ p.y ∧ p.x + p.y ≤ 4 := by
  rw [IsPointInsideTriangle_iff]
  unfold shoelace
  simp only
  constructor
  · intro h
    rcases abs_cases (p.x * ((0 : Int) - 4) + 4 * (4 - p.y) + 0 * (p.y - 0)) with h1 | h1 <;>
    rcases abs_cases ((0 : Int) * (p.y - 4) + p.x * (4 - 0) + 0 * (0 - p.y)) with h2 | h2 <;>
    rcases abs_cases ((0 : Int) * (0 - p.y) + 4 * (p.y - 0) + p.x * (0 - 0)) with h3 | h3 <;>
    rcases abs_cases ((0 : Int) * (0 - 4) + 4 * (4 - 0) + 0 * (0 - 0)) with h4 | h4 <;>
    omega
  · intro h
    rcases abs_cases (p.x * ((0 : Int) - 4) + 4 * (4 - p.y) + 0 * (p.y - 0)) with h1 | h1 <;>
    rcases abs_cases ((0 : Int) * (p.y - 4) + p.x * (4 - 0) + 0 * (0 - p.y)) with h2 | h2 <;>
    rcases abs_cases ((0 : Int) * (0 - p.y) + 4 * (p.y - 0) + p.x * (0 - 0)) with h3 | h3 <;>
    rcases abs_cases ((0 : Int) * (0 - 4) + 4 * (4 - 0) + 0 * (0 - 0)) with h4 | h4 <;>
    omega

/-- The cells painted by the fill of the right triangle `(0,0)`, `(4,0)`,
`(0,4)` on a 10 by 10 grid without a cell of the edge colour, in scan
order. -/
theorem FillTriangle_cells_right (g : ConsoleGraphics) (fill edge : Nat)
    (hw : g.m_screenWidth = 10) (hh : g.m_screenHeight = 10)
    (hno : ∀ p : point_2d, InGrid g p → (g.m_bufScreenData (cellIndex g p)).Attributes ≠ edge) :
    FillTriangle_cells g (triangle.ofPoints ⟨0, 0⟩ ⟨4, 0⟩ ⟨0, 4⟩ fill edge) =
      [⟨0, 0⟩, ⟨1, 0⟩, ⟨2, 0⟩, ⟨3, 0⟩, ⟨4, 0⟩, ⟨0, 1⟩, ⟨1, 1⟩, ⟨2, 1⟩, ⟨3, 1⟩,
        ⟨0, 2⟩, ⟨1, 2⟩, ⟨2, 2⟩, ⟨0, 3⟩, ⟨1, 3⟩, ⟨0, 4⟩] := by
  have e0 : castInt 0 = 0 := by simpa using castInt_intCast 0
  have e4 : castInt 4 = 4 := by simpa using castInt_intCast 4
  have hbox : (forRange 0 5).flatMap
      (fun y => (forRange 0 5).map (fun x => (⟨x, y⟩ : point_2d))) =
      [⟨0, 0⟩, ⟨1, 0⟩, ⟨2, 0⟩, ⟨3, 0⟩, ⟨4, 0⟩, ⟨0, 1⟩, ⟨1, 1⟩, ⟨2, 1⟩, ⟨3, 1⟩, ⟨4, 1⟩,
        ⟨0, 2⟩, ⟨1, 2⟩, ⟨2, 2⟩, ⟨3, 2⟩, ⟨4, 2⟩, ⟨0, 3⟩, ⟨1, 3⟩, ⟨2, 3⟩, ⟨3, 3⟩, ⟨4, 3⟩,
        ⟨0, 4⟩, ⟨1, 4⟩, ⟨2, 4⟩, ⟨3, 4⟩, ⟨4, 4⟩] := by decide
  have hfilter : ∀ p ∈ (forRange 0 5).flatMap
      (fun y => (forRange 0 5).map (fun x => (⟨x, y⟩ : point_2d))),
      decide ((triangle.ofPoints ⟨0, 0⟩ ⟨4, 0⟩ ⟨0, 4⟩ fill edge).paintable g p) =
        decide (p.x + p.y ≤ 4) := by
    intro p hp
    rw [mem_rows_cols, mem_forRange, mem_forRange] at hp
    have hin : InGrid g p := by
      unfold InGrid
      rw [hw, hh]
      omega
    apply decide_eq_decide.mpr
    unfold triangle.paintable
    simp only [triangle.ofPoints, toPoint_toVecF]
    rw [IsPointInsideTriangle_right]
    constructor
    · rintro ⟨_, h, _⟩
      exact h.2.2
    · intro h
      exact ⟨hin, ⟨hp.1.1, hp.2.1, h⟩, hno p hin⟩
  have x0 : castInt (triangle.ofPoints ⟨0, 0⟩ ⟨4, 0⟩ ⟨0, 4⟩ fill edge).p0.x = 0 := by
    simp [triangle.ofPoints, toVecF, e0]
  have x1 : castInt (triangle.ofPoints ⟨0, 0⟩ ⟨4, 0⟩ ⟨0, 4⟩ fill edge).p1.x = 4 := by
    simp [triangle.ofPoints, toVecF, e4]
  have x2 : castInt (triangle.ofPoints ⟨0, 0⟩ ⟨4, 0⟩ ⟨0, 4⟩ fill edge).p2.x = 0 := by
    simp [triangle.ofPoints, toVecF, e0]
  have y0 : castInt (triangle.ofPoints ⟨0, 0⟩ ⟨4, 0⟩ ⟨0, 4⟩ fill edge).p0.y = 0 := by
    simp [triangle.ofPoints, toVecF, e0]
  have y1 : castInt (triangle.ofPoints ⟨0, 0⟩ ⟨4, 0⟩ ⟨0, 4⟩ fill edge).p1.y = 0 := by
    simp [triangle.ofPoints, toVecF, e0]
  have y2 : castInt (triangle.ofPoints ⟨0, 0⟩ ⟨4, 0⟩ ⟨0, 4⟩ fill edge).p2.y = 4 := by
    simp [triangle.ofPoints, toVecF, e4]
  have m1 : min (min (0 : Int) 4) 0 = 0 := by decide
  have m2 : max (max (0 : Int) 4) 0 + 1 = 5 := by decide
  have m3 : min (min (0 : Int) 0) 4 = 0 := by decide
  have m4 : max (max (0 : Int) 0) 4 + 1 = 5 := by decide
  unfold FillTriangle_cells
  simp only [x0, x1, x2, y0, y1, y2, m1, m2, m3, m4]
  rw [List.filter_congr hfilter, hbox]
  decide

end TriangleCells

section RightTriangle

/-- Counterexample to C23 on the cleared 10 by 10 grid with fill colour
`FG_RED` and edge colour `FG_WHITE`: the fill of `(0,0)`, `(4,0)`, `(0,4)`
calls `Pixelate` at 15 distinct cells, and 15 elements of the buffer differ
from their value before the call, not 10. -/
theorem FillTriangle_count_counterexample :
    (FillTriangle_cells (zeroedScreen 10 10)
      (triangle.ofPoints ⟨0, 0⟩ ⟨4, 0⟩ ⟨0, 4⟩ FG_RED FG_WHITE)).length = 15 ∧
    (FillTriangle_cells (zeroedScreen 10 10)
      (triangle.ofPoints ⟨0, 0⟩ ⟨4, 0⟩ ⟨0, 4⟩ FG_RED FG_WHITE)).Nodup ∧
    ((List.range 100).filter (fun (i : Nat) => decide
      ((FillTriangle (zeroedScreen 10 10)
        (triangle.ofPoints ⟨0, 0⟩ ⟨4, 0⟩ ⟨0, 4⟩ FG_RED FG_WHITE) PIXEL_SOLID).m_bufScreenData i ≠
        (zeroedScreen 10 10).m_bufScreenData i))).length = 15 ∧
    ¬ ((FillTriangle_cells (zeroedScreen 10 10)
      (triangle.ofPoints ⟨0, 0⟩ ⟨4, 0⟩ ⟨0, 4⟩ FG_RED FG_WHITE)).length = 10) := by
  have hc := FillTriangle_cells_right (zeroedScreen 10 10) FG_RED FG_WHITE rfl rfl
    (fun _ _ => by simp [zeroedScreen, FG_WHITE])
  rw [FillTriangle_eq_plotAll, hc]
  refine ⟨by decide, by decide, ?_, by decide⟩
  decide

/-- C23, amended.  On every 10 by 10 grid without a cell of the edge colour,
the fill of `(0,0)`, `(4,0)`, `(0,4)` paints exactly the 15 cells of the closed
triangle `0 <= x`, `0 <= y`, `x + y <= 4`: each of them receives the glyph and
the fill colour, and every other element of the buffer keeps its value. -/
theorem FillTriangle_right_triangle (g : ConsoleGraphics) (fill edge pixelType : Nat)
    (hw : g.m_screenWidth = 10) (hh : g.m_screenHeight = 10)
    (hno : ∀ p : point_2d, InGrid g p → (g.m_bufScreenData (cellIndex g p)).Attributes ≠ edge) :
    (FillTriangle_cells g (triangle.ofPoints ⟨0, 0⟩ ⟨4, 0⟩ ⟨0, 4⟩ fill edge)).length = 15 ∧
    (FillTriangle_cells g (triangle.ofPoints ⟨0, 0⟩ ⟨4, 0⟩ ⟨0, 4⟩ fill edge)).Nodup ∧
    (∀ p : point_2d, p ∈ FillTriangle_cells g (triangle.ofPoints ⟨0, 0⟩ ⟨4, 0⟩ ⟨0, 4⟩ fill edge) ↔
      0 ≤ p.x ∧ 0 ≤ p.y ∧ p.x + p.y ≤ 4) ∧
    (∀ p : point_2d, 0 ≤ p.x → 0 ≤ p.y → p.x + p.y ≤ 4 →
      (FillTriangle g (triangle.ofPoints ⟨0, 0⟩ ⟨4, 0⟩ ⟨0, 4⟩ fill edge)
        pixelType).m_bufScreenData (cellIndex g p) =
        { UnicodeChar := pixelType, Attributes := fill }) ∧
    (∀ i : Int, (¬ ∃ p : point_2d, 0 ≤ p.x ∧ 0 ≤ p.y ∧ p.x + p.y ≤ 4 ∧ i = cellIndex g p) →
      (FillTriangle g (triangle.ofPoints ⟨0, 0⟩ ⟨4, 0⟩ ⟨0, 4⟩ fill edge)
        pixelType).m_bufScreenData i = g.m_bufScreenData i) := by
  have hc := FillTriangle_cells_right g fill edge hw hh hno
  have hmem : ∀ p : point_2d,
      p ∈ FillTriangle_cells g (triangle.ofPoints ⟨0, 0⟩ ⟨4, 0⟩ ⟨0, 4⟩ fill edge) ↔
        0 ≤ p.x ∧ 0 ≤ p.y ∧ p.x + p.y ≤ 4 := by
    intro p
    rw [mem_FillTriangle_cells]
    constructor
    · rintro ⟨_, _, hin, _⟩
      simp only [triangle.ofPoints, toPoint_toVecF] at hin
      exact (IsPointInsideTriangle_right p).mp hin
    · intro h
      have hin : InGrid g p := by
        unfold InGrid
        rw [hw, hh]
        omega
      have e0 : castInt 0 = 0 := by simpa using castInt_intCast 0
      have e4 : castInt 4 = 4 := by simpa using castInt_intCast 4
      refine ⟨?_, hin, ?_, hno p hin⟩
      · simp only [triangle.inBoundingBox, triangle.ofPoints, toVecF, Int.cast_zero,
          Int.cast_ofNat, e0, e4]
        have m1 : min (min (0 : Int) 4) 0 = 0 := by decide
        have m2 : max (max (0 : Int) 4) 0 = 4 := by decide
        have m3 : min (min (0 : Int) 0) 4 = 0 := by decide
        have m4 : max (max (0 : Int) 0) 4 = 4 := by decide
        rw [m1, m2, m3, m4]
        omega
      · simp only [triangle.ofPoints, toPoint_toVecF]
        exact (IsPointInsideTriangle_right p).mpr h
  refine ⟨by rw [hc]; decide, by rw [hc]; decide, hmem, ?_, ?_⟩
  · intro p h1 h2 h3
    rw [FillTriangle_eq_plotAll, plotAll_buf, if_pos]
    · rfl
    · have hp := (hmem p).mpr ⟨h1, h2, h3⟩
      exact ⟨p, hp, ((mem_FillTriangle_cells g _ p).mp hp).2.1, rfl⟩
  · intro i hi
    rw [FillTriangle_eq_plotAll, plotAll_buf, if_neg]
    rintro ⟨p, hp, _, hpi⟩
    obtain ⟨a, b, c⟩ := (hmem p).mp hp
    exact hi ⟨p, a, b, c, hpi⟩

/-- Witness of the amended C23 on the cleared 10 by 10 grid. -/
theorem FillTriangle_right_triangle_witness :
    (FillTriangle_cells (zeroedScreen 10 10)
      (triangle.ofPoints ⟨0, 0⟩ ⟨4, 0⟩ ⟨0, 4⟩ FG_RED FG_WHITE)).length = 15 ∧
    (FillTriangle (zeroedScreen 10 10) (triangle.ofPoints ⟨0, 0⟩ ⟨4, 0⟩ ⟨0, 4⟩ FG_RED FG_WHITE)
        PIXEL_SOLID).m_bufScreenData (cellIndex (zeroedScreen 10 10) ⟨4, 0⟩) =
      { UnicodeChar := PIXEL_SOLID, Attributes := FG_RED } :=
  ⟨(FillTriangle_right_triangle (zeroedScreen 10 10) FG_RED FG_WHITE PIXEL_SOLID rfl rfl
      (fun _ _ => by simp [zeroedScreen, FG_WHITE])).1,
    (FillTriangle_right_triangle (zeroedScreen 10 10) FG_RED FG_WHITE PIXEL_SOLID rfl rfl
      (fun _ _ => by simp [zeroedScreen, FG_WHITE])).2.2.2.1 ⟨4, 0⟩ (by decide) (by decide) (by decide)⟩

end RightTriangle

section Outline

/-- `DrawTriangle_points` is the plot of `DrawTriangle_cells` with the colour
`FG_WHITE` and the glyph `PIXEL_SOLID`, whatever colour and glyph are
passed. -/
theorem DrawTriangle_points_eq_plotAll (g : ConsoleGraphics) (p1 p2 p3 : point_2d)
    (c pt : Nat) :
    DrawTriangle_points g p1 p2 p3 c pt =
      plotAll g (DrawTriangle_cells p1 p2 p3) FG_WHITE PIXEL_SOLID := by
  unfold DrawTriangle_points DrawTriangle_cells
  simp only [DrawLine_eq_plotAll, plotAll_append]

theorem DrawTriangle_eq_plotAll (g : ConsoleGraphics) (t : triangle) (pt : Nat) :
    DrawTriangle g t pt =
      plotAll g (DrawTriangle_cells (toPoint t.p0) (toPoint t.p1) (toPoint t.p2))
        FG_WHITE PIXEL_SOLID := by
  unfold DrawTriangle
  rw [DrawTriangle_points_eq_plotAll]

/-- When the edge colour of the triangle is `FG_WHITE`, the colour in which
`DrawTriangle` draws, the fill leaves every cell of the outline as drawn. -/
theorem outline_kept_of_white (g : ConsoleGraphics) (t : triangle) (pt pt2 : Nat)
    (hedge : t.edgeColor = FG_WHITE) (p : point_2d)
    (hp : p ∈ DrawTriangle_cells (toPoint t.p0) (toPoint t.p1) (toPoint t.p2))
    (hg : InGrid g p) :
    (FillTriangle (DrawTriangle g t pt) t pt2).m_bufScreenData (cellIndex g p) =
      { UnicodeChar := PIXEL_SOLID, Attributes := FG_WHITE } := by
  have hw : (DrawTriangle g t pt).m_screenWidth = g.m_screenWidth := by
    rw [DrawTriangle_eq_plotAll, plotAll_width]
  have h1 : (DrawTriangle g t pt).m_bufScreenData (cellIndex g p) =
      { UnicodeChar := PIXEL_SOLID, Attributes := FG_WHITE } := by
    rw [DrawTriangle_eq_plotAll, plotAll_buf, if_pos ⟨p, hp, hg, rfl⟩]
  rw [FillTriangle_eq_plotAll, plotAll_buf, if_neg, h1]
  rintro ⟨q, hq, _, hqi⟩
  have hpaint := ((mem_FillTriangle_cells _ t q).mp hq).2
  apply hpaint.2.2
  rw [← hqi, h1, hedge]

/-- C26 at the cleared 10 by 10 grid and the triangle `(0,0)`, `(4,0)`, `(0,4)`
with edge colour `FG_RED` and fill colour `FG_BLACK`: the outline cell `(1, 0)`
carries `FG_WHITE` after `DrawTriangle`, and the fill colour `FG_BLACK` after
the following `FillTriangle`; it never carries the edge colour. -/
theorem DrawTriangle_ignores_edgeColor :
    (⟨1, 0⟩ : point_2d) ∈ DrawTriangle_cells
      (toPoint (triangle.ofPoints ⟨0, 0⟩ ⟨4, 0⟩ ⟨0, 4⟩ FG_BLACK FG_RED).p0)
      (toPoint (triangle.ofPoints ⟨0, 0⟩ ⟨4, 0⟩ ⟨0, 4⟩ FG_BLACK FG_RED).p1)
      (toPoint (triangle.ofPoints ⟨0, 0⟩ ⟨4, 0⟩ ⟨0, 4⟩ FG_BLACK FG_RED).p2) ∧
    ((DrawTriangle (zeroedScreen 10 10)
      (triangle.ofPoints ⟨0, 0⟩ ⟨4, 0⟩ ⟨0, 4⟩ FG_BLACK FG_RED) PIXEL_SOLID).m_bufScreenData
      (cellIndex (zeroedScreen 10 10) ⟨1, 0⟩)).Attributes = FG_WHITE ∧
    ((FillTriangle (DrawTriangle (zeroedScreen 10 10)
        (triangle.ofPoints ⟨0, 0⟩ ⟨4, 0⟩ ⟨0, 4⟩ FG_BLACK FG_RED) PIXEL_SOLID)
      (triangle.ofPoints ⟨0, 0⟩ ⟨4, 0⟩ ⟨0, 4⟩ FG_BLACK FG_RED) PIXEL_SOLID).m_bufScreenData
      (cellIndex (zeroedScreen 10 10) ⟨1, 0⟩)).Attributes = FG_BLACK ∧
    (triangle.ofPoints ⟨0, 0⟩ ⟨4, 0⟩ ⟨0, 4⟩ FG_BLACK FG_RED).edgeColor = FG_RED ∧
    FG_WHITE ≠ FG_RED ∧ FG_BLACK ≠ FG_RED := by
  have hcells : (⟨1, 0⟩ : point_2d) ∈ DrawTriangle_cells
      (toPoint (triangle.ofPoints ⟨0, 0⟩ ⟨4, 0⟩ ⟨0, 4⟩ FG_BLACK FG_RED).p0)
      (toPoint (triangle.ofPoints ⟨0, 0⟩ ⟨4, 0⟩ ⟨0, 4⟩ FG_BLACK FG_RED).p1)
      (toPoint (triangle.ofPoints ⟨0, 0⟩ ⟨4, 0⟩ ⟨0, 4⟩ FG_BLACK FG_RED).p2) := by
    simp only [triangle.ofPoints, toPoint_toVecF]
    decide
  have h1 : (DrawTriangle (zeroedScreen 10 10)
      (triangle.ofPoints ⟨0, 0⟩ ⟨4, 0⟩ ⟨0, 4⟩ FG_BLACK FG_RED) PIXEL_SOLID).m_bufScreenData
      (cellIndex (zeroedScreen 10 10) ⟨1, 0⟩) =
      { UnicodeChar := PIXEL_SOLID, Attributes := FG_WHITE } := by
    rw [DrawTriangle_eq_plotAll, plotAll_buf, if_pos ⟨⟨1, 0⟩, hcells, by decide, rfl⟩]
  have hw : (DrawTriangle (zeroedScreen 10 10)
      (triangle.ofPoints ⟨0, 0⟩ ⟨4, 0⟩ ⟨0, 4⟩ FG_BLACK FG_RED) PIXEL_SOLID).m_screenWidth = 10 := by
    rw [DrawTriangle_eq_plotAll, plotAll_width]; rfl
  have hh : (DrawTriangle (zeroedScreen 10 10)
      (triangle.ofPoints ⟨0, 0⟩ ⟨4, 0⟩ ⟨0, 4⟩ FG_BLACK FG_RED) PIXEL_SOLID).m_screenHeight = 10 := by
    rw [DrawTriangle_eq_plotAll, plotAll_height]; rfl
  have hidx : cellIndex (DrawTriangle (zeroedScreen 10 10)
      (triangle.ofPoints ⟨0, 0⟩ ⟨4, 0⟩ ⟨0, 4⟩ FG_BLACK FG_RED) PIXEL_SOLID) ⟨1, 0⟩ =
      cellIndex (zeroedScreen 10 10) ⟨1, 0⟩ := cellIndex_congr (by rw [hw]; rfl) _
  have hgrid : InGrid (DrawTriangle (zeroedScreen 10 10)
      (triangle.ofPoints ⟨0, 0⟩ ⟨4, 0⟩ ⟨0, 4⟩ FG_BLACK FG_RED) PIXEL_SOLID) ⟨1, 0⟩ := by
    unfold InGrid
    rw [hw, hh]
    decide
  have e0 : castInt 0 = 0 := by simpa using castInt_intCast 0
  have e4 : castInt 4 = 4 := by simpa using castInt_intCast 4
  have hmem : (⟨1, 0⟩ : point_2d) ∈ FillTriangle_cells (DrawTriangle (zeroedScreen 10 10)
      (triangle.ofPoints ⟨0, 0⟩ ⟨4, 0⟩ ⟨0, 4⟩ FG_BLACK FG_RED) PIXEL_SOLID)
      (triangle.ofPoints ⟨0, 0⟩ ⟨4, 0⟩ ⟨0, 4⟩ FG_BLACK FG_RED) := by
    rw [mem_FillTriangle_cells]
    refine ⟨?_, hgrid, ?_, ?_⟩
    · simp [triangle.inBoundingBox, triangle.ofPoints, toVecF, e0, e4]
    · simp only [triangle.ofPoints, toPoint_toVecF]
      rw [IsPointInsideTriangle_right]
      decide
    · rw [hidx, h1]
      decide
  refine ⟨hcells, by rw [h1], ?_, rfl, by decide, by decide⟩
  rw [FillTriangle_eq_plotAll, plotAll_buf, if_pos ⟨⟨1, 0⟩, hmem, hgrid, hidx.symm⟩]
  rfl

end Outline

section Overloads

theorem FillTriangle_points_cell_width (p1 p2 p3 : point_2d) (fill : Nat) (y : Int)
    (g : ConsoleGraphics) (x : Int) :
    (FillTriangle_points_cell p1 p2 p3 fill y g x).m_screenWidth = g.m_screenWidth := by
  unfold FillTriangle_points_cell
  split_ifs
  · exact Pixelate_width _ _ _ _
  · rfl

/-- The three-point fill leaves alone every element of the buffer that is not
the offset of a scanned cell. -/
theorem foldl_FillTriangle_points_cell_untouched (p1 p2 p3 : point_2d) (fill : Nat)
    (l : List point_2d) (g : ConsoleGraphics) (i : Int) (h : ∀ q ∈ l, i ≠ cellIndex g q) :
    (l.foldl (fun g q => FillTriangle_points_cell p1 p2 p3 fill q.y g q.x) g).m_bufScreenData i =
      g.m_bufScreenData i := by
  induction l generalizing g with
  | nil => rfl
  | cons a l ih =>
    rw [List.foldl_cons]
    have hw := FillTriangle_points_cell_width p1 p2 p3 fill a.y g a.x
    rw [ih]
    · unfold FillTriangle_points_cell
      split_ifs
      · rw [Pixelate_buf, if_neg]
        rintro ⟨_, hi⟩
        exact h a (List.mem_cons_self a l) hi
      · rfl
    · intro q hq
      rw [cellIndex_congr hw]
      exact h q (List.mem_cons_of_mem a hq)

/-- At a cell of the grid the bodies of the two fill loops agree, the
triangle object carrying the edge colour `FG_WHITE` and the glyph being
`PIXEL_SOLID`. -/
theorem FillTriangle_points_cell_eq (p1 p2 p3 : point_2d) (fill : Nat) (g : ConsoleGraphics)
    (x y : Int) (hg : InGrid g ⟨x, y⟩) :
    FillTriangle_points_cell p1 p2 p3 fill y g x =
      FillTriangle_cell (triangle.ofPoints p1 p2 p3 fill FG_WHITE) PIXEL_SOLID y g x := by
  unfold FillTriangle_points_cell FillTriangle_cell
  unfold InGrid at hg
  simp only at hg
  have hguard : x ≥ 0 ∧ x < g.m_screenWidth ∧ y ≥ 0 ∧ y < g.m_screenHeight :=
    ⟨hg.1, hg.2.1, hg.2.2.1, hg.2.2.2⟩
  rw [if_pos hguard]
  simp only [triangle.ofPoints, toPoint_toVecF]

theorem foldl_FillTriangle_points_cell_eq (p1 p2 p3 : point_2d) (fill : Nat)
    (l : List point_2d) (g : ConsoleGraphics) (h : ∀ q ∈ l, InGrid g q) :
    l.foldl (fun g q => FillTriangle_points_cell p1 p2 p3 fill q.y g q.x) g =
      l.foldl (fun g q =>
        FillTriangle_cell (triangle.ofPoints p1 p2 p3 fill FG_WHITE) PIXEL_SOLID q.y g q.x) g := by
  induction l generalizing g with
  | nil => rfl
  | cons a l ih =>
    rw [List.foldl_cons, List.foldl_cons,
      FillTriangle_points_cell_eq p1 p2 p3 fill g a.x a.y (h a (List.mem_cons_self a l))]
    apply ih
    intro q hq
    exact (InGrid_congr (FillTriangle_cell_width _ _ _ _ _) (FillTriangle_cell_height _ _ _ _ _)
      q).mpr (h q (List.mem_cons_of_mem a hq))

/-- When the three vertices lie inside the grid and the x coordinate of the
second vertex does not exceed both others, the two overloads of `FillTriangle`
agree. -/
theorem FillTriangle_overloads_agree (g : ConsoleGraphics) (p1 p2 p3 : point_2d)
    (fill pt : Nat) (h1 : InGrid g p1) (h2 : InGrid g p2) (h3 : InGrid g p3)
    (hx : p2.x ≤ max p1.x p3.x) :
    FillTriangle_points g p1 p2 p3 fill pt =
      FillTriangle g (triangle.ofPoints p1 p2 p3 fill FG_WHITE) PIXEL_SOLID := by
  unfold FillTriangle_points FillTriangle
  have hmax : max (max p1.x p3.x) p3.x = max (max p1.x p2.x) p3.x := by
    rcases le_total p1.x p3.x with ha | ha <;> rcases le_total p1.x p2.x with hb | hb <;>
      rcases le_total p2.x p3.x with hc | hc <;>
      simp only [max_def, ha, hb, hc, if_true, if_false] at hx ⊢ <;> split_ifs at hx ⊢ <;> omega
  simp only [triangle.ofPoints, toVecF, castInt_intCast, hmax]
  rw [foldl_rows_cols, foldl_rows_cols]
  apply foldl_FillTriangle_points_cell_eq
  intro q hq
  rw [mem_rows_cols, mem_forRange, mem_forRange] at hq
  unfold InGrid at h1 h2 h3 ⊢
  obtain ⟨⟨a, b⟩, c, d⟩ := hq
  have ha := min_le_iff.mp (le_refl (min (min p1.x p2.x) p3.x))
  have hc := min_le_iff.mp (le_refl (min (min p1.y p2.y) p3.y))
  have hb := le_max_iff.mp (le_refl (max (max p1.x p2.x) p3.x))
  have hd := le_max_iff.mp (le_refl (max (max p1.y p2.y) p3.y))
  simp only [min_le_iff, le_max_iff] at ha hb hc hd
  refine ⟨?_, ?_, ?_, ?_⟩ <;> omega

/-- C27 at the cleared 10 by 10 grid and the vertices `(0,0)`, `(4,0)`, `(0,4)`
with fill colour `FG_RED`: the three-point overload leaves the cell `(1, 0)`
as it was, the triangle-object overload with edge colour `FG_WHITE` and glyph
`PIXEL_SOLID` paints it. -/
theorem FillTriangle_overloads_differ :
    (FillTriangle_points (zeroedScreen 10 10) ⟨0, 0⟩ ⟨4, 0⟩ ⟨0, 4⟩ FG_RED
      PIXEL_SOLID).m_bufScreenData (cellIndex (zeroedScreen 10 10) ⟨1, 0⟩) =
      { UnicodeChar := 0, Attributes := 0 } ∧
    (FillTriangle (zeroedScreen 10 10) (triangle.ofPoints ⟨0, 0⟩ ⟨4, 0⟩ ⟨0, 4⟩ FG_RED FG_WHITE)
      PIXEL_SOLID).m_bufScreenData (cellIndex (zeroedScreen 10 10) ⟨1, 0⟩) =
      { UnicodeChar := PIXEL_SOLID, Attributes := FG_RED } ∧
    InGrid (zeroedScreen 10 10) ⟨0, 0⟩ ∧ InGrid (zeroedScreen 10 10) ⟨4, 0⟩ ∧
    InGrid (zeroedScreen 10 10) ⟨0, 4⟩ := by
  refine ⟨?_, ?_, by decide, by decide, by decide⟩
  · unfold FillTriangle_points
    simp only
    rw [foldl_rows_cols, foldl_FillTriangle_points_cell_untouched]
    · rfl
    · intro q hq
      rw [mem_rows_cols, mem_forRange, mem_forRange] at hq
      obtain ⟨⟨a, b⟩, c, d⟩ := hq
      have m1 : min (min (0 : Int) 4) 0 = 0 := by decide
      have m2 : max (max (0 : Int) 0) 0 + 1 = 1 := by decide
      rw [m1] at a
      rw [m2] at b
      unfold cellIndex zeroedScreen
      simp only
      omega
  · have hc := FillTriangle_cells_right (zeroedScreen 10 10) FG_RED FG_WHITE rfl rfl
      (fun _ _ => by simp [zeroedScreen, FG_WHITE])
    rw [FillTriangle_eq_plotAll, plotAll_buf, hc, if_pos ⟨⟨1, 0⟩, by decide, by decide, rfl⟩]
    rfl

end Overloads

section FillCircleArguments

/-- C31. `FillCircle` does not depend on its colour and glyph arguments.  For
every buffer, centre and radius and any two choices of colour and glyph the
two calls leave identical states; every cell of the grid handed to `Pixelate`
holds the glyph `PIXEL_SOLID` with the attribute `FG_WHITE`, every other
element of the buffer keeps its value, and for a positive radius the centre
cell, when inside the grid, is one of the painted cells. -/
theorem FillCircle_ignores_arguments (g : ConsoleGraphics) (c : point_2d) (r : Int)
    (color1 glyph1 color2 glyph2 : Nat) :
    FillCircle g c r color1 glyph1 = FillCircle g c r color2 glyph2 ∧
    (∀ q ∈ FillCircle_cells c r, InGrid g q →
      (FillCircle g c r color1 glyph1).m_bufScreenData (cellIndex g q) =
        { UnicodeChar := PIXEL_SOLID, Attributes := FG_WHITE }) ∧
    (∀ i : Int, (¬ ∃ q ∈ FillCircle_cells c r, InGrid g q ∧ i = cellIndex g q) →
      (FillCircle g c r color1 glyph1).m_bufScreenData i = g.m_bufScreenData i) ∧
    (0 < r → InGrid g c →
      (FillCircle g c r color1 glyph1).m_bufScreenData (cellIndex g c) =
        { UnicodeChar := PIXEL_SOLID, Attributes := FG_WHITE }) := by
  have hpaint : ∀ q ∈ FillCircle_cells c r, InGrid g q →
      (FillCircle g c r color1 glyph1).m_bufScreenData (cellIndex g q) =
        { UnicodeChar := PIXEL_SOLID, Attributes := FG_WHITE } := by
    intro q hq hg
    rw [FillCircle_eq_plotAll, plotAll_buf, if_pos ⟨q, hq, hg, rfl⟩]
  refine ⟨?_, hpaint, ?_, ?_⟩
  · rw [FillCircle_eq_plotAll, FillCircle_eq_plotAll]
  · intro i hi
    rw [FillCircle_eq_plotAll, plotAll_buf, if_neg hi]
  · intro hr hg
    have hne : r ≠ 0 := by omega
    have hcov := (FillCircle_loop_cells_cover c (r - 0 + 1).toNat 0 r (3 - 2 * r) (le_refl 0)
      (Int.self_le_toNat _) 0 (le_refl 0) (by omega)).1
    have hc : c ∈ FillCircle_cells c r := by
      unfold FillCircle_cells
      rw [if_neg hne]
      have e : (⟨c.x, c.y - 0⟩ : point_2d) = c := by cases c; simp
      rw [e] at hcov
      exact hcov
    exact hpaint c hc hg

/-- Witness of C31 on the cleared 10 by 10 grid, centre `(5, 5)`, radius 3:
the calls with `FG_RED` and the glyph 0 and with `FG_BLACK` and the solid
glyph agree, and the centre cell holds the solid glyph with `FG_WHITE`. -/
theorem FillCircle_ignores_arguments_witness :
    FillCircle (zeroedScreen 10 10) ⟨5, 5⟩ 3 FG_RED 0 =
      FillCircle (zeroedScreen 10 10) ⟨5, 5⟩ 3 FG_BLACK PIXEL_SOLID ∧
    (FillCircle (zeroedScreen 10 10) ⟨5, 5⟩ 3 FG_RED 0).m_bufScreenData
        (cellIndex (zeroedScreen 10 10) ⟨5, 5⟩) =
      { UnicodeChar := PIXEL_SOLID, Attributes := FG_WHITE } :=
  ⟨(FillCircle_ignores_arguments (zeroedScreen 10 10) ⟨5, 5⟩ 3 FG_RED 0 FG_BLACK PIXEL_SOLID).1,
    (FillCircle_ignores_arguments (zeroedScreen 10 10) ⟨5, 5⟩ 3 FG_RED 0 FG_BLACK
      PIXEL_SOLID).2.2.2 (by decide) (by decide)⟩

end FillCircleArguments

section Interleaving

theorem GameThread_interleave_append (c : Consumer) (l1 l2 : List ThreadAction)
    (s : LoopState) :
    GameThread_interleave c (l1 ++ l2) s =
      GameThread_interleave c l2 (GameThread_interleave c l1 s) := by
  induction l1 generalizing s with
  | nil => rfl
  | cons a l ih =>
    cases a
    · exact ih (GameThread_step c s)
    · exact ih (ControlCloseHandler_store s)

/-- A schedule without stop requests is a run of the loop thread on its own. -/
theorem GameThread_interleave_loopSteps (c : Consumer) (n : Nat) (s : LoopState) :
    GameThread_interleave c (List.replicate n ThreadAction.loopStep) s = GameThread_run c n s := by
  induction n generalizing s with
  | zero => rfl
  | succ n ih => exact ih (GameThread_step c s)

/-- A stop request adds no event; every schedule keeps the events so far and
appends to them. -/
theorem GameThread_interleave_log (c : Consumer) (l : List ThreadAction) (s : LoopState) :
    ∃ rest, (GameThread_interleave c l s).log = s.log ++ rest := by
  induction l generalizing s with
  | nil => exact ⟨[], by simp [GameThread_interleave]⟩
  | cons a l ih =>
    cases a
    · obtain ⟨r1, h1⟩ := GameThread_step_log c s
      obtain ⟨r2, h2⟩ := ih (GameThread_step c s)
      exact ⟨r1 ++ r2, by
        show (GameThread_interleave c l (GameThread_step c s)).log = _
        rw [h2, h1, List.append_assoc]⟩
    · obtain ⟨r2, h2⟩ := ih (ControlCloseHandler_store s)
      exact ⟨r2, h2⟩

/-- After the end of `GameThread` no schedule produces an event. -/
theorem GameThread_interleave_stopped (c : Consumer) (l : List ThreadAction) (s : LoopState)
    (h : s.pc = LoopPC.stopped) :
    (GameThread_interleave c l s).pc = LoopPC.stopped ∧
      (GameThread_interleave c l s).log = s.log := by
  induction l generalizing s with
  | nil => exact ⟨h, rfl⟩
  | cons a l ih =>
    cases a
    · show (GameThread_interleave c l (GameThread_step c s)).pc = _ ∧
        (GameThread_interleave c l (GameThread_step c s)).log = _
      rw [GameThread_step_stopped c s h]
      exact ih s h
    · exact ih (ControlCloseHandler_store s) h

/-- A stop request that arrives at the test of the inner loop is served: with
a `Destroy` that returns true the thread calls it, releases the buffer,
restores the console, issues `notify_one` and ends. -/
theorem stop_request_at_innerTest (c : Consumer) (s : LoopState)
    (hpc : s.pc = LoopPC.innerTest) (hdes : c.Destroy s.nDestroy = true) :
    (GameThread_interleave c [ThreadAction.stopRequest, ThreadAction.loopStep,
      ThreadAction.loopStep, ThreadAction.loopStep] s).pc = LoopPC.stopped ∧
    (GameThread_interleave c [ThreadAction.stopRequest, ThreadAction.loopStep,
      ThreadAction.loopStep, ThreadAction.loopStep] s).log =
      s.log ++ [LoopEvent.callDestroy, LoopEvent.releaseBuffer, LoopEvent.restoreSurface,
        LoopEvent.notifyOne] := by
  simp [GameThread_interleave, ControlCloseHandler_store, GameThread_step, hpc, hdes]

/-- A stop request that arrives in the body of the inner loop is served after
the frame. -/
theorem stop_request_at_frame (c : Consumer) (s : LoopState)
    (hpc : s.pc = LoopPC.frame) (hdes : c.Destroy s.nDestroy = true) :
    (GameThread_interleave c [ThreadAction.stopRequest, ThreadAction.loopStep,
      ThreadAction.loopStep, ThreadAction.loopStep, ThreadAction.loopStep] s).pc =
      LoopPC.stopped ∧
    (GameThread_interleave c [ThreadAction.stopRequest, ThreadAction.loopStep,
      ThreadAction.loopStep, ThreadAction.loopStep, ThreadAction.loopStep] s).log =
      s.log ++ [LoopEvent.pollInput, LoopEvent.callUpdate, LoopEvent.flushScreen,
        LoopEvent.callDestroy, LoopEvent.releaseBuffer, LoopEvent.restoreSurface,
        LoopEvent.notifyOne] := by
  simp [GameThread_interleave, ControlCloseHandler_store, GameThread_step, hpc, hdes]

/-- A stop request that arrives at the test of the outer loop ends the thread
at once, whatever the consumer: no call of `Destroy`, no `notify_one`. -/
theorem stop_request_at_outerTest (c : Consumer) (s : LoopState)
    (hpc : s.pc = LoopPC.outerTest) (l : List ThreadAction) :
    (GameThread_interleave c
      ([ThreadAction.stopRequest, ThreadAction.loopStep] ++ l) s).pc = LoopPC.stopped ∧
    (GameThread_interleave c
      ([ThreadAction.stopRequest, ThreadAction.loopStep] ++ l) s).log = s.log := by
  rw [GameThread_interleave_append]
  have h : GameThread_interleave c [ThreadAction.stopRequest, ThreadAction.loopStep] s =
      { s with pc := LoopPC.stopped, m_bIsRunning := false } := by
    simp [GameThread_interleave, ControlCloseHandler_store, GameThread_step, hpc]
  rw [h]
  exact GameThread_interleave_stopped c l _ rfl

/-- C24 at a consumer whose `Setup`, `Update` and `Destroy` always return
true.  A stop request that arrives while the thread is in `Setup`, or between
`Setup` and the first test of the outer loop, makes that test fail: the thread
ends with the call of `Setup` as its only event, and no later action of
either thread adds one, so `Destroy` is never called and `notify_one` is never
issued for the waiting handler. -/
theorem stop_request_during_Setup :
    (∀ l : List ThreadAction,
      (GameThread_interleave
        { Setup := true, Update := fun _ => true, Destroy := fun _ => true }
        ([ThreadAction.loopStep, ThreadAction.stopRequest, ThreadAction.loopStep] ++ l)
        GameThread_init).pc = LoopPC.stopped ∧
      (GameThread_interleave
        { Setup := true, Update := fun _ => true, Destroy := fun _ => true }
        ([ThreadAction.loopStep, ThreadAction.stopRequest, ThreadAction.loopStep] ++ l)
        GameThread_init).log = [LoopEvent.callSetup] ∧
      LoopEvent.notifyOne ∉ (GameThread_interleave
        { Setup := true, Update := fun _ => true, Destroy := fun _ => true }
        ([ThreadAction.loopStep, ThreadAction.stopRequest, ThreadAction.loopStep] ++ l)
        GameThread_init).log) ∧
    (∀ l : List ThreadAction,
      (GameThread_interleave
        { Setup := true, Update := fun _ => true, Destroy := fun _ => true }
        ([ThreadAction.stopRequest, ThreadAction.loopStep, ThreadAction.loopStep] ++ l)
        GameThread_init).pc = LoopPC.stopped ∧
      (GameThread_interleave
        { Setup := true, Update := fun _ => true, Destroy := fun _ => true }
        ([ThreadAction.stopRequest, ThreadAction.loopStep, ThreadAction.loopStep] ++ l)
        GameThread_init).log = [LoopEvent.callSetup] ∧
      LoopEvent.notifyOne ∉ (GameThread_interleave
        { Setup := true, Update := fun _ => true, Destroy := fun _ => true }
        ([ThreadAction.stopRequest, ThreadAction.loopStep, ThreadAction.loopStep] ++ l)
        GameThread_init).log) := by
  constructor
  · intro l
    rw [GameThread_interleave_append]
    obtain ⟨h1, h2⟩ := GameThread_interleave_stopped
      { Setup := true, Update := fun _ => true, Destroy := fun _ => true } l
      (GameThread_interleave { Setup := true, Update := fun _ => true, Destroy := fun _ => true }
        [ThreadAction.loopStep, ThreadAction.stopRequest, ThreadAction.loopStep]
        GameThread_init) (by decide)
    rw [h1, h2]
    exact ⟨rfl, by decide, by decide⟩
  · intro l
    rw [GameThread_interleave_append]
    obtain ⟨h1, h2⟩ := GameThread_interleave_stopped
      { Setup := true, Update := fun _ => true, Destroy := fun _ => true } l
      (GameThread_interleave { Setup := true, Update := fun _ => true, Destroy := fun _ => true }
        [ThreadAction.stopRequest, ThreadAction.loopStep, ThreadAction.loopStep]
        GameThread_init) (by decide)
    rw [h1, h2]
    exact ⟨rfl, by decide, by decide⟩

/-- Counterexample to C20.  `Update` returns false at its first call and
`Destroy` returns false at its first call (the veto) and true afterwards.  In
the first schedule a stop request arrives right after the veto: the thread
fails the outer test and ends, and `Update` is not called again.  In the
second it arrives after the outer test: the inner test fails and `Destroy` is
called a second time with no call of `Update` in between. -/
theorem teardown_veto_counterexample :
    (GameThread_interleave
      { Setup := true, Update := fun _ => false, Destroy := fun k => decide (0 < k) }
      (List.replicate 6 ThreadAction.loopStep ++
        [ThreadAction.stopRequest, ThreadAction.loopStep]) GameThread_init).pc
      = LoopPC.stopped ∧
    (GameThread_interleave
      { Setup := true, Update := fun _ => false, Destroy := fun k => decide (0 < k) }
      (List.replicate 6 ThreadAction.loopStep ++
        [ThreadAction.stopRequest, ThreadAction.loopStep]) GameThread_init).log =
      [LoopEvent.callSetup, LoopEvent.pollInput, LoopEvent.callUpdate, LoopEvent.flushScreen,
        LoopEvent.callDestroy] ∧
    (GameThread_interleave
      { Setup := true, Update := fun _ => false, Destroy := fun k => decide (0 < k) }
      (List.replicate 7 ThreadAction.loopStep ++
        [ThreadAction.stopRequest, ThreadAction.loopStep, ThreadAction.loopStep])
      GameThread_init).log =
      [LoopEvent.callSetup, LoopEvent.pollInput, LoopEvent.callUpdate, LoopEvent.flushScreen,
        LoopEvent.callDestroy, LoopEvent.callDestroy, LoopEvent.releaseBuffer,
        LoopEvent.restoreSurface, LoopEvent.notifyOne] := by
  refine ⟨by decide, by decide, by decide⟩

/-- Stop requests change nothing but the flag. -/
theorem GameThread_interleave_stopRequests (c : Consumer) (k : Nat) (s : LoopState) :
    ∃ b : Bool, GameThread_interleave c (List.replicate k ThreadAction.stopRequest) s =
      { s with m_bIsRunning := b } := by
  induction k generalizing s with
  | zero => exact ⟨s.m_bIsRunning, rfl⟩
  | succ k ih =>
    obtain ⟨b, hb⟩ := ih (ControlCloseHandler_store s)
    exact ⟨b, by
      show GameThread_interleave c (List.replicate k ThreadAction.stopRequest)
        (ControlCloseHandler_store s) = _
      rw [hb]; rfl⟩

/-- C20, amended.  Teardown veto.  When the call of `Destroy` returns false,
that step appends only the call of `Destroy` to the events (no release of the
buffer, no restore of the console, no `notify_one`) and sets `m_bIsRunning`.
When no stop request arrives before the thread has passed the two loop tests
(no external signal there), three steps after the veto the thread is at the
body of the inner loop with no further event and its next step is a frame with
a call of `Update`, also when stop requests arrive before that step; whatever
the two threads do after that frame, the events continue from it, so `Update`
is called before `Destroy` can be called again. -/
theorem GameThread_teardown_veto (c : Consumer) (s : LoopState)
    (hpc : s.pc = LoopPC.teardown) (hdes : c.Destroy s.nDestroy = false) :
    (GameThread_step c s).log = s.log ++ [LoopEvent.callDestroy] ∧
    (GameThread_step c s).m_bIsRunning = true ∧
    (GameThread_run c 3 s).pc = LoopPC.frame ∧
    (GameThread_run c 3 s).log = s.log ++ [LoopEvent.callDestroy] ∧
    (∀ m : Nat, ∃ rest, (GameThread_run c (4 + m) s).log =
      s.log ++ [LoopEvent.callDestroy, LoopEvent.pollInput, LoopEvent.callUpdate,
        LoopEvent.flushScreen] ++ rest) ∧
    (∀ (k : Nat) (l : List ThreadAction), ∃ rest,
      (GameThread_interleave c (List.replicate 3 ThreadAction.loopStep ++
        (List.replicate k ThreadAction.stopRequest ++ ThreadAction.loopStep :: l)) s).log =
        s.log ++ [LoopEvent.callDestroy, LoopEvent.pollInput, LoopEvent.callUpdate,
          LoopEvent.flushScreen] ++ rest) := by
  have h1 : GameThread_step c s =
      { s with pc := LoopPC.outerTest, m_bIsRunning := true, nDestroy := s.nDestroy + 1,
               log := s.log ++ [LoopEvent.callDestroy] } := by
    simp [GameThread_step, hpc, hdes]
  have h3 : GameThread_run c 3 s =
      { s with pc := LoopPC.frame, m_bIsRunning := true, nDestroy := s.nDestroy + 1,
               log := s.log ++ [LoopEvent.callDestroy] } := by
    simp [GameThread_run, GameThread_step, hpc, hdes]
  have h4 : (GameThread_run c 4 s).log =
      s.log ++ [LoopEvent.callDestroy, LoopEvent.pollInput, LoopEvent.callUpdate,
        LoopEvent.flushScreen] := by
    simp [GameThread_run, GameThread_step, hpc, hdes]
  refine ⟨by rw [h1], by rw [h1], by rw [h3], by rw [h3], ?_, ?_⟩
  · intro m
    obtain ⟨rest, hrest⟩ := GameThread_run_log c m (GameThread_run c 4 s)
    exact ⟨rest, by rw [GameThread_run_add, hrest, h4]⟩
  · intro k l
    rw [GameThread_interleave_append, GameThread_interleave_loopSteps, h3,
      GameThread_interleave_append]
    obtain ⟨b, hb⟩ := GameThread_interleave_stopRequests c k
      { s with pc := LoopPC.frame, m_bIsRunning := true, nDestroy := s.nDestroy + 1,
               log := s.log ++ [LoopEvent.callDestroy] }
    rw [hb]
    obtain ⟨rest, hrest⟩ := GameThread_interleave_log c l (GameThread_step c
      { s with pc := LoopPC.frame, m_bIsRunning := b, nDestroy := s.nDestroy + 1,
               log := s.log ++ [LoopEvent.callDestroy] })
    refine ⟨rest, ?_⟩
    show (GameThread_interleave c l (GameThread_step c _)).log = _
    rw [hrest]
    simp [GameThread_step]

/-- Witness of C20: `Update` returns false at its first call and `Destroy`
returns false. -/
theorem GameThread_teardown_veto_witness :
    (GameThread_run { Setup := true, Update := fun k => decide (k = 5), Destroy := fun _ => false }
      3 (GameThread_run
        { Setup := true, Update := fun k => decide (k = 5), Destroy := fun _ => false } 5
        GameThread_init)).pc = LoopPC.frame :=
  (GameThread_teardown_veto
    { Setup := true, Update := fun k => decide (k = 5), Destroy := fun _ => false }
    (GameThread_run { Setup := true, Update := fun k => decide (k = 5), Destroy := fun _ => false }
      5 GameThread_init) (by decide) (by decide)).2.2.1

end Interleaving

end ConsoleGraphicsRenderer
